import Mathlib

/-!
The xtcp connection I/O engine and packet framing.

A shallow embedding of `xtcp_conn.go`, `xtcp_conn_pkg.go`, the constants of
`xtcp_func.go`, the containers `xlist` and `xpool`, and the pooled connection of
`xtcp_pool.go` and `xtcp_pool_pkg.go`, followed by theorems about the framing protocol,
the retrying send/receive loops, the delimiter-bounded receives, the deadlines, the pool
and the pooled connection.

Modelling conventions

* A byte is a `Fin 256`; a Go `int` is an `Int` (64-bit, values in this development stay
  far from the bounds); a `uint32` conversion is an explicit `% 2 ^ 32`.
* A Go `error` is an `Option Err`, `none` being the `nil` error.  A `nil` slice and an
  empty slice are both the empty list.
* The peer of a connection is a script: the list of results its `Read` calls are going
  to produce, the list of outcomes of its `Write` calls, and the list of outcomes of its
  deadline setters.  A read script that has run out reports end of stream; a write
  script that has run out accepts every write.
* `time.Sleep` has no effect on the modelled state.  The clock is read once per
  operation: `time.Now()` is the field `now` of a connection, and an argument of the pool
  operations.
* Loops are structurally recursive on a fuel argument; the entry points supply a fuel
  computed from the scripts, and `none` (or `Outcome.hang`) is "the fuel ran out".
-/

namespace Xtcp

/-! ## Data model -/

/-- One octet. -/
abbrev Byte := Fin 256

/-- Points in time and durations, in nanoseconds; `0` is the zero `time.Time`. -/
abbrev Time := Int

/-- Error values that the connection layer produces or passes on. -/
inductive Err where
  /-- The end-of-stream error `io.EOF`. -/
  | eof
  /-- A `net.Error` whose `Timeout()` is true. -/
  | timeout
  /-- Any other error of the stream. -/
  | io (code : Nat)
  /-- The error of `SendPkg`: data too long, data size `size`. -/
  | dataTooLongSend (size : Int)
  /-- The error of `RecvPkg`: data too long, data size is `size`. -/
  | dataTooLongRecv (size : Int)
  /-- The error "pkgHeaderSize is too big". -/
  | headerSizeTooBig
  /-- The error "DataSize is too big". -/
  | dataSizeTooBig
  /-- The error "pool is closed" of `xpool`. -/
  | poolClosed
  /-- The error "pool and NewFunc is empty" of `xpool`. -/
  | poolEmpty
  deriving DecidableEq, Repr

/-- Function `isTimeout` of `xtcp_func.go`. -/
def isTimeout (err : Option Err) : Bool :=
  match err with
  | none => false
  | some Err.timeout => true
  | some _ => false

/-- The constant `defaultRetryInternal` (100 ms). -/
def defaultRetryInternal : Int := 100000000

/-- The constant `defaultReadBufferSize`. -/
def defaultReadBufferSize : Nat := 128

/-- The constant `receiveAllWaitTimeout` (1 ms). -/
def receiveAllWaitTimeout : Int := 1000000

/-- The constant `pkgHeaderSizeDefault`. -/
def pkgHeaderSizeDefault : Int := 2

/-- The constant `pkgHeaderSizeMax`. -/
def pkgHeaderSizeMax : Int := 4

/-- Type `Retry` of `xtcp_func.go`. -/
structure Retry where
  Count : Int
  Interval : Int
  deriving DecidableEq, Repr

/-- Type `PkgOption` of `xtcp_conn_pkg.go`. -/
structure PkgOption where
  HeaderSize : Int
  MaxDataSize : Int
  Retry : Retry
  deriving DecidableEq, Repr

/-- One result of a `Read` on the underlying stream: the bytes that arrive and the error
reported with them (`none` for a successful read). -/
structure ReadEv where
  data : List Byte
  err : Option Err
  deriving DecidableEq, Repr

/-- One outcome of a `Write` on the underlying stream: success, or a failure after `n`
bytes went out. -/
inductive WriteEv where
  | ok
  | fail (n : Nat) (e : Err)
  deriving DecidableEq, Repr

/-- Type `Conn`: the underlying stream (as scripts and logs), the `bufio.Reader` over it
(`rbuf`, `rerr`), and the fields `receiveDeadline`, `sendDeadline`, `receiveBufferWait`. -/
structure Conn where
  /-- Results of the coming `Read` calls on the underlying stream. -/
  rscript : List ReadEv
  /-- Bytes the buffered reader holds and has not handed out yet. -/
  rbuf : List Byte
  /-- Error the buffered reader holds back until its buffer is empty. -/
  rerr : Option Err
  /-- Number of `Read` calls made on the underlying stream. -/
  nreads : Nat
  /-- Outcomes of the coming `Write` calls. -/
  wscript : List WriteEv
  /-- The argument of every `Write` call made, oldest first. -/
  writes : List (List Byte)
  /-- The bytes that went out on the stream. -/
  wire : List Byte
  /-- Outcomes of the coming deadline-setting calls on the stream. -/
  dscript : List (Option Err)
  /-- Read deadline in force on the stream. -/
  readDeadline : Time
  /-- Write deadline in force on the stream. -/
  writeDeadline : Time
  /-- Reading of `time.Now()`. -/
  now : Time
  receiveDeadline : Time
  sendDeadline : Time
  receiveBufferWait : Int
  deriving DecidableEq, Repr

/-- Result of an operation that can stop with a run-time fault. -/
inductive Outcome (α : Type) where
  /-- Normal return. -/
  | ret (a : α)
  /-- Run-time fault: slice bounds or index out of range. -/
  | panic
  /-- The fuel of a loop ran out. -/
  | hang
  deriving DecidableEq, Repr

/-! ## The stream and the buffered reader -/

/-- Size of the buffer of `bufio.NewReader`. -/
def bufSize : Nat := 4096

/-- `Read` of the underlying stream into a slice of `cap` bytes: the next scripted result,
cut to `cap` bytes (what does not fit stays for the next call). -/
def netRead (script : List ReadEv) (cap : Nat) : (List Byte × Option Err) × List ReadEv :=
  match script with
  | [] => (([], some Err.eof), [])
  | ev :: rest =>
    if ev.data.length ≤ cap then ((ev.data, ev.err), rest)
    else ((ev.data.take cap, none), { ev with data := ev.data.drop cap } :: rest)

/-- Call `c.reader.Read(p)` with `len(p) = cap`, after `(*bufio.Reader).Read`: an empty
`p` reads nothing; buffered bytes are handed out first; with an empty buffer a held-back
error is reported; otherwise one `Read` is made on the stream, straight into `p` when `p`
is at least as large as the buffer, else into the buffer, whose error is held back while
bytes are handed out. -/
def Conn.read (c : Conn) (cap : Nat) : (List Byte × Option Err) × Conn :=
  if cap = 0 then
    match c.rbuf with
    | _ :: _ => (([], none), c)
    | [] => (([], c.rerr), { c with rerr := none })
  else
    match c.rbuf with
    | _ :: _ => ((c.rbuf.take cap, none), { c with rbuf := c.rbuf.drop cap })
    | [] =>
      match c.rerr with
      | some e => (([], some e), { c with rerr := none })
      | none =>
        if bufSize ≤ cap then
          (((netRead c.rscript cap).1.1, (netRead c.rscript cap).1.2),
            { c with rscript := (netRead c.rscript cap).2, nreads := c.nreads + 1 })
        else
          match (netRead c.rscript bufSize).1.1 with
          | [] => (([], (netRead c.rscript bufSize).1.2),
              { c with rscript := (netRead c.rscript bufSize).2, nreads := c.nreads + 1 })
          | b :: bs => (((b :: bs).take cap, none),
              { c with rscript := (netRead c.rscript bufSize).2, nreads := c.nreads + 1,
                       rbuf := (b :: bs).drop cap, rerr := (netRead c.rscript bufSize).1.2 })

/-- Call `c.Write(data)` on the underlying stream. -/
def Conn.write (c : Conn) (data : List Byte) : Option Err × Conn :=
  match c.wscript with
  | [] => (none, { c with writes := c.writes ++ [data], wire := c.wire ++ data })
  | WriteEv.ok :: rest =>
    (none, { c with wscript := rest, writes := c.writes ++ [data], wire := c.wire ++ data })
  | WriteEv.fail n e :: rest =>
    (some e, { c with wscript := rest, writes := c.writes ++ [data],
                      wire := c.wire ++ data.take n })

/-- Call `c.SetReadDeadline(t)` on the underlying stream. -/
def Conn.SetReadDeadline (c : Conn) (t : Time) : Option Err × Conn :=
  match c.dscript with
  | [] => (none, { c with readDeadline := t })
  | none :: rest => (none, { c with dscript := rest, readDeadline := t })
  | some e :: rest => (some e, { c with dscript := rest })

/-- Call `c.SetWriteDeadline(t)` on the underlying stream. -/
def Conn.SetWriteDeadline (c : Conn) (t : Time) : Option Err × Conn :=
  match c.dscript with
  | [] => (none, { c with writeDeadline := t })
  | none :: rest => (none, { c with dscript := rest, writeDeadline := t })
  | some e :: rest => (some e, { c with dscript := rest })

/-- Function `NewConnByNetConn`: a connection over a fresh stream. -/
def NewConnByNetConn (rscript : List ReadEv) (wscript : List WriteEv)
    (dscript : List (Option Err)) (now : Time) : Conn :=
  { rscript := rscript, rbuf := [], rerr := none, nreads := 0,
    wscript := wscript, writes := [], wire := [],
    dscript := dscript, readDeadline := 0, writeDeadline := 0, now := now,
    receiveDeadline := 0, sendDeadline := 0, receiveBufferWait := receiveAllWaitTimeout }

/-! ## Send and Recv -/

/-- The retry bookkeeping of `Send` and `Recv`: `Count--`, and a zero `Interval` becomes
`defaultRetryInternal`. -/
def Retry.consume (r : Retry) : Retry :=
  { Count := r.Count - 1,
    Interval := if r.Interval = 0 then defaultRetryInternal else r.Interval }

/-- The loop of `Send`. -/
def sendLoop : Nat → Conn → List Byte → List Retry → Option (Option Err × List Retry × Conn)
  | 0, _, _, _ => none
  | fuel + 1, c, data, retry =>
    match c.write data with
    | (some err, c1) =>
      if err = Err.eof then some (some err, retry, c1)
      else
        match retry with
        | [] => some (some err, retry, c1)
        | r :: rs =>
          if r.Count = 0 then some (some err, retry, c1)
          else sendLoop fuel c1 data (r.consume :: rs)
    | (none, c1) => some (none, retry, c1)

/-- Method `Conn.Send`.  Returns the error, the retry slice as the loop left it, and the
connection. -/
def Conn.Send (c : Conn) (data : List Byte) (retry : List Retry) :
    Option (Option Err × List Retry × Conn) :=
  sendLoop (c.wscript.length + 1) c data retry

/-- Size of a read script: its results and the bytes they carry. -/
def scriptSize (s : List ReadEv) : Nat :=
  s.length + (s.map (fun ev => ev.data.length)).sum

/-- Number of loop rounds the read side can sustain: every round that does not leave the
loop uses up a scripted result, a scripted byte, a buffered byte or the held-back error. -/
def Conn.rmeasure (c : Conn) : Nat :=
  scriptSize c.rscript + c.rbuf.length + (if c.rerr.isSome then 1 else 0)

/-- The loop of `Recv`.  `got` is `buffer[:index]`, `blen` is `len(buffer)`. -/
def recvLoop : Nat → Conn → Int → List Retry → List Byte → Nat → Bool →
    Option ((List Byte × Option Err) × List Retry × Conn)
  | 0, _, _, _, _, _, _ => none
  | fuel + 1, c, length, retry, got, blen, bufferWait =>
    -- if length < 0 && index > 0 { bufferWait = true; SetReadDeadline(now + wait) }
    let bw : Bool := if length < 0 ∧ 0 < got.length then true else bufferWait
    let pre : Option Err × Conn :=
      if length < 0 ∧ 0 < got.length then c.SetReadDeadline (c.now + c.receiveBufferWait)
      else (none, c)
    match pre with
    | (some e, c1) => some (([], some e), retry, c1)
    | (none, c1) =>
      -- size, err = c.reader.Read(buffer[index:])
      match c1.read (blen - got.length) with
      | ((d, err), c2) =>
        let got2 := got ++ d
        let brk : Option ((List Byte × Option Err) × List Retry × Conn) :=
          some ((got2, err), retry, c2)
        if 0 < d.length ∧ 0 < length ∧ (got2.length : Int) = length then brk
        else if 0 < d.length ∧ ¬ 0 < length ∧ ¬ defaultReadBufferSize ≤ got2.length
            ∧ bw = false then brk
        else
          let blen2 : Nat :=
            if 0 < d.length ∧ ¬ 0 < length ∧ defaultReadBufferSize ≤ got2.length
            then blen + defaultReadBufferSize else blen
          match err with
          | some e =>
            if e = Err.eof then brk
            else if bw = true ∧ isTimeout (some e) = true then
              match c2.SetReadDeadline c2.sendDeadline with
              | (some e2, c3) => some (([], some e2), retry, c3)
              | (none, c3) => some ((got2, none), retry, c3)
            else
              match retry with
              | r :: rs =>
                if r.Count = 0 then brk
                else recvLoop fuel c2 length (r.consume :: rs) got2 blen2 bw
              | [] => brk
          | none =>
            if length = 0 then brk
            else recvLoop fuel c2 length retry got2 blen2 bw

/-- Method `Conn.Recv`.  Returns the data with the error, the retry slice as the loop
left it, and the connection. -/
def Conn.Recv (c : Conn) (length : Int) (retry : List Retry) :
    Option ((List Byte × Option Err) × List Retry × Conn) :=
  recvLoop (c.rmeasure + 1) c length retry []
    (if 0 < length then length.toNat else defaultReadBufferSize) false

/-- The loop of `RecvLine`; `retry` is the caller's slice, shared by all `Recv` calls. -/
def recvLineLoop : Nat → Conn → List Retry → List Byte →
    Option ((List Byte × Option Err) × List Retry × Conn)
  | 0, _, _, _ => none
  | fuel + 1, c, retry, data =>
    match c.Recv 1 retry with
    | none => none
    | some ((buffer, err), retry1, c1) =>
      let data1 : List Byte :=
        match buffer with
        | b :: _ =>
          if b = 10 then data ++ buffer.take (buffer.length - 1)
          else data ++ buffer
        | [] => data
      match err with
      | some e => some ((data1, some e), retry1, c1)
      | none => recvLineLoop fuel c1 retry1 data1

/-- Method `Conn.RecvLine`. -/
def Conn.RecvLine (c : Conn) (retry : List Retry) :
    Option ((List Byte × Option Err) × List Retry × Conn) :=
  recvLineLoop (c.rmeasure + 1) c retry []

/-- Comparison of two bytes by `bytes.EqualFold` when at most one of them is outside
ASCII: equal, or an upper-case ASCII letter and its lower-case form. -/
def foldEqByte (sr tr : Byte) : Bool :=
  if tr = sr then true
  else decide (65 ≤ min sr.val tr.val ∧ min sr.val tr.val ≤ 90
    ∧ max sr.val tr.val = min sr.val tr.val + 32)

/-- Library function `bytes.EqualFold` on two byte strings of which `t` is ASCII and as
long as `s` (the only way `RecvTil` calls it for an ASCII delimiter): a byte of `s`
outside ASCII then matches no byte of `t`, and the comparison is byte by byte. -/
def equalFold : List Byte → List Byte → Bool
  | [], [] => true
  | a :: s, b :: t => foldEqByte a b && equalFold s t
  | _, _ => false

/-- The test of `RecvTil` on the byte `b` just received, `data` being what was received
before it. -/
def tilHit (til data : List Byte) (b : Byte) : Bool :=
  decide (0 < til.length) && decide (til.length - 1 ≤ data.length)
    && decide (til.getLast? = some b)
    && equalFold (data.drop (data.length + 1 - til.length)) (til.take (til.length - 1))

/-- The loop of `RecvTil`. -/
def recvTilLoop : Nat → Conn → List Byte → List Retry → List Byte →
    Option ((List Byte × Option Err) × List Retry × Conn)
  | 0, _, _, _, _ => none
  | fuel + 1, c, til, retry, data =>
    match c.Recv 1 retry with
    | none => none
    | some ((buffer, err), retry1, c1) =>
      match buffer with
      | b :: _ =>
        if tilHit til data b = true then some ((data ++ buffer, err), retry1, c1)
        else
          match err with
          | some e => some ((data ++ buffer, some e), retry1, c1)
          | none => recvTilLoop fuel c1 til retry1 (data ++ buffer)
      | [] =>
        match err with
        | some e => some ((data, some e), retry1, c1)
        | none => recvTilLoop fuel c1 til retry1 data

/-- Method `Conn.RecvTil`. -/
def Conn.RecvTil (c : Conn) (til : List Byte) (retry : List Retry) :
    Option ((List Byte × Option Err) × List Retry × Conn) :=
  recvTilLoop (c.rmeasure + 1) c til retry []

/-! ## Packet framing -/

/-- The `switch pkgOption.HeaderSize` of `getPkgOption`, entered when `MaxDataSize` is `0`:
the maximum payload size for the header size, and `0` (no assignment) when no case
applies. -/
def maxDataSizeFor (headerSize : Int) : Int :=
  if headerSize = 1 then 0xFF
  else if headerSize = 2 then 0xFFFF
  else if headerSize = 3 then 0xFFFFFF
  else if headerSize = 4 then 0x7FFFFFFF
  else 0

/-- Function `getPkgOption`. -/
def getPkgOption (option : List PkgOption) : Except Err PkgOption :=
  let pkgOption : PkgOption :=
    match option with
    | o :: _ => o
    | [] => { HeaderSize := 0, MaxDataSize := 0, Retry := { Count := 0, Interval := 0 } }
  let headerSize : Int :=
    if pkgOption.HeaderSize = 0 then pkgHeaderSizeDefault else pkgOption.HeaderSize
  if headerSize > pkgHeaderSizeMax then Except.error Err.headerSizeTooBig
  else
    let maxDataSize : Int :=
      if pkgOption.MaxDataSize = 0 then maxDataSizeFor headerSize else pkgOption.MaxDataSize
    if maxDataSize > 0x7FFFFFFF then Except.error Err.dataSizeTooBig
    else Except.ok { HeaderSize := headerSize, MaxDataSize := maxDataSize,
                     Retry := pkgOption.Retry }

/-- Library function `binary.BigEndian.PutUint32` into a 4-byte slice. -/
def putUint32 (v : Nat) : List Byte :=
  [Fin.ofNat (v / 2 ^ 24), Fin.ofNat (v / 2 ^ 16), Fin.ofNat (v / 2 ^ 8), Fin.ofNat v]

/-- Library function `binary.BigEndian.Uint32` of the 4-byte slice `{b0, b1, b2, b3}`. -/
def uint32 (b0 b1 b2 b3 : Byte) : Nat :=
  b0.val * 2 ^ 24 + b1.val * 2 ^ 16 + b2.val * 2 ^ 8 + b3.val

/-- Method `Conn.SendPkg`. -/
def Conn.SendPkg (c : Conn) (data : List Byte) (option : List PkgOption) :
    Outcome (Option Err × Conn) :=
  match getPkgOption option with
  | Except.error _ => Outcome.ret (none, c)
  | Except.ok pkgOption =>
    let length : Int := data.length
    if length > pkgOption.MaxDataSize then
      Outcome.ret (some (Err.dataTooLongSend length), c)
    else
      let offset : Int := pkgHeaderSizeMax - pkgOption.HeaderSize
      let buffer : List Byte := putUint32 (data.length % 2 ^ 32) ++ data
      -- buffer[offset:]
      if offset < 0 ∨ (buffer.length : Int) < offset then Outcome.panic
      else
        let sent :=
          if pkgOption.Retry.Count > 0 then c.Send (buffer.drop offset.toNat) [pkgOption.Retry]
          else c.Send (buffer.drop offset.toNat) []
        match sent with
        | some (err, _, c1) => Outcome.ret (err, c1)
        | none => Outcome.hang

/-- The `switch pkgOption.HeaderSize` of `RecvPkg`: the decoded length, or `none` when an
index is out of range. -/
def decodeHeader (headerSize : Int) (buffer : List Byte) : Option Int :=
  if headerSize = 1 then
    match buffer with
    | b0 :: _ => some (uint32 0 0 0 b0 : Nat)
    | _ => none
  else if headerSize = 2 then
    match buffer with
    | b0 :: b1 :: _ => some (uint32 0 0 b0 b1 : Nat)
    | _ => none
  else if headerSize = 3 then
    match buffer with
    | b0 :: b1 :: b2 :: _ => some (uint32 0 b0 b1 b2 : Nat)
    | _ => none
  else if headerSize = 4 then
    match buffer with
    | b0 :: b1 :: b2 :: b3 :: _ => some (uint32 b0 b1 b2 b3 : Nat)
    | _ => none
  else some 0

/-- Method `Conn.RecvPkg`. -/
def Conn.RecvPkg (c : Conn) (option : List PkgOption) :
    Outcome ((List Byte × Option Err) × Conn) :=
  match getPkgOption option with
  | Except.error e => Outcome.ret (([], some e), c)
  | Except.ok pkgOption =>
    match c.Recv pkgOption.HeaderSize [pkgOption.Retry] with
    | none => Outcome.hang
    | some ((_, some e), _, c1) => Outcome.ret (([], some e), c1)
    | some ((buffer, none), _, c1) =>
      match decodeHeader pkgOption.HeaderSize buffer with
      | none => Outcome.panic
      | some length =>
        if length < 0 ∨ length > pkgOption.MaxDataSize then
          Outcome.ret (([], some (Err.dataTooLongRecv length)), c1)
        else if length = 0 then Outcome.ret (([], none), c1)
        else
          match c1.Recv length [pkgOption.Retry] with
          | none => Outcome.hang
          | some (res, _, c2) => Outcome.ret (res, c2)

/-- Method `Conn.SendRecvPkg`. -/
def Conn.SendRecvPkg (c : Conn) (data : List Byte) (option : List PkgOption) :
    Outcome ((List Byte × Option Err) × Conn) :=
  match c.SendPkg data option with
  | Outcome.ret (none, c1) => c1.RecvPkg option
  | Outcome.ret (some err, c1) => Outcome.ret (([], some err), c1)
  | Outcome.panic => Outcome.panic
  | Outcome.hang => Outcome.hang

/-! ## Notions used to state the properties -/

/-- Value of a byte string read as a big-endian unsigned integer. -/
def beUint (bs : List Byte) : Nat :=
  bs.foldl (fun acc b => acc * 256 + b.val) 0

/-- Bytes that the coming results of the stream deliver before the first result that
carries an error (the bytes of that result not included). -/
def cleanOf : List ReadEv → List Byte
  | [] => []
  | ev :: rest =>
    match ev.err with
    | none => ev.data ++ cleanOf rest
    | some _ => []

/-- Bytes that the coming results of the stream deliver up to the first result that
carries an error, the bytes of that result included. -/
def availOf : List ReadEv → List Byte
  | [] => []
  | ev :: rest =>
    match ev.err with
    | none => ev.data ++ availOf rest
    | some _ => ev.data

/-- The first error the coming results of the stream carry; end of stream when the script
runs out before any. -/
def errOf : List ReadEv → Err
  | [] => Err.eof
  | ev :: rest =>
    match ev.err with
    | none => errOf rest
    | some e => e

/-- The next bytes of the connection that no error precedes or accompanies: the buffered
bytes, then (unless the reader holds an error back) the clean bytes of the stream. -/
def Conn.clean (c : Conn) : List Byte :=
  c.rbuf ++ (match c.rerr with
    | none => cleanOf c.rscript
    | some _ => [])

/-- The next bytes of the connection up to its next error. -/
def Conn.avail (c : Conn) : List Byte :=
  c.rbuf ++ (match c.rerr with
    | none => availOf c.rscript
    | some _ => [])

/-- The next error of the connection. -/
def Conn.firstErr (c : Conn) : Err :=
  match c.rerr with
  | some e => e
  | none => errOf c.rscript

/-- The received bytes `acc` end with the delimiter `til` the way `RecvTil` matches it:
the last byte of `acc` is the last byte of `til`, and the `len(til) - 1` bytes before it
equal the first `len(til) - 1` bytes of `til` up to the case of ASCII letters. -/
def tilEnds (til acc : List Byte) : Bool :=
  decide (0 < til.length) && decide (til.length ≤ acc.length)
    && decide (acc.getLast? = til.getLast?)
    && equalFold ((acc.drop (acc.length - til.length)).dropLast) til.dropLast

/-! ## Deadlines and time-boxed operations -/

/-- Method `Conn.SetreceiveDeadline`. -/
def Conn.SetreceiveDeadline (c : Conn) (t : Time) : Option Err × Conn :=
  match c.SetReadDeadline t with
  | (none, c1) => (none, { c1 with receiveDeadline := t })
  | (some err, c1) => (some err, c1)

/-- Method `Conn.SetSendDeadline`. -/
def Conn.SetSendDeadline (c : Conn) (t : Time) : Option Err × Conn :=
  match c.SetWriteDeadline t with
  | (none, c1) => (none, { c1 with sendDeadline := t })
  | (some err, c1) => (some err, c1)

/-- Method `Conn.RecvWithTimeout`; the deferred `SetreceiveDeadline(time.Time{})` runs on
the connection that `Recv` leaves, its error is dropped. -/
def Conn.RecvWithTimeout (c : Conn) (length : Int) (timeout : Int) (retry : List Retry) :
    Option ((List Byte × Option Err) × List Retry × Conn) :=
  match c.SetreceiveDeadline (c.now + timeout) with
  | (some err, c1) => some (([], some err), retry, c1)
  | (none, c1) =>
    match c1.Recv length retry with
    | none => none
    | some (res, retry1, c2) => some (res, retry1, (c2.SetreceiveDeadline 0).2)

/-- Method `Conn.SendWithTimeout`; the deferred `SetSendDeadline(time.Time{})` runs on the
connection that `Send` leaves. -/
def Conn.SendWithTimeout (c : Conn) (data : List Byte) (timeout : Int) (retry : List Retry) :
    Option (Option Err × List Retry × Conn) :=
  match c.SetSendDeadline (c.now + timeout) with
  | (some err, c1) => some (some err, retry, c1)
  | (none, c1) =>
    match c1.Send data retry with
    | none => none
    | some (err, retry1, c2) => some (err, retry1, (c2.SetSendDeadline 0).2)

/-- Method `Conn.SendPkgWithTimeout`. -/
def Conn.SendPkgWithTimeout (c : Conn) (data : List Byte) (timeout : Int)
    (option : List PkgOption) : Outcome (Option Err × Conn) :=
  match c.SetSendDeadline (c.now + timeout) with
  | (some err, c1) => Outcome.ret (some err, c1)
  | (none, c1) =>
    match c1.SendPkg data option with
    | Outcome.ret (err, c2) => Outcome.ret (err, (c2.SetSendDeadline 0).2)
    | Outcome.panic => Outcome.panic
    | Outcome.hang => Outcome.hang

/-- Method `Conn.RecvPkgWithTimeout`. -/
def Conn.RecvPkgWithTimeout (c : Conn) (timeout : Int) (option : List PkgOption) :
    Outcome ((List Byte × Option Err) × Conn) :=
  match c.SetreceiveDeadline (c.now + timeout) with
  | (some err, c1) => Outcome.ret (([], some err), c1)
  | (none, c1) =>
    match c1.RecvPkg option with
    | Outcome.ret (res, c2) => Outcome.ret (res, (c2.SetreceiveDeadline 0).2)
    | Outcome.panic => Outcome.panic
    | Outcome.hang => Outcome.hang

/-! ## The container `xlist` -/

/-- Method `List.PushFront` of `xlist`. -/
def xlist.PushFront {α : Type} (l : List α) (v : α) : List α := v :: l

/-- Method `List.PushBack` of `xlist`. -/
def xlist.PushBack {α : Type} (l : List α) (v : α) : List α := l ++ [v]

/-- Method `List.PopFront` of `xlist`: the removed front value (`none` for `nil`, when the
list is empty) and the list that stays. -/
def xlist.PopFront {α : Type} (l : List α) : Option α × List α :=
  match l with
  | [] => (none, [])
  | v :: rest => (some v, rest)

/-- Method `List.RemoveAll` of `xlist`. -/
def xlist.RemoveAll {α : Type} (_l : List α) : List α := []

/-! ## The pool `xpool` -/

/-- Type `poolItem`. -/
structure PoolItem (V : Type) where
  value : V
  expireAt : Int

/-- Type `Pool`.  `NewFunc`, when configured, is given by the results of its successive
calls (a value or `nil`, and an error or `nil`), `newCalls` counting the calls made;
`ExpireFunc` is configured or not, and `expired` logs the values passed to it, oldest
first. -/
structure Pool (V : Type) where
  list : List (PoolItem V)
  closed : Int
  TTL : Int
  NewFunc : Option (Nat → Option V × Option Err)
  newCalls : Nat
  ExpireFunc : Bool
  expired : List V

/-- Whole milliseconds of a count of nanoseconds: Go's integer division by `1e6` (towards
zero), as in `time.Now().UnixNano()/1e6` and `p.TTL.Nanoseconds()/1000000`. -/
def milli (ns : Int) : Int := Int.tdiv ns 1000000

/-- Function `New` of `xpool` (the periodic task it starts is `checkExpireItems`, run once
a second). -/
def xpoolNew {V : Type} (ttl : Int) (newFunc : Option (Nat → Option V × Option Err))
    (expireFunc : Bool) : Pool V :=
  { list := [], closed := 0, TTL := ttl, NewFunc := newFunc, newCalls := 0,
    ExpireFunc := expireFunc, expired := [] }

/-- Method `Pool.Put`; `now` is the reading of `time.Now().UnixNano()`. -/
def Pool.Put {V : Type} (p : Pool V) (value : V) (now : Int) : Option Err × Pool V :=
  if p.closed = 1 then (some Err.poolClosed, p)
  else
    let expireAt : Int := if p.TTL = 0 then 0 else milli now + milli p.TTL
    (none, { p with list := xlist.PushBack p.list { value := value, expireAt := expireAt } })

/-- The loop `for { PopFront ... ExpireFunc }` of `Clear` and of the closed branch of
`checkExpireItems`: the log of disposed values after the queue is drained. -/
def drainLoop {V : Type} : List (PoolItem V) → List V → List V
  | [], log => log
  | r :: rest, log => drainLoop rest (log ++ [r.value])

/-- Method `Pool.Clear`. -/
def Pool.Clear {V : Type} (p : Pool V) : Pool V :=
  if p.ExpireFunc = true then { p with list := [], expired := drainLoop p.list p.expired }
  else { p with list := xlist.RemoveAll p.list }

/-- The loop of `Pool.Get` on an open pool: the value found (if any), the queue that stays
and the log of disposed values.  `now` is the reading of `time.Now().UnixNano()`. -/
def getLoop {V : Type} (expireFunc : Bool) (now : Int) :
    List (PoolItem V) → List V → Option V × List (PoolItem V) × List V
  | [], log => (none, [], log)
  | f :: rest, log =>
    if f.expireAt = 0 ∨ f.expireAt > milli now then (some f.value, rest, log)
    else if expireFunc = true then getLoop expireFunc now rest (log ++ [f.value])
    else getLoop expireFunc now rest log

/-- Method `Pool.Get`. -/
def Pool.Get {V : Type} (p : Pool V) (now : Int) : (Option V × Option Err) × Pool V :=
  match (if p.closed = 0 then getLoop p.ExpireFunc now p.list p.expired
         else (none, p.list, p.expired)) with
  | (some v, rest, log) => ((some v, none), { p with list := rest, expired := log })
  | (none, rest, log) =>
    match p.NewFunc with
    | some f => (f p.newCalls, { p with list := rest, expired := log,
                                        newCalls := p.newCalls + 1 })
    | none => ((none, some Err.poolEmpty), { p with list := rest, expired := log })

/-- Method `Pool.Size`. -/
def Pool.Size {V : Type} (p : Pool V) : Nat := p.list.length

/-- Method `Pool.Close`. -/
def Pool.Close {V : Type} (p : Pool V) : Pool V := { p with closed := 1 }

/-- The sweep loop of `checkExpireItems`; `latestExpire` and `timestampMilli` as in the
source. -/
def sweepLoop {V : Type} (expireFunc : Bool) (timestampMilli : Int) :
    List (PoolItem V) → Int → List V → List (PoolItem V) × List V
  | [], _, log => ([], log)
  | item :: rest, latestExpire, log =>
    if latestExpire > timestampMilli then (item :: rest, log)
    else if item.expireAt > timestampMilli then (xlist.PushFront rest item, log)
    else if expireFunc = true then
      sweepLoop expireFunc timestampMilli rest item.expireAt (log ++ [item.value])
    else sweepLoop expireFunc timestampMilli rest item.expireAt log

/-- Method `Pool.checkExpireItems`.  `funcExits` says whether the call `xcron.FuncExit()`
(of another repository) ends the function, or returns so that the function goes on. -/
def Pool.checkExpireItems {V : Type} (p : Pool V) (now : Int) (funcExits : Bool) : Pool V :=
  let p1 : Pool V :=
    if p.closed = 1 then
      if p.ExpireFunc = true then { p with list := [], expired := drainLoop p.list p.expired }
      else p
    else p
  if p.closed = 1 ∧ funcExits = true then p1
  else if p1.TTL = 0 then p1
  else
    { p1 with list := (sweepLoop p1.ExpireFunc (milli now) p1.list (-1) p1.expired).1,
              expired := (sweepLoop p1.ExpireFunc (milli now) p1.list (-1) p1.expired).2 }

/-! ## Pooled connections -/

/-- The constant `defaultPoolExpire` (10 s). -/
def defaultPoolExpire : Int := 10000000000

/-- The constant `connStatusUnknown`. -/
def connStatusUnknown : Int := 0

/-- The constant `connStatusActive`. -/
def connStatusActive : Int := 1

/-- The constant `connStatusError`. -/
def connStatusError : Int := 2

/-- Type `PoolConn`.  The pool is `none` for a `nil` pointer.  A pooled value, which is a
`*PoolConn` of which the code uses the `Conn` only, is represented by that `Conn`. -/
structure PoolConn where
  Conn : Conn
  pool : Option (Pool Xtcp.Conn)
  status : Int

/-- Method `PoolConn.Send`.  The retry is the call `c.Send(data, retry...)`, that is this
method again; the first argument bounds the depth of these calls. -/
def PoolConn.Send : Nat → PoolConn → List Byte → List Retry →
    Outcome (Option Err × List Retry × PoolConn)
  | 0, _, _, _ => Outcome.hang
  | fuel + 1, c, data, retry =>
    match c.Conn.Send data retry with
    | none => Outcome.hang
    | some (err, retry1, conn1) =>
      let after : Outcome (Option Err × List Retry × PoolConn) :=
        if err ≠ none ∧ (c.status = connStatusUnknown ∨ c.status = connStatusError) then
          match c.pool with
          | none => Outcome.panic
          | some pool =>
            match pool.Get conn1.now with
            | ((v, none), pool1) =>
              match v with
              | none => Outcome.panic
              | some conn2 =>
                PoolConn.Send fuel { c with Conn := conn2, pool := some pool1 } data retry1
            | ((_, some e), pool1) =>
              Outcome.ret (some e, retry1, { c with Conn := conn1, pool := some pool1 })
        else Outcome.ret (err, retry1, { c with Conn := conn1 })
      match after with
      | Outcome.ret (err1, retry2, c1) =>
        Outcome.ret (err1, retry2,
          { c1 with status := if err1 ≠ none then connStatusError else connStatusActive })
      | Outcome.panic => Outcome.panic
      | Outcome.hang => Outcome.hang

/-- Method `PoolConn.SendPkg`. -/
def PoolConn.SendPkg (c : PoolConn) (data : List Byte) (option : List PkgOption) :
    Outcome (Option Err × PoolConn) :=
  match c.Conn.SendPkg data option with
  | Outcome.panic => Outcome.panic
  | Outcome.hang => Outcome.hang
  | Outcome.ret (err, conn1) =>
    let after : Outcome (Option Err × PoolConn) :=
      if err ≠ none ∧ c.status = connStatusUnknown then
        match c.pool with
        | none => Outcome.panic
        | some pool =>
          match pool.NewFunc with
          | none => Outcome.panic
          | some f =>
            let pool1 : Pool Xtcp.Conn := { pool with newCalls := pool.newCalls + 1 }
            match f pool.newCalls with
            | (v, none) =>
              match v with
              | none => Outcome.panic
              | some conn2 =>
                match conn2.SendPkg data option with
                | Outcome.ret (err2, conn3) =>
                  Outcome.ret (err2, { c with Conn := conn3, pool := some pool1 })
                | Outcome.panic => Outcome.panic
                | Outcome.hang => Outcome.hang
            | (_, some e) =>
              Outcome.ret (some e, { c with Conn := conn1, pool := some pool1 })
      else Outcome.ret (err, { c with Conn := conn1 })
    match after with
    | Outcome.ret (err1, c1) =>
      Outcome.ret (err1,
        { c1 with status := if err1 ≠ none then connStatusError else connStatusActive })
    | Outcome.panic => Outcome.panic
    | Outcome.hang => Outcome.hang

/-! ## Notions used to state the properties of the pool -/

/-- The test of `Pool.Get` on a queue entry: it is unexpired at the clock reading `now`
(nanoseconds). -/
def PoolItem.live {V : Type} (f : PoolItem V) (now : Int) : Bool :=
  decide (f.expireAt = 0 ∨ f.expireAt > milli now)

/-- Successive `Put` calls on a pool, each value with the clock reading of its call. -/
def Pool.putAll {V : Type} (p : Pool V) : List (V × Int) → Pool V
  | [] => p
  | x :: rest => Pool.putAll (p.Put x.1 x.2).2 rest

/-- Successive `Get` calls on a pool at the given clock readings: their results in order,
and the pool they leave. -/
def Pool.getAll {V : Type} (p : Pool V) : List Int → List (Option V × Option Err) × Pool V
  | [] => ([], p)
  | t :: rest => ((p.Get t).1 :: (Pool.getAll (p.Get t).2 rest).1,
      (Pool.getAll (p.Get t).2 rest).2)

/-- The queue entry that `Put` makes on an open pool for a value at a clock reading. -/
def Pool.entry {V : Type} (p : Pool V) (value : V) (now : Int) : PoolItem V :=
  { value := value, expireAt := if p.TTL = 0 then 0 else milli now + milli p.TTL }

/-! ## NewPoolConn -/

/-- The package variable `addressPoolMap` (a `sync.Map`): the addresses with the pool
pointer stored for each, `none` being a stored `nil` pointer. -/
abbrev AddressPoolMap := List (String × Option (Pool Conn))

/-- Method `LoadOrStore` of `sync.Map`: the value present for the key, else the given
value, which is then stored. -/
def AddressPoolMap.LoadOrStore (m : AddressPoolMap) (key : String)
    (value : Option (Pool Conn)) : Option (Pool Conn) × AddressPoolMap :=
  match m.lookup key with
  | some v => (v, m)
  | none => (value, m ++ [(key, value)])

/-- The pool a stored pointer points to, after a call has changed it. -/
def AddressPoolMap.update (m : AddressPoolMap) (key : String) (p : Pool Conn) :
    AddressPoolMap :=
  m.map (fun kv => if kv.1 = key then (kv.1, some p) else kv)

/-- Function `NewPoolConn`.  `dial` gives the results of the successive `NewConn(addr)`
calls of the factory, `now` is the clock reading.  The variable `pool` is declared and
never assigned: the result of `xpool.New` is dropped.  A pooled value is made by the
factory as `&PoolConn{conn, pool, connStatusActive}` with that variable `pool`. -/
def NewPoolConn (addressPoolMap : AddressPoolMap) (addr : String)
    (dial : Nat → Option Conn × Option Err) (now : Int) :
    Outcome ((Option PoolConn × Option Err) × AddressPoolMap) :=
  let pool : Option (Pool Conn) := none
  let _dropped : Pool Conn := xpoolNew defaultPoolExpire (some dial) false
  match AddressPoolMap.LoadOrStore addressPoolMap addr pool with
  | (none, _) => Outcome.panic
  | (some p, m1) =>
    match p.Get now with
    | ((value, none), p1) =>
      match value with
      | none => Outcome.panic
      | some conn =>
        Outcome.ret ((some { Conn := conn, pool := pool, status := connStatusActive }, none),
          AddressPoolMap.update m1 addr p1)
    | ((_, some err), p1) => Outcome.ret ((none, some err), AddressPoolMap.update m1 addr p1)

/-! ## Sequences of pool operations -/

/-- An operation on a pool: `Put` of a value, `Get`, `Clear`, `Close`, or one run of the
periodic sweep `checkExpireItems`. -/
inductive PoolOp (V : Type) where
  | put (value : V)
  | get
  | clear
  | close
  | sweep (funcExits : Bool)

/-- The pool after one operation made at the clock reading `now`. -/
def Pool.step {V : Type} (p : Pool V) (op : PoolOp V) (now : Int) : Pool V :=
  match op with
  | PoolOp.put value => (p.Put value now).2
  | PoolOp.get => (p.Get now).2
  | PoolOp.clear => p.Clear
  | PoolOp.close => p.Close
  | PoolOp.sweep funcExits => p.checkExpireItems now funcExits

/-- The pool after a sequence of operations, each with the clock reading of its call. -/
def Pool.run {V : Type} (p : Pool V) : List (PoolOp V × Int) → Pool V
  | [] => p
  | x :: rest => Pool.run (p.step x.1 x.2) rest

/-! ## Frame options -/

theorem maxDataSizeFor_le (h : Int) : maxDataSizeFor h ≤ 0x7FFFFFFF := by
  unfold maxDataSizeFor
  split_ifs <;> omega

theorem getPkgOption_bounds {option : List PkgOption} {o : PkgOption}
    (h : getPkgOption option = Except.ok o) :
    o.HeaderSize ≤ 4 ∧ o.MaxDataSize ≤ 0x7FFFFFFF := by
  simp only [getPkgOption, pkgHeaderSizeMax, pkgHeaderSizeDefault] at h
  split_ifs at h <;> cases h <;> constructor <;> simp only [] <;> omega

theorem getPkgOption_reject (o : PkgOption) (rest : List PkgOption)
    (h : o.HeaderSize > 4 ∨ o.MaxDataSize > 0x7FFFFFFF) :
    ∃ e, getPkgOption (o :: rest) = Except.error e := by
  simp only [getPkgOption, pkgHeaderSizeMax, pkgHeaderSizeDefault]
  split_ifs <;> first | exact ⟨_, rfl⟩ | (exfalso; omega)

/-! ## Send -/

theorem write_fields (c : Conn) (data : List Byte) :
    (c.write data).2.writes = c.writes ++ [data]
      ∧ (c.write data).2.rscript = c.rscript ∧ (c.write data).2.rbuf = c.rbuf
      ∧ (c.write data).2.rerr = c.rerr ∧ (c.write data).2.nreads = c.nreads
      ∧ (c.write data).2.wscript = c.wscript.tail
      ∧ ((c.write data).1 = none → (c.write data).2.wire = c.wire ++ data)
      ∧ ((∀ n e, c.wscript.head? ≠ some (WriteEv.fail n e)) → (c.write data).1 = none) := by
  unfold Conn.write
  rcases hw : c.wscript with _ | ⟨ev, rest⟩
  · simp
  · cases ev <;> simp

/-- What `Send` does to a connection: it makes `k ≥ 1` calls of `Write`, each with the
whole of `data`, and touches nothing on the read side; when the first `Write` succeeds it
is the only one, the error is `nil` and `data` is on the wire. -/
theorem sendLoop_spec (data : List Byte) :
    ∀ (fuel : Nat) (c : Conn) (retry : List Retry), c.wscript.length < fuel →
      ∃ err retry1 c1 k, sendLoop fuel c data retry = some (err, retry1, c1)
        ∧ 1 ≤ k ∧ c1.writes = c.writes ++ List.replicate k data
        ∧ c1.rscript = c.rscript ∧ c1.rbuf = c.rbuf ∧ c1.rerr = c.rerr
        ∧ c1.nreads = c.nreads
        ∧ ((∀ n e, c.wscript.head? ≠ some (WriteEv.fail n e)) →
            err = none ∧ k = 1 ∧ c1.wire = c.wire ++ data) := by
  intro fuel
  induction fuel with
  | zero => intro c retry h; omega
  | succ fuel ih =>
    intro c retry hfuel
    obtain ⟨f1, f2, f3, f4, f5, f6, f7, f8⟩ := write_fields c data
    rcases hres : c.write data with ⟨err, c1⟩
    rw [hres] at f1 f2 f3 f4 f5 f6 f7 f8
    simp only at f1 f2 f3 f4 f5 f6 f7 f8
    have hstop : ∀ (e : Option Err) (r : List Retry), e = err →
        ∃ err0 retry1 c2 k,
          (some (e, r, c1) : Option (Option Err × List Retry × Conn)) = some (err0, retry1, c2)
          ∧ 1 ≤ k ∧ c2.writes = c.writes ++ List.replicate k data
          ∧ c2.rscript = c.rscript ∧ c2.rbuf = c.rbuf ∧ c2.rerr = c.rerr
          ∧ c2.nreads = c.nreads
          ∧ ((∀ n e, c.wscript.head? ≠ some (WriteEv.fail n e)) →
              err0 = none ∧ k = 1 ∧ c2.wire = c.wire ++ data) := by
      intro e r he
      refine ⟨e, r, c1, 1, rfl, le_refl _, by simpa using f1, f2, f3, f4, f5, ?_⟩
      intro hne
      have h0 := f8 hne
      exact ⟨he.trans h0, rfl, f7 h0⟩
    cases err with
    | none =>
      simp only [sendLoop, hres]
      exact hstop none retry rfl
    | some e =>
      simp only [sendLoop, hres]
      by_cases heof : e = Err.eof
      · simp only [heof, if_true]
        exact hstop _ retry (by rw [heof])
      · simp only [heof, if_false]
        cases retry with
        | nil => exact hstop _ [] rfl
        | cons r rs =>
          by_cases hc : r.Count = 0
          · simp only [hc, if_true]
            exact hstop _ (r :: rs) rfl
          · simp only [hc, if_false]
            have hne : c.wscript ≠ [] := by
              intro h0
              have h1 := f8 (by simp [h0])
              cases h1
            have hlen : c1.wscript.length < fuel := by
              have hpos := List.length_pos.mpr hne
              rw [f6, List.length_tail]; omega
            obtain ⟨err0, retry1, c2, k, h1, h2, h3, h4, h5, h6, h7, _⟩ :=
              ih c1 (r.consume :: rs) hlen
            refine ⟨err0, retry1, c2, k + 1, h1, by omega, ?_, ?_, ?_, ?_, ?_, ?_⟩
            · rw [h3, f1]; simp [List.replicate_succ]
            · rw [h4, f2]
            · rw [h5, f3]
            · rw [h6, f4]
            · rw [h7, f5]
            · intro hne
              have h0 := f8 hne
              cases h0

theorem Send_spec (c : Conn) (data : List Byte) (retry : List Retry) :
    ∃ err retry1 c1 k, c.Send data retry = some (err, retry1, c1)
      ∧ 1 ≤ k ∧ c1.writes = c.writes ++ List.replicate k data
      ∧ c1.rscript = c.rscript ∧ c1.rbuf = c.rbuf ∧ c1.rerr = c.rerr
      ∧ c1.nreads = c.nreads
      ∧ ((∀ n e, c.wscript.head? ≠ some (WriteEv.fail n e)) →
          err = none ∧ k = 1 ∧ c1.wire = c.wire ++ data) :=
  sendLoop_spec data _ c retry (Nat.lt_succ_self _)

/-! ## The stream and the buffered reader -/

theorem netRead_length (s : List ReadEv) (cap : Nat) : (netRead s cap).1.1.length ≤ cap := by
  unfold netRead
  cases s with
  | nil => simp
  | cons ev rest =>
    by_cases h : ev.data.length ≤ cap
    · simp [h]
    · simp only [h, if_false, List.length_take]; omega

theorem netRead_clean (s : List ReadEv) (cap : Nat) (h : cleanOf s ≠ []) :
    (netRead s cap).1.2 = none
      ∧ cleanOf s = (netRead s cap).1.1 ++ cleanOf (netRead s cap).2 := by
  cases s with
  | nil => simp [cleanOf] at h
  | cons ev rest =>
    rcases ev with ⟨data, err⟩
    cases err with
    | some e => simp [cleanOf] at h
    | none =>
      unfold netRead
      by_cases hf : data.length ≤ cap
      · simp [hf, cleanOf]
      · simp only [hf, if_false, cleanOf]
        rw [← List.append_assoc, List.take_append_drop]
        simp

theorem netRead_avail (s : List ReadEv) (cap : Nat) :
    ((netRead s cap).1.2 = none →
        availOf s = (netRead s cap).1.1 ++ availOf (netRead s cap).2
          ∧ errOf s = errOf (netRead s cap).2)
      ∧ (∀ x, (netRead s cap).1.2 = some x →
        availOf s = (netRead s cap).1.1 ∧ errOf s = x) := by
  cases s with
  | nil => simp [netRead, availOf, errOf]
  | cons ev rest =>
    rcases ev with ⟨data, err⟩
    unfold netRead
    by_cases hf : data.length ≤ cap
    · cases err <;> simp [hf, availOf, errOf]
    · cases err with
      | some e => simp [hf, availOf, errOf]
      | none =>
        simp only [hf, if_false, availOf, errOf]
        rw [← List.append_assoc, List.take_append_drop]
        simp

theorem netRead_size (s : List ReadEv) (cap : Nat) (hcap : 0 < cap) (hs : s ≠ []) :
    scriptSize (netRead s cap).2 + (netRead s cap).1.1.length
        + (if (netRead s cap).1.2.isSome then 1 else 0) ≤ scriptSize s
      ∧ ((netRead s cap).1.1 = [] → scriptSize (netRead s cap).2 < scriptSize s) := by
  cases s with
  | nil => exact absurd rfl hs
  | cons ev rest =>
    rcases ev with ⟨data, err⟩
    unfold netRead
    by_cases hf : data.length ≤ cap
    · simp only [hf, if_true, scriptSize, List.length_cons, List.map_cons, List.sum_cons]
      constructor
      · split <;> omega
      · intro _; omega
    · simp only [hf, if_false, scriptSize, List.length_cons, List.map_cons, List.sum_cons,
        List.length_take, List.length_drop, Option.isSome_none]
      constructor
      · simp; omega
      · intro h0
        have : (List.take cap data).length = 0 := by rw [h0]; rfl
        rw [List.length_take] at this
        omega

theorem read_length (c : Conn) (cap : Nat) : (c.read cap).1.1.length ≤ cap := by
  unfold Conn.read
  by_cases h0 : cap = 0
  · simp only [h0, if_true]
    split <;> simp
  · simp only [h0, if_false]
    split
    · simp only [List.length_take]; omega
    · split
      · simp
      · by_cases hb : bufSize ≤ cap
        · simp only [hb, if_true]
          exact netRead_length _ _
        · simp only [hb, if_false]
          split
          · simp
          · simp only [List.length_take]; omega

/-- A read of at least one byte from a connection that has clean bytes: no error, the
bytes handed out are the first clean bytes, and the rest stay. -/
theorem read_clean (c : Conn) (cap : Nat) (hcap : 0 < cap) (h : c.clean ≠ []) :
    (c.read cap).1.2 = none ∧ c.clean = (c.read cap).1.1 ++ (c.read cap).2.clean := by
  have h0 : ¬ cap = 0 := by omega
  unfold Conn.read
  simp only [h0, if_false]
  rcases hbuf : c.rbuf with _ | ⟨b, bs⟩
  · rcases herr : c.rerr with _ | e
    · have hcl : cleanOf c.rscript ≠ [] := by
        simpa [Conn.clean, hbuf, herr] using h
      by_cases hb : bufSize ≤ cap
      · simp only [hb, if_true]
        obtain ⟨h1, h2⟩ := netRead_clean c.rscript cap hcl
        refine ⟨h1, ?_⟩
        simp [Conn.clean, hbuf, herr, ← h2]
      · simp only [hb, if_false]
        obtain ⟨h1, h2⟩ := netRead_clean c.rscript bufSize hcl
        rcases hd : (netRead c.rscript bufSize).1.1 with _ | ⟨x, xs⟩
        · refine ⟨h1, ?_⟩
          simp [Conn.clean, hbuf, herr, h2, hd]
        · refine ⟨rfl, ?_⟩
          simp only [Conn.clean, hbuf, herr, h1, h2, hd, List.nil_append]
          rw [← List.append_assoc, List.take_append_drop]
    · simp [Conn.clean, hbuf, herr] at h
  · refine ⟨rfl, ?_⟩
    simp only [Conn.clean, hbuf]
    rw [← List.append_assoc, List.take_append_drop]

/-- A read of at least one byte, in general: without an error the bytes handed out are
the first available bytes and the rest stay; with an error the bytes handed out are all
the available bytes and the error is the next error of the connection. -/
theorem read_avail (c : Conn) (cap : Nat) (hcap : 0 < cap) :
    ((c.read cap).1.2 = none →
        c.avail = (c.read cap).1.1 ++ (c.read cap).2.avail
          ∧ c.firstErr = (c.read cap).2.firstErr)
      ∧ (∀ x, (c.read cap).1.2 = some x →
        c.avail = (c.read cap).1.1 ∧ c.firstErr = x) := by
  have h0 : ¬ cap = 0 := by omega
  unfold Conn.read
  simp only [h0, if_false]
  rcases hbuf : c.rbuf with _ | ⟨b, bs⟩
  · rcases herr : c.rerr with _ | e
    · obtain ⟨n1, n2⟩ := netRead_avail c.rscript cap
      obtain ⟨m1, m2⟩ := netRead_avail c.rscript bufSize
      by_cases hb : bufSize ≤ cap
      · simp only [hb, if_true, Conn.avail, Conn.firstErr, hbuf, herr, List.nil_append]
        exact ⟨n1, n2⟩
      · simp only [hb, if_false]
        rcases hd : (netRead c.rscript bufSize).1.1 with _ | ⟨x, xs⟩
        · simp only [Conn.avail, Conn.firstErr, hbuf, herr, List.nil_append]
          rw [hd] at m1 m2
          exact ⟨m1, m2⟩
        · simp only [Conn.avail, Conn.firstErr, hbuf, herr, List.nil_append]
          rw [hd] at m1 m2
          refine ⟨fun _ => ?_, fun x hx => by cases hx⟩
          rcases he : (netRead c.rscript bufSize).1.2 with _ | e0
          · obtain ⟨a1, a2⟩ := m1 he
            simp only [a1, a2]
            rw [← List.append_assoc, List.take_append_drop]
            simp
          · obtain ⟨a1, a2⟩ := m2 e0 he
            simp only [a1, a2, List.append_nil, List.take_append_drop]
            simp
    · simp [Conn.avail, Conn.firstErr, hbuf, herr]
  · simp only [Conn.avail, Conn.firstErr, hbuf]
    refine ⟨fun _ => ?_, fun x hx => by cases hx⟩
    rw [← List.append_assoc, List.take_append_drop]
    simp

/-- A read of at least one byte makes progress unless it reports the end of the stream. -/
theorem read_measure (c : Conn) (cap : Nat) (hcap : 0 < cap)
    (h : (c.read cap).1.2 ≠ some Err.eof) : (c.read cap).2.rmeasure < c.rmeasure := by
  have h0 : ¬ cap = 0 := by omega
  revert h
  unfold Conn.read
  simp only [h0, if_false]
  rcases hbuf : c.rbuf with _ | ⟨b, bs⟩
  · rcases herr : c.rerr with _ | e
    · by_cases hb : bufSize ≤ cap
      · simp only [hb, if_true, Conn.rmeasure, hbuf, herr]
        intro h
        have hs : c.rscript ≠ [] := by
          intro hs; apply h; simp [hs, netRead]
        obtain ⟨s1, s2⟩ := netRead_size c.rscript cap hcap hs
        by_cases hd : (netRead c.rscript cap).1.1 = []
        · have := s2 hd
          simp; omega
        · have : 0 < (netRead c.rscript cap).1.1.length := List.length_pos.mpr hd
          simp; omega
      · have hbpos : 0 < bufSize := by decide
        simp only [hb, if_false]
        rcases hd : (netRead c.rscript bufSize).1.1 with _ | ⟨x, xs⟩
        · simp only [Conn.rmeasure, hbuf, herr]
          intro h
          have hs : c.rscript ≠ [] := by
            intro hs; apply h; simp [hs, netRead]
          obtain ⟨s1, s2⟩ := netRead_size c.rscript bufSize hbpos hs
          have := s2 hd
          simp; omega
        · simp only [Conn.rmeasure, hbuf, herr]
          intro _
          have hs : c.rscript ≠ [] := by
            intro hs; simp [hs, netRead] at hd
          obtain ⟨s1, s2⟩ := netRead_size c.rscript bufSize hbpos hs
          rw [hd] at s1
          simp only [List.length_cons, List.length_drop, Option.isSome_none] at s1 ⊢
          split at s1 <;> simp_all <;> omega
    · simp [Conn.rmeasure, hbuf, herr]
  · simp only [Conn.rmeasure, hbuf, List.length_drop, List.length_cons]
    intro _
    omega

/-- A read changes nothing but the read side of the connection. -/
theorem read_frame (c : Conn) (cap : Nat) :
    (c.read cap).2 = { c with rscript := (c.read cap).2.rscript, rbuf := (c.read cap).2.rbuf,
                              rerr := (c.read cap).2.rerr, nreads := (c.read cap).2.nreads } := by
  unfold Conn.read
  split
  · split <;> rfl
  · split
    · rfl
    · split
      · rfl
      · split
        · rfl
        · split <;> rfl

/-! ## Fixed-length receive -/

/-- One round of the loop of `Recv` in fixed-length mode. -/
theorem recvLoop_fixed_step (fuel : Nat) (c : Conn) (n : Nat) (retry : List Retry)
    (got : List Byte) (hgot : got.length < n) :
    recvLoop (fuel + 1) c (n : Int) retry got n false =
      (if 0 < (c.read (n - got.length)).1.1.length
          ∧ (got ++ (c.read (n - got.length)).1.1).length = n then
        some ((got ++ (c.read (n - got.length)).1.1, (c.read (n - got.length)).1.2), retry,
          (c.read (n - got.length)).2)
      else
        match (c.read (n - got.length)).1.2 with
        | some e =>
          if e = Err.eof then
            some ((got ++ (c.read (n - got.length)).1.1, some e), retry,
              (c.read (n - got.length)).2)
          else
            match retry with
            | r :: rs =>
              if r.Count = 0 then
                some ((got ++ (c.read (n - got.length)).1.1, some e), retry,
                  (c.read (n - got.length)).2)
              else recvLoop fuel (c.read (n - got.length)).2 (n : Int) (r.consume :: rs)
                (got ++ (c.read (n - got.length)).1.1) n false
            | [] =>
              some ((got ++ (c.read (n - got.length)).1.1, some e), retry,
                (c.read (n - got.length)).2)
        | none =>
          recvLoop fuel (c.read (n - got.length)).2 (n : Int) retry
            (got ++ (c.read (n - got.length)).1.1) n false) := by
  have hn : 0 < n := by omega
  have h1 : ¬ ((n : Int) < 0) := by omega
  have h2 : (0 : Int) < (n : Int) := by omega
  have h3 : ¬ ((n : Int) = 0) := by omega
  rw [recvLoop]
  simp only [h1, h2, h3, false_and, if_false, true_and, not_true_eq_false, and_false,
    Bool.false_eq_true, Nat.cast_inj]
  rcases hr : c.read (n - got.length) with ⟨⟨d, err⟩, c2⟩
  simp only
  cases err with
  | none => rfl
  | some e => 
    cases retry <;> rfl

/-- The loop of `Recv` in fixed-length mode on a connection whose clean bytes suffice:
whatever the chunking and the retry policy, it returns the missing bytes with a `nil`
error, leaves the retry policy alone and consumes nothing else. -/
theorem recvLoop_fixed_clean (n : Nat) (retry : List Retry) :
    ∀ (fuel : Nat) (c : Conn) (got : List Byte), c.rmeasure < fuel → got.length < n →
      n - got.length ≤ c.clean.length →
      ∃ c1, recvLoop fuel c (n : Int) retry got n false
            = some ((got ++ c.clean.take (n - got.length), none), retry, c1)
        ∧ c1.clean = c.clean.drop (n - got.length) ∧ c1.rmeasure < c.rmeasure := by
  intro fuel
  induction fuel with
  | zero => intro c got h; omega
  | succ fuel ih =>
    intro c got hfuel hgot hneed
    have hcap : 0 < n - got.length := by omega
    have hne : c.clean ≠ [] := by
      intro h0; rw [h0] at hneed; simp at hneed; omega
    obtain ⟨he, hcl⟩ := read_clean c (n - got.length) hcap hne
    have hlen := read_length c (n - got.length)
    have hm := read_measure c (n - got.length) hcap (by rw [he]; simp)
    rw [recvLoop_fixed_step fuel c n retry got hgot]
    generalize (c.read (n - got.length)).2 = c2 at he hcl hlen hm ⊢
    generalize (c.read (n - got.length)).1.1 = d at he hcl hlen hm ⊢
    rw [he]
    by_cases hfull : 0 < d.length ∧ (got ++ d).length = n
    · rw [if_pos hfull]
      have hd : d.length = n - got.length := by
        have := hfull.2; simp at this; omega
      refine ⟨c2, ?_, ?_, hm⟩
      · rw [hcl, ← hd, List.take_left]
      · rw [hcl, ← hd, List.drop_left]
    · rw [if_neg hfull]
      simp only
      have hlt : (got ++ d).length < n := by
        simp only [List.length_append]
        by_contra hcon
        apply hfull
        simp only [List.length_append]
        omega
      have hcl2 : c.clean.length = d.length + c2.clean.length := by
        rw [hcl]; simp
      obtain ⟨c1, h1, h2, h3⟩ := ih c2 (got ++ d) (by omega) hlt
        (by simp only [List.length_append] at hlt ⊢; omega)
      have hidx : n - (got ++ d).length = n - got.length - d.length := by
        simp only [List.length_append]; omega
      refine ⟨c1, ?_, ?_, by omega⟩
      · rw [h1, hcl, List.take_append_eq_append_take, List.take_of_length_le hlen, hidx,
          List.append_assoc]
      · rw [h2, hcl, List.drop_append_eq_append_drop, List.drop_of_length_le hlen, hidx,
          List.nil_append]

/-- Fixed-length `Recv` of `n > 0` bytes from a connection whose next `n` bytes come with
no error: it returns exactly these bytes with a `nil` error. -/
theorem Recv_fixed_clean (c : Conn) (n : Nat) (retry : List Retry) (hn : 0 < n)
    (h : n ≤ c.clean.length) :
    ∃ c1, c.Recv (n : Int) retry = some ((c.clean.take n, none), retry, c1)
      ∧ c1.clean = c.clean.drop n ∧ c1.rmeasure < c.rmeasure := by
  have h2 : (0 : Int) < (n : Int) := by omega
  unfold Conn.Recv
  simp only [h2, if_true, Int.toNat_ofNat]
  simpa using recvLoop_fixed_clean n retry (c.rmeasure + 1) c [] (Nat.lt_succ_self _)
    (by simpa using hn) (by simpa using h)

/-! ## Frame header -/

theorem putUint32_length (v : Nat) : (putUint32 v).length = 4 := rfl

/-- The trailing `w` bytes of the 4-byte big-endian form of `v` read back as `v` modulo
`256 ^ w`. -/
theorem beUint_putUint32_drop (v w : Nat) (hw1 : 1 ≤ w) (hw4 : w ≤ 4) :
    ((putUint32 v).drop (4 - w)).length = w
      ∧ beUint ((putUint32 v).drop (4 - w)) = v % 256 ^ w := by
  have hcases : w = 1 ∨ w = 2 ∨ w = 3 ∨ w = 4 := by omega
  rcases hcases with h | h | h | h <;> subst h <;>
    simp [putUint32, beUint, Fin.ofNat] <;> omega

/-- The `switch` of `RecvPkg` computes the big-endian value of a header of the right
length. -/
theorem decodeHeader_eq (w : Nat) (buffer : List Byte) (hw1 : 1 ≤ w) (hw4 : w ≤ 4)
    (hlen : buffer.length = w) : decodeHeader (w : Int) buffer = some (beUint buffer : Int) := by
  have hcases : w = 1 ∨ w = 2 ∨ w = 3 ∨ w = 4 := by omega
  rcases hcases with h | h | h | h <;> subst h
  · match buffer, hlen with
    | [b0], _ => simp [decodeHeader, uint32, beUint]
  · match buffer, hlen with
    | [b0, b1], _ => simp [decodeHeader, uint32, beUint]
  · match buffer, hlen with
    | [b0, b1, b2], _ => simp [decodeHeader, uint32, beUint]; ring
  · match buffer, hlen with
    | [b0, b1, b2, b3], _ => simp [decodeHeader, uint32, beUint]; ring

/-! ## SendPkg and RecvPkg -/

/-- What `SendPkg` does with an accepted option of header size `w ≥ 1` and a payload
within the maximum: every `Write` it makes carries the frame, that is the trailing `w`
bytes of the 4-byte big-endian length followed by the payload. -/
theorem SendPkg_frame (c : Conn) (p : List Byte) (option : List PkgOption) (o : PkgOption)
    (w : Nat) (h : getPkgOption option = Except.ok o) (hw : o.HeaderSize = (w : Int))
    (hw1 : 1 ≤ w) (hlen : (p.length : Int) ≤ o.MaxDataSize) :
    ∃ err c1 k, c.SendPkg p option = Outcome.ret (err, c1) ∧ 1 ≤ k
      ∧ c1.writes = c.writes
          ++ List.replicate k ((putUint32 (p.length % 2 ^ 32)).drop (4 - w) ++ p)
      ∧ c1.rscript = c.rscript ∧ c1.rbuf = c.rbuf ∧ c1.rerr = c.rerr
      ∧ c1.nreads = c.nreads
      ∧ ((∀ n e, c.wscript.head? ≠ some (WriteEv.fail n e)) →
          err = none ∧ k = 1
            ∧ c1.wire = c.wire ++ ((putUint32 (p.length % 2 ^ 32)).drop (4 - w) ++ p)) := by
  have hb := (getPkgOption_bounds h).1
  have hw4 : w ≤ 4 := by omega
  have hoff : (pkgHeaderSizeMax - o.HeaderSize).toNat = 4 - w := by
    simp only [pkgHeaderSizeMax, hw]; omega
  have hdrop : (putUint32 (p.length % 2 ^ 32) ++ p).drop (4 - w)
      = (putUint32 (p.length % 2 ^ 32)).drop (4 - w) ++ p := by
    apply List.drop_append_of_le_length
    rw [putUint32_length]; omega
  have hnolong : ¬ ((p.length : Int) > o.MaxDataSize) := by omega
  have hnopanic : ¬ (pkgHeaderSizeMax - o.HeaderSize < 0
      ∨ ((putUint32 (p.length % 2 ^ 32) ++ p).length : Int)
          < pkgHeaderSizeMax - o.HeaderSize) := by
    simp only [pkgHeaderSizeMax, hw, List.length_append, putUint32_length]
    push_cast
    omega
  unfold Conn.SendPkg
  simp only [h, hnolong, if_false, hnopanic, hoff, hdrop]
  by_cases hr : o.Retry.Count > 0
  · simp only [hr, if_true]
    obtain ⟨err, r1, c1, k, h1, h2⟩ :=
      Send_spec c ((putUint32 (p.length % 2 ^ 32)).drop (4 - w) ++ p) [o.Retry]
    exact ⟨err, c1, k, by rw [h1], h2⟩
  · simp only [hr, if_false]
    obtain ⟨err, r1, c1, k, h1, h2⟩ :=
      Send_spec c ((putUint32 (p.length % 2 ^ 32)).drop (4 - w) ++ p) []
    exact ⟨err, c1, k, by rw [h1], h2⟩

/-- What `RecvPkg` does with an accepted option of header size `w ≥ 1` on a connection
whose next `w` bytes come with no error: it reads them as the header (`c1` is the
connection after that read) and goes on according to their big-endian value. -/
theorem RecvPkg_header (c : Conn) (option : List PkgOption) (o : PkgOption) (w : Nat)
    (h : getPkgOption option = Except.ok o) (hw : o.HeaderSize = (w : Int)) (hw1 : 1 ≤ w)
    (hav : w ≤ c.clean.length) :
    ∃ c1, c.Recv (w : Int) [o.Retry] = some ((c.clean.take w, none), [o.Retry], c1)
      ∧ c1.clean = c.clean.drop w
      ∧ c.RecvPkg option =
          (if (beUint (c.clean.take w) : Int) > o.MaxDataSize then
            Outcome.ret (([], some (Err.dataTooLongRecv (beUint (c.clean.take w)))), c1)
          else if beUint (c.clean.take w) = 0 then Outcome.ret (([], none), c1)
          else
            match c1.Recv (beUint (c.clean.take w) : Int) [o.Retry] with
            | none => Outcome.hang
            | some (res, _, c2) => Outcome.ret (res, c2)) := by
  have hb := (getPkgOption_bounds h).1
  have hw4 : w ≤ 4 := by omega
  obtain ⟨c1, h1, h2, _⟩ := Recv_fixed_clean c w [o.Retry] hw1 hav
  refine ⟨c1, h1, h2, ?_⟩
  have hdec := decodeHeader_eq w (c.clean.take w) hw1 hw4
    (by rw [List.length_take]; omega)
  have hnn : ¬ ((beUint (c.clean.take w) : Int) < 0) := by omega
  unfold Conn.RecvPkg
  simp only [h, hw, h1, hdec, hnn, false_or]
  by_cases hbig : (beUint (c.clean.take w) : Int) > o.MaxDataSize
  · simp only [hbig, if_true]
  · simp only [hbig, if_false]
    by_cases hz : beUint (c.clean.take w) = 0
    · simp [hz]
    · have hz2 : ¬ ((beUint (c.clean.take w) : Int) = 0) := by omega
      simp only [hz, hz2, if_false]

theorem maxDataSizeFor_lt_pow (w : Nat) (hw1 : 1 ≤ w) (hw4 : w ≤ 4) :
    maxDataSizeFor (w : Int) < ((256 ^ w : Nat) : Int) := by
  have hcases : w = 1 ∨ w = 2 ∨ w = 3 ∨ w = 4 := by omega
  rcases hcases with h | h | h | h <;> subst h <;> simp [maxDataSizeFor]

theorem pow_le_two_pow (w : Nat) (hw4 : w ≤ 4) : 256 ^ w ≤ 2 ^ 32 := by
  have hcases : w = 0 ∨ w = 1 ∨ w = 2 ∨ w = 3 ∨ w = 4 := by omega
  rcases hcases with h | h | h | h | h <;> subst h <;> norm_num

/-! ## The framing claims -/

/-- Claim C1, amended.  Take an accepted frame option of header width `w ∈ {1,2,3,4}`
whose maximum payload size is the default one of that width, and a payload `p` within it.
Then `SendPkg` returns, every `Write` it makes (there is at least one) carries one and the
same byte string `frame`, and `RecvPkg` with the same option on any connection whose
stream delivers `frame` with no error preceding or accompanying any of its bytes (in
whatever chunks, followed by whatever `rest`) returns exactly `p` with a `nil` error and
leaves `rest` unread. -/
theorem framing_round_trip (cs : Conn) (p : List Byte) (option : List PkgOption)
    (o : PkgOption) (w : Nat) (h : getPkgOption option = Except.ok o)
    (hw : o.HeaderSize = (w : Int)) (hw1 : 1 ≤ w)
    (hmax : o.MaxDataSize = maxDataSizeFor o.HeaderSize)
    (hlen : (p.length : Int) ≤ o.MaxDataSize) :
    ∃ frame err cs1 k, cs.SendPkg p option = Outcome.ret (err, cs1) ∧ 1 ≤ k
      ∧ cs1.writes = cs.writes ++ List.replicate k frame
      ∧ ∀ (cr : Conn) (rest : List Byte), cr.clean = frame ++ rest →
          ∃ cr1, cr.RecvPkg option = Outcome.ret ((p, none), cr1) ∧ cr1.clean = rest := by
  have hw4 : w ≤ 4 := by have := (getPkgOption_bounds h).1; omega
  obtain ⟨err, cs1, k, h1, h2, h3, _⟩ := SendPkg_frame cs p option o w h hw hw1 hlen
  refine ⟨_, err, cs1, k, h1, h2, h3, ?_⟩
  intro cr rest hcr
  obtain ⟨hl, hv⟩ := beUint_putUint32_drop (p.length % 2 ^ 32) w hw1 hw4
  have hpow := maxDataSizeFor_lt_pow w hw1 hw4
  have hpow2 := pow_le_two_pow w hw4
  have hplt : p.length < 256 ^ w := by
    rw [hmax, hw] at hlen
    have : (p.length : Int) < ((256 ^ w : Nat) : Int) := by omega
    exact_mod_cast this
  generalize (putUint32 (p.length % 2 ^ 32)).drop (4 - w) = hdr at hcr hl hv
  rw [Nat.mod_eq_of_lt (show p.length < 2 ^ 32 by omega), Nat.mod_eq_of_lt hplt] at hv
  have htake : cr.clean.take w = hdr := by
    rw [hcr, List.append_assoc, ← hl, List.take_left]
  have hdrop : cr.clean.drop w = p ++ rest := by
    rw [hcr, List.append_assoc, ← hl, List.drop_left]
  obtain ⟨c1, _, g2, g3⟩ := RecvPkg_header cr option o w h hw hw1
    (by rw [hcr]; simp only [List.length_append]; omega)
  rw [htake, hv] at g3
  rw [hdrop] at g2
  clear hv htake hdrop
  have hnb : ¬ ((p.length : Int) > o.MaxDataSize) := by omega
  rw [g3, if_neg hnb]
  by_cases hz : p.length = 0
  · rw [if_pos hz]
    have hp : p = [] := List.length_eq_zero.mp hz
    subst hp
    exact ⟨c1, rfl, by simpa using g2⟩
  · rw [if_neg hz]
    obtain ⟨c2, e1, e2, _⟩ := Recv_fixed_clean c1 p.length [o.Retry] (by omega)
      (by rw [g2]; simp)
    rw [e1]
    refine ⟨c2, ?_, ?_⟩
    · simp [g2]
    · rw [e2, g2, List.drop_left]

/-- Witness of `framing_round_trip`: the payload `[1, 2, 3]` with the default option
(header width 2, maximum 0xFFFF). -/
theorem framing_round_trip_witness :
    getPkgOption [] = Except.ok ⟨2, 0xFFFF, ⟨0, 0⟩⟩
      ∧ ∃ frame err cs1 k,
        (NewConnByNetConn [] [] [] 0).SendPkg [1, 2, 3] [] = Outcome.ret (err, cs1) ∧ 1 ≤ k
        ∧ cs1.writes = (NewConnByNetConn [] [] [] 0).writes ++ List.replicate k frame
        ∧ ∀ (cr : Conn) (rest : List Byte), cr.clean = frame ++ rest →
            ∃ cr1, cr.RecvPkg [] = Outcome.ret (([1, 2, 3], none), cr1) ∧ cr1.clean = rest :=
  ⟨rfl, framing_round_trip (NewConnByNetConn [] [] [] 0) [1, 2, 3] [] ⟨2, 0xFFFF, ⟨0, 0⟩⟩ 2
    rfl rfl (by decide) rfl (by decide)⟩

/-- Claim C2, oversize rejection on encode.  For every accepted frame option and every
payload longer than its resolved `MaxDataSize`, `SendPkg` returns the data-too-long error
and `SendRecvPkg` returns that same error with an empty result; both leave the connection
exactly as it was, so no byte is written and no read is made. -/
theorem SendPkg_oversize_rejected (c : Conn) (p : List Byte) (option : List PkgOption)
    (o : PkgOption) (h : getPkgOption option = Except.ok o)
    (hlen : (p.length : Int) > o.MaxDataSize) :
    c.SendPkg p option = Outcome.ret (some (Err.dataTooLongSend p.length), c)
      ∧ c.SendRecvPkg p option = Outcome.ret (([], some (Err.dataTooLongSend p.length)), c) := by
  have h1 : c.SendPkg p option = Outcome.ret (some (Err.dataTooLongSend p.length), c) := by
    unfold Conn.SendPkg
    simp only [h, hlen, if_true]
  refine ⟨h1, ?_⟩
  unfold Conn.SendRecvPkg
  rw [h1]

/-- Witness of `SendPkg_oversize_rejected`: 256 bytes with `HeaderSize` 1. -/
theorem SendPkg_oversize_rejected_witness :
    getPkgOption [⟨1, 0, ⟨0, 0⟩⟩] = Except.ok ⟨1, 0xFF, ⟨0, 0⟩⟩
      ∧ (NewConnByNetConn [] [] [] 0).SendPkg (List.replicate 256 0) [⟨1, 0, ⟨0, 0⟩⟩]
          = Outcome.ret (some (Err.dataTooLongSend (List.replicate 256 (0 : Byte)).length),
              NewConnByNetConn [] [] [] 0)
      ∧ (NewConnByNetConn [] [] [] 0).SendRecvPkg (List.replicate 256 0) [⟨1, 0, ⟨0, 0⟩⟩]
          = Outcome.ret (([], some (Err.dataTooLongSend (List.replicate 256 (0 : Byte)).length)),
              NewConnByNetConn [] [] [] 0) :=
  ⟨rfl, SendPkg_oversize_rejected (NewConnByNetConn [] [] [] 0) (List.replicate 256 0)
    [⟨1, 0, ⟨0, 0⟩⟩] ⟨1, 0xFF, ⟨0, 0⟩⟩ rfl (by rw [List.length_replicate]; decide)⟩

/-- Claim C3, at the failing input `PkgOption{HeaderSize: 5}` with an empty payload:
`getPkgOption` rejects the option and `RecvPkg` returns its error without reading, but
`SendPkg` returns a `nil` error (without writing). -/
theorem SendPkg_config_error_returns_nil :
    getPkgOption [⟨5, 0, ⟨0, 0⟩⟩] = Except.error Err.headerSizeTooBig
      ∧ (NewConnByNetConn [] [] [] 0).SendPkg [] [⟨5, 0, ⟨0, 0⟩⟩]
          = Outcome.ret (none, NewConnByNetConn [] [] [] 0)
      ∧ (NewConnByNetConn [] [] [] 0).RecvPkg [⟨5, 0, ⟨0, 0⟩⟩]
          = Outcome.ret (([], some Err.headerSizeTooBig), NewConnByNetConn [] [] [] 0) :=
  ⟨rfl, rfl, rfl⟩

/-- On every configuration error `SendPkg` returns a `nil` error and `RecvPkg` the error
of `getPkgOption`, neither touching the connection. -/
theorem SendPkg_RecvPkg_config_error (c : Conn) (p : List Byte) (o : PkgOption)
    (rest : List PkgOption) (h : o.HeaderSize > 4 ∨ o.MaxDataSize > 0x7FFFFFFF) :
    c.SendPkg p (o :: rest) = Outcome.ret (none, c)
      ∧ ∃ e, c.RecvPkg (o :: rest) = Outcome.ret (([], some e), c) := by
  obtain ⟨e, he⟩ := getPkgOption_reject o rest h
  constructor
  · unfold Conn.SendPkg
    simp only [he]
  · refine ⟨e, ?_⟩
    unfold Conn.RecvPkg
    simp only [he]

set_option maxRecDepth 100000 in
/-- Claim C4 as stated fails: with `PkgOption{HeaderSize: 1, MaxDataSize: 256}`, which
`getPkgOption` accepts, `SendPkg` accepts a payload of 256 bytes and sends one header
byte followed by the payload; the header byte is `0` and does not read as 256. -/
theorem SendPkg_header_not_length :
    getPkgOption [⟨1, 256, ⟨0, 0⟩⟩] = Except.ok ⟨1, 256, ⟨0, 0⟩⟩
      ∧ ∃ c1 hdr,
        (NewConnByNetConn [] [] [] 0).SendPkg (List.replicate 256 0) [⟨1, 256, ⟨0, 0⟩⟩]
          = Outcome.ret (none, c1)
        ∧ c1.writes = [hdr ++ List.replicate 256 0] ∧ hdr.length = 1
        ∧ beUint hdr ≠ (List.replicate 256 (0 : Byte)).length := by
  refine ⟨rfl, _, [0], rfl, ?_, rfl, ?_⟩
  · decide
  · rw [List.length_replicate]; decide

/-- Claim C4, amended.  For every accepted frame option of header width `w ∈ {1,2,3,4}`
(a caller-supplied `MaxDataSize` included) and every payload `p` that `SendPkg` accepts,
every `Write` that `SendPkg` makes carries exactly `w` header bytes followed by `p`, and
the header bytes read as a big-endian unsigned integer equal `len(p)` modulo `256 ^ w`,
hence `len(p)` itself whenever `len(p) < 256 ^ w`. -/
theorem SendPkg_header_is_length_mod (c : Conn) (p : List Byte) (option : List PkgOption)
    (o : PkgOption) (w : Nat) (h : getPkgOption option = Except.ok o)
    (hw : o.HeaderSize = (w : Int)) (hw1 : 1 ≤ w) (hlen : (p.length : Int) ≤ o.MaxDataSize) :
    ∃ hdr err c1 k, c.SendPkg p option = Outcome.ret (err, c1) ∧ 1 ≤ k
      ∧ c1.writes = c.writes ++ List.replicate k (hdr ++ p)
      ∧ hdr.length = w ∧ beUint hdr = p.length % 256 ^ w
      ∧ (p.length < 256 ^ w → beUint hdr = p.length) := by
  obtain ⟨hb4, hbm⟩ := getPkgOption_bounds h
  have hw4 : w ≤ 4 := by omega
  obtain ⟨err, c1, k, h1, h2, h3, _⟩ := SendPkg_frame c p option o w h hw hw1 hlen
  obtain ⟨hl, hv⟩ := beUint_putUint32_drop (p.length % 2 ^ 32) w hw1 hw4
  rw [Nat.mod_eq_of_lt (show p.length < 2 ^ 32 by omega)] at hv hl h3
  refine ⟨_, err, c1, k, h1, h2, h3, hl, hv, ?_⟩
  intro hlt
  rw [hv, Nat.mod_eq_of_lt hlt]

/-- Witness of `SendPkg_header_is_length_mod`: 256 bytes with
`PkgOption{HeaderSize: 1, MaxDataSize: 256}`. -/
theorem SendPkg_header_is_length_mod_witness :
    getPkgOption [⟨1, 256, ⟨0, 0⟩⟩] = Except.ok ⟨1, 256, ⟨0, 0⟩⟩
      ∧ ∃ hdr err c1 k,
        (NewConnByNetConn [] [] [] 0).SendPkg (List.replicate 256 0) [⟨1, 256, ⟨0, 0⟩⟩]
          = Outcome.ret (err, c1) ∧ 1 ≤ k
        ∧ c1.writes = (NewConnByNetConn [] [] [] 0).writes
            ++ List.replicate k (hdr ++ List.replicate 256 0)
        ∧ hdr.length = 1 ∧ beUint hdr = (List.replicate 256 (0 : Byte)).length % 256 ^ 1
        ∧ ((List.replicate 256 (0 : Byte)).length < 256 ^ 1
            → beUint hdr = (List.replicate 256 (0 : Byte)).length) :=
  ⟨rfl, SendPkg_header_is_length_mod (NewConnByNetConn [] [] [] 0) (List.replicate 256 0)
    [⟨1, 256, ⟨0, 0⟩⟩] ⟨1, 256, ⟨0, 0⟩⟩ 1 rfl rfl (by decide)
    (by rw [List.length_replicate]; decide)⟩

/-- Claim C5, oversize rejection on decode.  For every accepted frame option of header
width `w ∈ {1,2,3,4}` and every connection whose next `w` bytes arrive without an error:
if these bytes, read as a big-endian unsigned integer, exceed the option's `MaxDataSize`,
`RecvPkg` returns an empty payload with the data-too-long error, and the connection it
leaves has consumed the `w` header bytes and nothing after them. -/
theorem RecvPkg_oversize_rejected (c : Conn) (option : List PkgOption) (o : PkgOption)
    (w : Nat) (h : getPkgOption option = Except.ok o) (hw : o.HeaderSize = (w : Int))
    (hw1 : 1 ≤ w) (hav : w ≤ c.clean.length)
    (hbig : (beUint (c.clean.take w) : Int) > o.MaxDataSize) :
    ∃ c1, c.RecvPkg option
          = Outcome.ret (([], some (Err.dataTooLongRecv (beUint (c.clean.take w)))), c1)
      ∧ c1.clean = c.clean.drop w := by
  obtain ⟨c1, _, g2, g3⟩ := RecvPkg_header c option o w h hw hw1 hav
  exact ⟨c1, by rw [g3, if_pos hbig], g2⟩

/-- Witness of `RecvPkg_oversize_rejected`: header width 4 with the default maximum and
the header `80 00 00 00`, followed by one more byte. -/
theorem RecvPkg_oversize_rejected_witness :
    getPkgOption [⟨4, 0, ⟨0, 0⟩⟩] = Except.ok ⟨4, 0x7FFFFFFF, ⟨0, 0⟩⟩
      ∧ (NewConnByNetConn [⟨[128, 0], none⟩, ⟨[0, 0, 7], none⟩] [] [] 0).clean
          = [128, 0, 0, 0, 7]
      ∧ ∃ c1, (NewConnByNetConn [⟨[128, 0], none⟩, ⟨[0, 0, 7], none⟩] [] [] 0).RecvPkg
            [⟨4, 0, ⟨0, 0⟩⟩]
          = Outcome.ret (([], some (Err.dataTooLongRecv (beUint
              ((NewConnByNetConn [⟨[128, 0], none⟩, ⟨[0, 0, 7], none⟩] [] [] 0).clean.take 4)))),
              c1)
        ∧ c1.clean
          = (NewConnByNetConn [⟨[128, 0], none⟩, ⟨[0, 0, 7], none⟩] [] [] 0).clean.drop 4 :=
  ⟨rfl, rfl, RecvPkg_oversize_rejected
    (NewConnByNetConn [⟨[128, 0], none⟩, ⟨[0, 0, 7], none⟩] [] [] 0) [⟨4, 0, ⟨0, 0⟩⟩]
    ⟨4, 0x7FFFFFFF, ⟨0, 0⟩⟩ 4 rfl rfl (by decide) (by decide) (by decide)⟩

theorem putUint32_zero_drop (w : Nat) (hw1 : 1 ≤ w) (hw4 : w ≤ 4) :
    (putUint32 0).drop (4 - w) = List.replicate w 0 := by
  have hcases : w = 1 ∨ w = 2 ∨ w = 3 ∨ w = 4 := by omega
  rcases hcases with h | h | h | h <;> subst h <;> rfl

theorem beUint_replicate_zero (w : Nat) : beUint (List.replicate w 0) = 0 := by
  induction w with
  | zero => rfl
  | succ w ih => simpa [beUint, List.replicate_succ] using ih

/-- Claim C6, zero-length frame.  For every accepted frame option of header width
`w ∈ {1,2,3,4}` with a non-negative `MaxDataSize` (the default ones are): every `Write`
that `SendPkg` makes for the empty payload carries exactly `w` zero bytes, and when the
first `Write` succeeds these `w` bytes are all that goes on the wire; `RecvPkg` on a
connection whose next `w` bytes are zero returns the empty payload with a `nil` error,
and the connection it leaves is the one left by the header read `Recv(w)`: the `w` bytes
are consumed, what follows them is not, and no further read was made. -/
theorem zero_length_frame (cs cr : Conn) (option : List PkgOption) (o : PkgOption)
    (w : Nat) (rest : List Byte) (h : getPkgOption option = Except.ok o)
    (hw : o.HeaderSize = (w : Int)) (hw1 : 1 ≤ w) (hmax : 0 ≤ o.MaxDataSize)
    (hcr : cr.clean = List.replicate w 0 ++ rest) :
    (∃ err cs1 k, cs.SendPkg [] option = Outcome.ret (err, cs1) ∧ 1 ≤ k
        ∧ cs1.writes = cs.writes ++ List.replicate k (List.replicate w 0)
        ∧ ((∀ n e, cs.wscript.head? ≠ some (WriteEv.fail n e)) →
            err = none ∧ k = 1 ∧ cs1.wire = cs.wire ++ List.replicate w 0))
      ∧ ∃ cr1, cr.Recv (w : Int) [o.Retry] = some ((List.replicate w 0, none), [o.Retry], cr1)
        ∧ cr.RecvPkg option = Outcome.ret (([], none), cr1) ∧ cr1.clean = rest := by
  have hw4 : w ≤ 4 := by have := (getPkgOption_bounds h).1; omega
  constructor
  · obtain ⟨err, cs1, k, h1, h2, h3, _, _, _, _, h4⟩ :=
      SendPkg_frame cs [] option o w h hw hw1 (by simpa using hmax)
    simp only [List.length_nil, Nat.zero_mod, putUint32_zero_drop w hw1 hw4,
      List.append_nil] at h3 h4
    exact ⟨err, cs1, k, h1, h2, h3, h4⟩
  · obtain ⟨c1, g1, g2, g3⟩ := RecvPkg_header cr option o w h hw hw1
      (by rw [hcr]; simp)
    have htake : cr.clean.take w = List.replicate w 0 := by
      rw [hcr]
      exact List.take_left' (List.length_replicate w 0)
    have hdrop : cr.clean.drop w = rest := by
      rw [hcr]
      exact List.drop_left' (List.length_replicate w 0)
    rw [htake] at g1 g3
    rw [beUint_replicate_zero] at g3
    refine ⟨c1, g1, ?_, by rw [g2, hdrop]⟩
    rw [g3, if_neg (by simpa using hmax), if_pos rfl]

/-- Witness of `zero_length_frame`: the default option (header width 2) and a stream that
delivers `00 00 2A` one byte at a time. -/
theorem zero_length_frame_witness :
    getPkgOption [] = Except.ok ⟨2, 0xFFFF, ⟨0, 0⟩⟩
      ∧ (NewConnByNetConn [⟨[0], none⟩, ⟨[0], none⟩, ⟨[42], none⟩] [] [] 0).clean
          = List.replicate 2 0 ++ [42]
      ∧ ((∃ err cs1 k, (NewConnByNetConn [] [] [] 0).SendPkg [] [] = Outcome.ret (err, cs1)
          ∧ 1 ≤ k
          ∧ cs1.writes = (NewConnByNetConn [] [] [] 0).writes
              ++ List.replicate k (List.replicate 2 0)
          ∧ ((∀ n e, (NewConnByNetConn [] [] [] 0).wscript.head? ≠ some (WriteEv.fail n e)) →
              err = none ∧ k = 1
                ∧ cs1.wire = (NewConnByNetConn [] [] [] 0).wire ++ List.replicate 2 0))
        ∧ ∃ cr1, (NewConnByNetConn [⟨[0], none⟩, ⟨[0], none⟩, ⟨[42], none⟩] [] [] 0).Recv
              ((2 : Nat) : Int) [(⟨2, 0xFFFF, ⟨0, 0⟩⟩ : PkgOption).Retry]
            = some ((List.replicate 2 0, none), [(⟨2, 0xFFFF, ⟨0, 0⟩⟩ : PkgOption).Retry], cr1)
          ∧ (NewConnByNetConn [⟨[0], none⟩, ⟨[0], none⟩, ⟨[42], none⟩] [] [] 0).RecvPkg []
            = Outcome.ret (([], none), cr1)
          ∧ cr1.clean = [42]) :=
  ⟨rfl, rfl, zero_length_frame (NewConnByNetConn [] [] [] 0)
    (NewConnByNetConn [⟨[0], none⟩, ⟨[0], none⟩, ⟨[42], none⟩] [] [] 0) []
    ⟨2, 0xFFFF, ⟨0, 0⟩⟩ 2 [42] rfl rfl (by decide) (by decide) rfl⟩

/-! ## Retry exhaustion -/

/-- A read from a connection with nothing buffered whose stream fails outright. -/
theorem read_fail (c : Conn) (cap : Nat) (e : Err) (rest : List ReadEv) (hcap : 0 < cap)
    (hbuf : c.rbuf = []) (herr : c.rerr = none) (hs : c.rscript = ⟨[], some e⟩ :: rest) :
    c.read cap = (([], some e), { c with rscript := rest, nreads := c.nreads + 1 }) := by
  have h0 : ¬ cap = 0 := by omega
  unfold Conn.read
  simp only [h0, if_false, hbuf, herr, hs, netRead, List.length_nil, Nat.zero_le, if_true]
  split <;> rfl

/-- The loop of `Send` against `init.length + 1` failing writes, with that many retries
less one. -/
theorem sendLoop_exhaust (data : List Byte) (m : Nat) (e : Err) (rest : List WriteEv)
    (he : e ≠ Err.eof) :
    ∀ (init : List (Nat × Err)) (fuel : Nat) (c : Conn) (iv : Int),
      (∀ f ∈ init, f.2 ≠ Err.eof) →
      c.wscript = init.map (fun f => WriteEv.fail f.1 f.2) ++ WriteEv.fail m e :: rest →
      init.length < fuel →
      ∃ iv1 c1, sendLoop fuel c data [⟨(init.length : Int), iv⟩] = some (some e, [⟨0, iv1⟩], c1)
        ∧ c1.writes = c.writes ++ List.replicate (init.length + 1) data
        ∧ c1.wscript = rest := by
  intro init
  induction init with
  | nil =>
    intro fuel c iv _ hs hfuel
    obtain ⟨fuel, rfl⟩ : ∃ k, fuel = k + 1 := ⟨fuel - 1, by simp at hfuel; omega⟩
    simp only [List.map_nil, List.nil_append] at hs
    refine ⟨iv, (c.write data).2, ?_, ?_, ?_⟩
    · simp [sendLoop, Conn.write, hs, he]
    · simp [Conn.write, hs]
    · simp [Conn.write, hs]
  | cons f init ih =>
    intro fuel c iv hne hs hfuel
    obtain ⟨fuel, rfl⟩ : ∃ k, fuel = k + 1 := ⟨fuel - 1, by simp at hfuel; omega⟩
    simp only [List.map_cons, List.cons_append] at hs
    have hf : f.2 ≠ Err.eof := hne f (List.mem_cons_self _ _)
    have hc : ¬ (((f :: init).length : Nat) : Int) = 0 := by simp; omega
    obtain ⟨iv1, c1, h1, h2, h3⟩ := ih fuel
      { c with wscript := init.map (fun f => WriteEv.fail f.1 f.2) ++ WriteEv.fail m e :: rest,
               writes := c.writes ++ [data], wire := c.wire ++ data.take f.1 }
      (if iv = 0 then defaultRetryInternal else iv)
      (fun g hg => hne g (List.mem_cons_of_mem _ hg)) rfl
      (by simp at hfuel; omega)
    refine ⟨iv1, c1, ?_, ?_, h3⟩
    · simp only [sendLoop, Conn.write, hs, hf, if_false, hc]
      rw [← h1]
      simp [Retry.consume]
    · rw [h2]
      simp [List.replicate_succ]

/-- The loop of `Recv` in fixed-length mode against `init.length + 1` failing reads, with
that many retries less one. -/
theorem recvLoop_exhaust (n : Nat) (hn : 0 < n) (e : Err) (rest : List ReadEv)
    (he : e ≠ Err.eof) :
    ∀ (init : List Err) (fuel : Nat) (c : Conn) (iv : Int),
      (∀ x ∈ init, x ≠ Err.eof) → c.rbuf = [] → c.rerr = none →
      c.rscript = init.map (fun x => (⟨[], some x⟩ : ReadEv)) ++ ⟨[], some e⟩ :: rest →
      init.length < fuel →
      ∃ iv1 c1, recvLoop fuel c (n : Int) [⟨(init.length : Int), iv⟩] [] n false
            = some (([], some e), [⟨0, iv1⟩], c1)
        ∧ c1.nreads = c.nreads + (init.length + 1) ∧ c1.rscript = rest
        ∧ c1.rbuf = [] ∧ c1.rerr = none := by
  intro init
  induction init with
  | nil =>
    intro fuel c iv _ hbuf herr hs hfuel
    obtain ⟨fuel, rfl⟩ : ∃ k, fuel = k + 1 := ⟨fuel - 1, by simp at hfuel; omega⟩
    simp only [List.map_nil, List.nil_append] at hs
    have hr := read_fail c n e rest hn hbuf herr hs
    refine ⟨iv, { c with rscript := rest, nreads := c.nreads + 1 }, ?_, rfl, rfl, hbuf, herr⟩
    rw [recvLoop_fixed_step fuel c n _ [] (by simpa using hn)]
    simp [hr, he]
  | cons x init ih =>
    intro fuel c iv hne hbuf herr hs hfuel
    obtain ⟨fuel, rfl⟩ : ∃ k, fuel = k + 1 := ⟨fuel - 1, by simp at hfuel; omega⟩
    simp only [List.map_cons, List.cons_append] at hs
    have hx : x ≠ Err.eof := hne x (List.mem_cons_self _ _)
    have hc : ¬ (((x :: init).length : Nat) : Int) = 0 := by simp; omega
    have hr := read_fail c n x _ hn hbuf herr hs
    obtain ⟨iv1, c1, h1, h2, h3, h4, h5⟩ := ih fuel
      { c with rscript := init.map (fun x => (⟨[], some x⟩ : ReadEv)) ++ ⟨[], some e⟩ :: rest,
               nreads := c.nreads + 1 }
      (if iv = 0 then defaultRetryInternal else iv)
      (fun g hg => hne g (List.mem_cons_of_mem _ hg)) hbuf herr rfl
      (by simp at hfuel; omega)
    refine ⟨iv1, c1, ?_, ?_, h3, h4, h5⟩
    · rw [recvLoop_fixed_step fuel c n _ [] (by simpa using hn)]
      simp only [List.length_nil, Nat.sub_zero, hr, List.append_nil, Nat.lt_irrefl, false_and,
        if_false, hx, hc]
      rw [← h1]
      simp [Retry.consume]
    · rw [h2]
      simp only [List.length_cons]
      omega

/-- Claim C7, retry exhaustion.  Take a retry policy with `Count = N ≥ 0` (here
`N = init.length`).  If the next `N + 1` writes of the stream fail with errors other than
end of stream, `Send` makes exactly `N + 1` writes and returns the error of the last one;
if the next `N + 1` reads of the stream (nothing being buffered) fail with errors other
than end of stream and deliver nothing, `Recv` in fixed-length mode makes exactly `N + 1`
reads and returns an empty buffer with the error of the last one. -/
theorem retry_exhaustion (c : Conn) (data : List Byte) (n : Nat) (iv : Int)
    (winit : List (Nat × Err)) (m : Nat) (ew : Err) (wrest : List WriteEv)
    (rinit : List Err) (er : Err) (rrest : List ReadEv)
    (hn : 0 < n) (hlen : rinit.length = winit.length)
    (hw1 : ∀ f ∈ winit, f.2 ≠ Err.eof) (hw2 : ew ≠ Err.eof)
    (hws : c.wscript = winit.map (fun f => WriteEv.fail f.1 f.2) ++ WriteEv.fail m ew :: wrest)
    (hr1 : ∀ x ∈ rinit, x ≠ Err.eof) (hr2 : er ≠ Err.eof)
    (hbuf : c.rbuf = []) (herr : c.rerr = none)
    (hrs : c.rscript = rinit.map (fun x => (⟨[], some x⟩ : ReadEv)) ++ ⟨[], some er⟩ :: rrest) :
    (∃ iv1 c1, c.Send data [⟨(winit.length : Int), iv⟩] = some (some ew, [⟨0, iv1⟩], c1)
        ∧ c1.writes = c.writes ++ List.replicate (winit.length + 1) data
        ∧ c1.wscript = wrest)
      ∧ ∃ iv1 c1, c.Recv (n : Int) [⟨(winit.length : Int), iv⟩]
            = some (([], some er), [⟨0, iv1⟩], c1)
        ∧ c1.nreads = c.nreads + (winit.length + 1) ∧ c1.rscript = rrest := by
  constructor
  · exact sendLoop_exhaust data m ew wrest hw2 winit _ c iv hw1 hws
      (by rw [hws]; simp; omega)
  · have h2 : (0 : Int) < (n : Int) := by omega
    obtain ⟨iv1, c1, h1, h3, h4, _⟩ := recvLoop_exhaust n hn er rrest hr2 rinit
      (c.rmeasure + 1) c iv hr1 hbuf herr hrs
      (by simp [Conn.rmeasure, scriptSize, hrs]; omega)
    refine ⟨iv1, c1, ?_, by rw [h3, hlen], h4⟩
    unfold Conn.Recv
    simp only [h2, if_true, Int.toNat_ofNat]
    rw [← hlen]
    exact h1

/-- Witness of `retry_exhaustion`: `Count = 2` against three failing writes and three
failing reads. -/
theorem retry_exhaustion_witness :
    ∃ c : Conn,
      c = NewConnByNetConn [⟨[], some (Err.io 1)⟩, ⟨[], some Err.timeout⟩, ⟨[], some (Err.io 3)⟩]
            [WriteEv.fail 0 (Err.io 4), WriteEv.fail 1 (Err.io 5), WriteEv.fail 0 (Err.io 6)] [] 0
      ∧ (∃ iv1 c1, c.Send [7, 8] [⟨2, 0⟩] = some (some (Err.io 6), [⟨0, iv1⟩], c1)
          ∧ c1.writes = c.writes ++ List.replicate 3 [7, 8] ∧ c1.wscript = [])
      ∧ ∃ iv1 c1, c.Recv 5 [⟨2, 0⟩] = some (([], some (Err.io 3)), [⟨0, iv1⟩], c1)
          ∧ c1.nreads = c.nreads + 3 ∧ c1.rscript = [] :=
  ⟨_, rfl, retry_exhaustion
    (NewConnByNetConn [⟨[], some (Err.io 1)⟩, ⟨[], some Err.timeout⟩, ⟨[], some (Err.io 3)⟩]
      [WriteEv.fail 0 (Err.io 4), WriteEv.fail 1 (Err.io 5), WriteEv.fail 0 (Err.io 6)] [] 0)
    [7, 8] 5 0 [(0, Err.io 4), (1, Err.io 5)] 0 (Err.io 6) []
    [Err.io 1, Err.timeout] (Err.io 3) [] (by decide) rfl (by decide) (by decide) rfl
    (by decide) (by decide) rfl rfl rfl⟩

/-! ## Fixed-length receive without a retry policy -/

/-- The loop of `Recv` in fixed-length mode without a retry policy, on any connection: it
returns the missing bytes as far as they are available; short of them the error is the
next error of the connection, and a `nil` error means they were all there. -/
theorem recvLoop_fixed_avail (n : Nat) :
    ∀ (fuel : Nat) (c : Conn) (got : List Byte), c.rmeasure < fuel → got.length < n →
      ∃ err c1, recvLoop fuel c (n : Int) [] got n false
            = some ((got ++ c.avail.take (n - got.length), err), [], c1)
        ∧ (c.avail.length < n - got.length → err = some c.firstErr)
        ∧ (err = none → n - got.length ≤ c.avail.length) := by
  intro fuel
  induction fuel with
  | zero => intro c got h; omega
  | succ fuel ih =>
    intro c got hfuel hgot
    have hcap : 0 < n - got.length := by omega
    obtain ⟨ha1, ha2⟩ := read_avail c (n - got.length) hcap
    have hlen := read_length c (n - got.length)
    have hm := read_measure c (n - got.length) hcap
    rw [recvLoop_fixed_step fuel c n [] got hgot]
    generalize (c.read (n - got.length)).2 = c2 at ha1 ha2 hlen hm ⊢
    generalize (c.read (n - got.length)).1.2 = e at ha1 ha2 hlen hm ⊢
    generalize (c.read (n - got.length)).1.1 = d at ha1 ha2 hlen hm ⊢
    by_cases hfull : 0 < d.length ∧ (got ++ d).length = n
    · rw [if_pos hfull]
      have hd : d.length = n - got.length := by
        have := hfull.2; simp at this; omega
      have htake : c.avail.take (n - got.length) = d := by
        cases e with
        | none => rw [(ha1 rfl).1, ← hd, List.take_left]
        | some x => rw [(ha2 x rfl).1, ← hd, List.take_length]
      have hge : n - got.length ≤ c.avail.length := by
        rw [← htake] at hd
        rw [List.length_take] at hd
        omega
      exact ⟨e, c2, by rw [htake], fun h => by omega, fun _ => hge⟩
    · rw [if_neg hfull]
      have hlt : d.length < n - got.length := by
        by_contra hcon
        apply hfull
        simp only [List.length_append]
        omega
      cases e with
      | some x =>
        obtain ⟨hav, hfe⟩ := ha2 x rfl
        have htake : c.avail.take (n - got.length) = d := by
          rw [hav]; exact List.take_of_length_le (by omega)
        have hres : ∃ err c1,
            (some ((got ++ d, some x), ([] : List Retry), c2) :
                Option ((List Byte × Option Err) × List Retry × Conn))
              = some ((got ++ c.avail.take (n - got.length), err), [], c1)
            ∧ (c.avail.length < n - got.length → err = some c.firstErr)
            ∧ (err = none → n - got.length ≤ c.avail.length) :=
          ⟨some x, c2, by rw [htake], fun _ => by rw [hfe], fun h => by cases h⟩
        by_cases hx : x = Err.eof
        · simpa [hx] using hres
        · simpa [hx] using hres
      | none =>
        obtain ⟨hav, hfe⟩ := ha1 rfl
        have hm2 := hm (by simp)
        have hlt2 : (got ++ d).length < n := by
          simp only [List.length_append]; omega
        obtain ⟨err, c1, h1, h2, h3⟩ := ih c2 (got ++ d) (by omega) hlt2
        have hidx : n - (got ++ d).length = n - got.length - d.length := by
          simp only [List.length_append]; omega
        have hal : c.avail.length = d.length + c2.avail.length := by
          rw [hav]; simp
        refine ⟨err, c1, ?_, ?_, ?_⟩
        · simp only
          rw [h1, hav, List.take_append_eq_append_take, List.take_of_length_le hlen, hidx,
            List.append_assoc]
        · intro h
          rw [hfe]
          exact h2 (by omega)
        · intro h
          have := h3 h
          omega

/-- Claim C8, amended.  `Recv(n)` for `n > 0` without a retry policy, on any connection
and for any chunking of its stream, returns the next `min(n, available)` bytes of the
stream in order, `available` counting the bytes up to the next error of the stream.  If
the stream ends or fails after fewer than `n` bytes, these bytes are returned together
with that error.  A `nil` error comes with exactly `n` bytes; conversely `n` bytes that
no error accompanies come with a `nil` error (a read that completes the `n` bytes and
reports an error at the same time makes `Recv` return the `n` bytes with that error). -/
theorem Recv_fixed_spec (c : Conn) (n : Nat) (hn : 0 < n) :
    ∃ err c1, c.Recv (n : Int) [] = some ((c.avail.take n, err), [], c1)
      ∧ (c.avail.length < n → err = some c.firstErr)
      ∧ (err = none → (c.avail.take n).length = n)
      ∧ (n ≤ c.clean.length → err = none) := by
  have h2 : (0 : Int) < (n : Int) := by omega
  obtain ⟨err, c1, h1, h3, h4⟩ := recvLoop_fixed_avail n (c.rmeasure + 1) c []
    (Nat.lt_succ_self _) (by simpa using hn)
  simp only [List.length_nil, Nat.sub_zero, List.nil_append] at h1 h3 h4
  have hrecv : c.Recv (n : Int) [] = some ((c.avail.take n, err), [], c1) := by
    unfold Conn.Recv
    simp only [h2, if_true, Int.toNat_ofNat]
    exact h1
  refine ⟨err, c1, hrecv, h3, ?_, ?_⟩
  · intro he
    rw [List.length_take]
    have := h4 he
    omega
  · intro hcl
    obtain ⟨c2, g1, _⟩ := Recv_fixed_clean c n [] hn hcl
    rw [hrecv] at g1
    simp only [Option.some.injEq, Prod.mk.injEq] at g1
    exact g1.1.2

/-- A read request at least as large as the reader's buffer goes straight to the stream:
when the stream hands over exactly the requested bytes together with an error, `Recv`
returns the full buffer and that error. -/
theorem Recv_direct_full_with_error (d : List Byte) (e : Err) (hd : bufSize ≤ d.length) :
    (NewConnByNetConn [⟨d, some e⟩] [] [] 0).Recv (d.length : Int) []
      = some ((d, some e), [], { NewConnByNetConn [] [] [] 0 with nreads := 1 }) := by
  have hpos : 0 < d.length := lt_of_lt_of_le (by decide) hd
  have h0 : ¬ d.length = 0 := by omega
  have hread : (NewConnByNetConn [⟨d, some e⟩] [] [] 0).read d.length
      = ((d, some e), { NewConnByNetConn [] [] [] 0 with nreads := 1 }) := by
    simp [Conn.read, NewConnByNetConn, netRead, hd, h0]
  have h2 : (0 : Int) < (d.length : Int) := by omega
  unfold Conn.Recv
  simp only [h2, if_true, Int.toNat_ofNat]
  rw [recvLoop_fixed_step _ _ d.length [] [] (by simpa using hpos)]
  simp only [List.length_nil, Nat.sub_zero, hread, List.nil_append]
  simp [hpos]

/-- Claim C8 as stated fails in one direction: `Recv(4096)` on a fresh connection whose
stream hands over 4096 bytes together with the end-of-stream error returns exactly these
4096 bytes, and the error with them. -/
theorem Recv_full_with_error :
    (List.replicate 4096 (0 : Byte)).length = 4096
      ∧ (NewConnByNetConn [⟨List.replicate 4096 0, some Err.eof⟩] [] [] 0).Recv
            ((4096 : Nat) : Int) []
          = some ((List.replicate 4096 0, some Err.eof), [],
              { NewConnByNetConn [] [] [] 0 with nreads := 1 }) := by
  have h := Recv_direct_full_with_error (List.replicate 4096 0) Err.eof
    (by rw [List.length_replicate]; decide)
  rw [List.length_replicate] at h
  exact ⟨List.length_replicate _ _, h⟩

/-- Witness of `Recv_fixed_spec`: five bytes asked of a stream that fails after three. -/
theorem Recv_fixed_spec_witness :
    (NewConnByNetConn [⟨[1, 2], none⟩, ⟨[3], some (Err.io 9)⟩, ⟨[4], none⟩] [] [] 0).avail
        = [1, 2, 3]
      ∧ ∃ err c1,
        (NewConnByNetConn [⟨[1, 2], none⟩, ⟨[3], some (Err.io 9)⟩, ⟨[4], none⟩] [] [] 0).Recv
            ((5 : Nat) : Int) []
          = some (((NewConnByNetConn [⟨[1, 2], none⟩, ⟨[3], some (Err.io 9)⟩, ⟨[4], none⟩]
              [] [] 0).avail.take 5, err), [], c1)
        ∧ ((NewConnByNetConn [⟨[1, 2], none⟩, ⟨[3], some (Err.io 9)⟩, ⟨[4], none⟩]
              [] [] 0).avail.length < 5
            → err = some (NewConnByNetConn [⟨[1, 2], none⟩, ⟨[3], some (Err.io 9)⟩, ⟨[4], none⟩]
              [] [] 0).firstErr)
        ∧ (err = none → ((NewConnByNetConn [⟨[1, 2], none⟩, ⟨[3], some (Err.io 9)⟩,
              ⟨[4], none⟩] [] [] 0).avail.take 5).length = 5)
        ∧ (5 ≤ (NewConnByNetConn [⟨[1, 2], none⟩, ⟨[3], some (Err.io 9)⟩, ⟨[4], none⟩]
              [] [] 0).clean.length → err = none) :=
  ⟨rfl, Recv_fixed_spec
    (NewConnByNetConn [⟨[1, 2], none⟩, ⟨[3], some (Err.io 9)⟩, ⟨[4], none⟩] [] [] 0) 5
    (by decide)⟩

/-! ## RecvLine -/

theorem recvLineLoop_err (fuel : Nat) :
    ∀ (c : Conn) (retry : List Retry) (data : List Byte) (out : List Byte)
      (err : Option Err) (retry1 : List Retry) (c1 : Conn),
      recvLineLoop fuel c retry data = some ((out, err), retry1, c1) → err ≠ none := by
  induction fuel with
  | zero => intro c retry data out err retry1 c1 h; simp [recvLineLoop] at h
  | succ fuel ih =>
    intro c retry data out err retry1 c1 h
    rw [recvLineLoop] at h
    rcases hr : c.Recv 1 retry with _ | ⟨⟨buffer, e⟩, r2, c2⟩
    · rw [hr] at h; cases h
    · rw [hr] at h
      cases e with
      | none => exact ih _ _ _ _ _ _ _ h
      | some x =>
        simp only [Option.some.injEq, Prod.mk.injEq] at h
        rw [← h.1.2]
        simp

/-- `RecvLine` has no return without an error: its loop is left only when `Recv` reports
an error, a received newline does not end it. -/
theorem RecvLine_never_nil (c : Conn) (retry : List Retry) (out : List Byte)
    (err : Option Err) (retry1 : List Retry) (c1 : Conn)
    (h : c.RecvLine retry = some ((out, err), retry1, c1)) : err ≠ none :=
  recvLineLoop_err _ c retry [] out err retry1 c1 h

/-- Claim C9, at the failing input: on a stream that delivers `a`, newline, `b` and then
ends, `RecvLine` does not stop at the newline; it reads on to the end of the stream and
returns `ab` with the end-of-stream error. -/
theorem RecvLine_reads_past_newline :
    (NewConnByNetConn [⟨[97, 10, 98], none⟩] [] [] 0).RecvLine []
      = some (([97, 98], some Err.eof), [], { NewConnByNetConn [] [] [] 0 with nreads := 2 }) := by
  decide

/-! ## RecvTil -/

/-- The test `RecvTil` makes on a received byte is the suffix match on what has been
received including that byte. -/
theorem tilHit_eq_tilEnds (til data : List Byte) (b : Byte) :
    tilHit til data b = tilEnds til (data ++ [b]) := by
  unfold tilHit tilEnds
  by_cases h1 : 0 < til.length
  · by_cases h2 : til.length ≤ data.length + 1
    · have h3 : til.length - 1 ≤ data.length := by omega
      have hk : (data ++ [b]).length - til.length = data.length + 1 - til.length := by simp
      have hle : data.length + 1 - til.length ≤ data.length := by omega
      have hdrop : ((data ++ [b]).drop ((data ++ [b]).length - til.length)).dropLast
          = data.drop (data.length + 1 - til.length) := by
        rw [hk, List.drop_append_of_le_length hle, List.dropLast_concat]
      have hlast : (data ++ [b]).getLast? = some b := by simp
      have hcomm : (some b = til.getLast?) = (til.getLast? = some b) := by
        apply propext; exact eq_comm
      rw [hdrop, hlast, List.dropLast_eq_take]
      simp only [h1, h2, h3, List.length_append, List.length_singleton, hcomm]
    · have h3 : ¬ til.length - 1 ≤ data.length := by omega
      simp [h1, h2, h3]
  · simp [h1]

/-- The loop of `RecvTil` on a connection whose clean bytes start with `s`, where
`data ++ s` is the first point at which the received bytes end with the delimiter. -/
theorem recvTilLoop_first (til rest : List Byte) (retry : List Retry) :
    ∀ (s : List Byte) (fuel : Nat) (c : Conn) (data : List Byte),
      s ≠ [] → c.rmeasure < fuel → c.clean = s ++ rest →
      tilEnds til (data ++ s) = true →
      (∀ k, 0 < k → k < s.length → tilEnds til (data ++ s.take k) = false) →
      ∃ c1, recvTilLoop fuel c til retry data = some ((data ++ s, none), retry, c1)
        ∧ c1.clean = rest := by
  intro s
  induction s with
  | nil => intro fuel c data h; exact absurd rfl h
  | cons b s ih =>
    intro fuel c data _ hfuel hc hend hfirst
    obtain ⟨fuel, rfl⟩ : ∃ k, fuel = k + 1 := ⟨fuel - 1, by omega⟩
    obtain ⟨c1, h1, h2, h3⟩ := Recv_fixed_clean c 1 retry (by decide)
      (by rw [hc]; simp)
    have htake : c.clean.take 1 = [b] := by rw [hc]; rfl
    have hdrop : c.clean.drop 1 = s ++ rest := by rw [hc]; rfl
    rw [htake] at h1
    rw [hdrop] at h2
    have h1b : c.Recv 1 retry = some (([b], none), retry, c1) := by
      simpa using h1
    rw [recvTilLoop, h1b]
    simp only [tilHit_eq_tilEnds]
    cases s with
    | nil =>
      rw [if_pos hend]
      exact ⟨c1, rfl, by simpa using h2⟩
    | cons b2 s2 =>
      have hno : tilEnds til (data ++ [b]) = false := by
        have := hfirst 1 (by decide) (by simp)
        simpa using this
      rw [hno]
      simp only [Bool.false_eq_true, if_false]
      obtain ⟨c2, g1, g2⟩ := ih fuel c1 (data ++ [b]) (by simp) (by omega) h2
        (by simpa using hend)
        (by
          intro k hk0 hk
          have := hfirst (k + 1) (by omega) (by simp at hk ⊢; omega)
          simpa using this)
      exact ⟨c2, by rw [g1]; simp, g2⟩

/-- Claim C10, amended.  Let `til` be a delimiter of ASCII bytes and let the connection
deliver, with no error, the bytes `s` followed by `rest`, where `s` ends with the
delimiter in the sense of `tilEnds` (its last byte equals the last byte of `til`
exactly, the `len(til) - 1` bytes before it equal the first `len(til) - 1` bytes of `til`
up to case) and no shorter prefix of `s` does.  Then `RecvTil` returns exactly `s`, the
delimiter occurrence included, with a `nil` error, and `rest` stays unread. -/
theorem RecvTil_first_match (c : Conn) (til : List Byte) (retry : List Retry)
    (s rest : List Byte) (_hascii : ∀ b ∈ til, b.val < 128) (hc : c.clean = s ++ rest)
    (hend : tilEnds til s = true)
    (hfirst : ∀ k, k < s.length → tilEnds til (s.take k) = false) :
    ∃ c1, c.RecvTil til retry = some ((s, none), retry, c1) ∧ c1.clean = rest := by
  have hs : s ≠ [] := by
    intro h0
    subst h0
    simp only [tilEnds, Bool.and_eq_true, decide_eq_true_eq, List.length_nil] at hend
    omega
  have := recvTilLoop_first til rest retry s (c.rmeasure + 1) c [] hs (Nat.lt_succ_self _) hc
    (by simpa using hend) (by
      intro k _ hk
      simpa using hfirst k hk)
  simpa [Conn.RecvTil] using this

/-- Witness of `RecvTil_first_match`: delimiter `ab` on the stream `A`, `bab`; the first
match is `Ab`. -/
theorem RecvTil_first_match_witness :
    ∃ c1, (NewConnByNetConn [⟨[65], none⟩, ⟨[98, 97, 98], none⟩] [] [] 0).RecvTil [97, 98] []
        = some (([65, 98], none), [], c1)
      ∧ c1.clean = [97, 98] :=
  RecvTil_first_match (NewConnByNetConn [⟨[65], none⟩, ⟨[98, 97, 98], none⟩] [] [] 0)
    [97, 98] [] [65, 98] [97, 98] (by simp; decide) rfl (by decide) (by decide)

/-- Claim C10 as stated fails: with the one-byte delimiter `a` on the stream `Aab`, the
first byte received, `A`, equals the delimiter under case-insensitive comparison, yet
`RecvTil` does not stop there; it returns `Aa`. -/
theorem RecvTil_last_byte_exact :
    equalFold [65] [97] = true
      ∧ (NewConnByNetConn [⟨[65, 97, 98], none⟩] [] [] 0).RecvTil [97] []
        = some (([65, 97], none), [],
            { NewConnByNetConn [] [] [] 0 with rbuf := [98], nreads := 1 }) := by
  decide

/-! ## Recv always returns -/

theorem SetReadDeadline_fields (c : Conn) (t : Time) :
    (c.SetReadDeadline t).2.rmeasure = c.rmeasure
      ∧ (c.dscript = [] → (c.SetReadDeadline t).2.dscript = []
          ∧ (c.SetReadDeadline t).1 = none ∧ (c.SetReadDeadline t).2.readDeadline = t)
      ∧ (c.SetReadDeadline t).2.receiveDeadline = c.receiveDeadline
      ∧ (c.SetReadDeadline t).2.sendDeadline = c.sendDeadline := by
  unfold Conn.SetReadDeadline
  rcases hd : c.dscript with _ | ⟨x, rest⟩
  · simp [Conn.rmeasure]
  · cases x <;> simp [Conn.rmeasure]

theorem read_dscript (c : Conn) (cap : Nat) : (c.read cap).2.dscript = c.dscript := by
  have h := congrArg Conn.dscript (read_frame c cap)
  simpa using h

/-- The loop of `Recv` returns whenever its fuel exceeds the measure of the read side and
the buffer has room, in every mode; and it leaves a connection whose deadline setters
all succeed in that state. -/
theorem recvLoop_total :
    ∀ (fuel : Nat) (c : Conn) (length : Int) (retry : List Retry) (got : List Byte)
      (blen : Nat) (bw : Bool), c.rmeasure < fuel → got.length < blen →
      (0 < length → (blen : Int) = length) →
      (¬ 0 < length → defaultReadBufferSize ≤ blen) →
      ∃ out, recvLoop fuel c length retry got blen bw = some out
        ∧ (c.dscript = [] → out.2.2.dscript = []) := by
  intro fuel
  induction fuel with
  | zero => intro c length retry got blen bw h; omega
  | succ fuel ih =>
    intro c length retry got blen bw hfuel hroom hfix hdrain
    rw [recvLoop]
    obtain ⟨s1, s2, _, _⟩ := SetReadDeadline_fields c (c.now + c.receiveBufferWait)
    -- the state after the optional deadline setting
    have hpre : ∃ e1 c1,
        (if length < 0 ∧ 0 < got.length then c.SetReadDeadline (c.now + c.receiveBufferWait)
          else (none, c)) = (e1, c1)
        ∧ c1.rmeasure = c.rmeasure ∧ (c.dscript = [] → c1.dscript = []) := by
      by_cases hp : length < 0 ∧ 0 < got.length
      · exact ⟨_, _, by rw [if_pos hp], s1, fun h => (s2 h).1⟩
      · exact ⟨_, _, by rw [if_neg hp], rfl, fun h => h⟩
    obtain ⟨e1, c1, hpe, hm1, hd1⟩ := hpre
    rw [hpe]
    cases e1 with
    | some e => exact ⟨_, rfl, hd1⟩
    | none =>
      simp only
      have hcap : 0 < blen - got.length := by omega
      have hlen := read_length c1 (blen - got.length)
      have hmeas := read_measure c1 (blen - got.length) hcap
      have hds := read_dscript c1 (blen - got.length)
      rcases hr : c1.read (blen - got.length) with ⟨⟨d, err⟩, c2⟩
      rw [hr] at hlen hmeas hds
      simp only at hlen hmeas hds ⊢
      have hd2 : c.dscript = [] → c2.dscript = [] := fun h => by rw [hds]; exact hd1 h
      obtain ⟨t1, t2, _, _⟩ := SetReadDeadline_fields c2 c2.sendDeadline
      by_cases hb1 : 0 < d.length ∧ 0 < length ∧ ((got ++ d).length : Int) = length
      · simp only [hb1, and_self, if_true]
        exact ⟨_, rfl, hd2⟩
      · simp only [hb1, if_false]
        by_cases hb2 : 0 < d.length ∧ ¬ 0 < length
            ∧ ¬ defaultReadBufferSize ≤ (got ++ d).length
            ∧ (if length < 0 ∧ 0 < got.length then true else bw) = false
        · simp only [hb2, and_self, if_true]
          exact ⟨_, rfl, hd2⟩
        · simp only [hb2, if_false]
          have hinv : (got ++ d).length
                < (if 0 < d.length ∧ ¬ 0 < length ∧ defaultReadBufferSize ≤ (got ++ d).length
                    then blen + defaultReadBufferSize else blen)
              ∧ (0 < length →
                  (((if 0 < d.length ∧ ¬ 0 < length
                        ∧ defaultReadBufferSize ≤ (got ++ d).length
                      then blen + defaultReadBufferSize else blen) : Nat) : Int) = length)
              ∧ (¬ 0 < length → defaultReadBufferSize ≤
                  (if 0 < d.length ∧ ¬ 0 < length ∧ defaultReadBufferSize ≤ (got ++ d).length
                    then blen + defaultReadBufferSize else blen)) := by
            simp only [List.length_append, defaultReadBufferSize] at hb1 hb2 hdrain ⊢
            by_cases hpos : 0 < length
            · have hbl := hfix hpos
              simp only [hpos, not_true_eq_false, false_and, and_false, if_false,
                true_and] at hb1 ⊢
              refine ⟨?_, fun _ => hbl, fun h => False.elim h⟩
              by_cases hd0 : 0 < d.length
              · have : ¬ ((got.length + d.length : Nat) : Int) = length := by
                  intro h; exact hb1 ⟨hd0, by exact_mod_cast h⟩
                omega
              · omega
            · have hbl := hdrain hpos
              simp only [hpos, not_false_eq_true, true_and, false_implies]
              split_ifs with h3
              · refine ⟨by omega, by omega⟩
              · refine ⟨?_, fun _ => hbl⟩
                by_cases hd0 : 0 < d.length
                · have : ¬ 128 ≤ got.length + d.length := fun h => h3 ⟨hd0, h⟩
                  omega
                · omega
          generalize (if 0 < d.length ∧ ¬ 0 < length ∧ defaultReadBufferSize ≤ (got ++ d).length
              then blen + defaultReadBufferSize else blen) = blen2 at hinv ⊢
          generalize (if length < 0 ∧ 0 < got.length then true else bw) = bw2
          obtain ⟨i1, i2, i3⟩ := hinv
          cases err with
          | none =>
            have hm2 := hmeas (by simp)
            simp only
            by_cases hz : length = 0
            · simp only [hz, if_true]
              exact ⟨_, rfl, hd2⟩
            · simp only [hz, if_false]
              obtain ⟨out, o1, o2⟩ := ih c2 length retry (got ++ d) blen2 bw2 (by omega) i1 i2 i3
              exact ⟨out, o1, fun h => o2 (hd2 h)⟩
          | some e =>
            simp only
            by_cases he : e = Err.eof
            · simp only [he, if_true]
              exact ⟨_, rfl, hd2⟩
            · simp only [he, if_false]
              have hm2 := hmeas (by simpa using he)
              by_cases hto : bw2 = true ∧ isTimeout (some e) = true
              · simp only [hto, and_self, if_true]
                rcases hsd : c2.SetReadDeadline c2.sendDeadline with ⟨e3, c3⟩
                rw [hsd] at t2
                cases e3 with
                | none => exact ⟨_, rfl, fun h => (t2 (hd2 h)).1⟩
                | some x => exact ⟨_, rfl, fun h => (t2 (hd2 h)).1⟩
              · simp only [hto, if_false]
                cases retry with
                | nil => exact ⟨_, rfl, hd2⟩
                | cons r rs =>
                  simp only
                  by_cases hc : r.Count = 0
                  · simp only [hc, if_true]
                    exact ⟨_, rfl, hd2⟩
                  · simp only [hc, if_false]
                    obtain ⟨out, o1, o2⟩ := ih c2 length (r.consume :: rs) (got ++ d) blen2 bw2
                      (by omega) i1 i2 i3
                    exact ⟨out, o1, fun h => o2 (hd2 h)⟩

/-- `Recv` returns, in every mode and for every stream, and leaves a connection whose
deadline setters all succeed in that state. -/
theorem Recv_total (c : Conn) (length : Int) (retry : List Retry) :
    ∃ out, c.Recv length retry = some out ∧ (c.dscript = [] → out.2.2.dscript = []) := by
  unfold Conn.Recv
  apply recvLoop_total _ c length retry [] _ false (Nat.lt_succ_self _)
  · split_ifs with h
    · simp only [List.length_nil]; omega
    · simp [defaultReadBufferSize]
  · intro h
    simp only [h, if_true]
    omega
  · intro h
    simp only [h, if_false]
    exact le_refl _

/-! ## Time-boxed operations -/

theorem SetreceiveDeadline_ok (c : Conn) (t : Time) (hd : c.dscript = []) :
    (c.SetreceiveDeadline t).1 = none ∧ (c.SetreceiveDeadline t).2.dscript = []
      ∧ (c.SetreceiveDeadline t).2.receiveDeadline = t
      ∧ (c.SetreceiveDeadline t).2.readDeadline = t := by
  simp [Conn.SetreceiveDeadline, Conn.SetReadDeadline, hd]

theorem SetSendDeadline_ok (c : Conn) (t : Time) (hd : c.dscript = []) :
    (c.SetSendDeadline t).1 = none ∧ (c.SetSendDeadline t).2.dscript = []
      ∧ (c.SetSendDeadline t).2.sendDeadline = t
      ∧ (c.SetSendDeadline t).2.writeDeadline = t := by
  simp [Conn.SetSendDeadline, Conn.SetWriteDeadline, hd]

theorem write_dscript (c : Conn) (data : List Byte) : (c.write data).2.dscript = c.dscript := by
  unfold Conn.write
  rcases hw : c.wscript with _ | ⟨ev, rest⟩
  · rfl
  · cases ev <;> rfl

theorem sendLoop_dscript (data : List Byte) :
    ∀ (fuel : Nat) (c : Conn) (retry : List Retry) (out : Option Err × List Retry × Conn),
      sendLoop fuel c data retry = some out → out.2.2.dscript = c.dscript := by
  intro fuel
  induction fuel with
  | zero => intro c retry out h; simp [sendLoop] at h
  | succ fuel ih =>
    intro c retry out h
    have hw := write_dscript c data
    rw [sendLoop] at h
    rcases hres : c.write data with ⟨err, c1⟩
    rw [hres] at h hw
    simp only at h hw
    cases err with
    | none =>
      simp only [Option.some.injEq] at h
      rw [← h]; exact hw
    | some e =>
      simp only at h
      by_cases heof : e = Err.eof
      · simp only [heof, if_true, Option.some.injEq] at h
        rw [← h]; exact hw
      · simp only [heof, if_false] at h
        cases retry with
        | nil =>
          simp only [Option.some.injEq] at h
          rw [← h]; exact hw
        | cons r rs =>
          simp only at h
          by_cases hc : r.Count = 0
          · simp only [hc, if_true, Option.some.injEq] at h
            rw [← h]; exact hw
          · simp only [hc, if_false] at h
            rw [ih c1 _ out h, hw]

theorem SendPkg_dscript (c : Conn) (data : List Byte) (option : List PkgOption)
    (err : Option Err) (c1 : Conn) (h : c.SendPkg data option = Outcome.ret (err, c1)) :
    c1.dscript = c.dscript := by
  unfold Conn.SendPkg at h
  rcases hg : getPkgOption option with e | o
  · rw [hg] at h
    cases h; rfl
  · rw [hg] at h
    simp only at h
    by_cases hlong : (data.length : Int) > o.MaxDataSize
    · rw [if_pos hlong] at h
      cases h; rfl
    · rw [if_neg hlong] at h
      by_cases hp : pkgHeaderSizeMax - o.HeaderSize < 0
          ∨ ((putUint32 (data.length % 2 ^ 32) ++ data).length : Int)
              < pkgHeaderSizeMax - o.HeaderSize
      · rw [if_pos hp] at h
        cases h
      · rw [if_neg hp] at h
        by_cases hr : o.Retry.Count > 0
        · rw [if_pos hr] at h
          rcases hs : c.Send (List.drop (pkgHeaderSizeMax - o.HeaderSize).toNat
              (putUint32 (data.length % 2 ^ 32) ++ data)) [o.Retry] with _ | ⟨e2, r2, c2⟩
          · rw [hs] at h; cases h
          · rw [hs] at h
            simp only [Outcome.ret.injEq, Prod.mk.injEq] at h
            rw [← h.2]
            exact sendLoop_dscript _ _ _ _ _ hs
        · rw [if_neg hr] at h
          rcases hs : c.Send (List.drop (pkgHeaderSizeMax - o.HeaderSize).toNat
              (putUint32 (data.length % 2 ^ 32) ++ data)) [] with _ | ⟨e2, r2, c2⟩
          · rw [hs] at h; cases h
          · rw [hs] at h
            simp only [Outcome.ret.injEq, Prod.mk.injEq] at h
            rw [← h.2]
            exact sendLoop_dscript _ _ _ _ _ hs

theorem RecvPkg_dscript (c : Conn) (option : List PkgOption)
    (res : List Byte × Option Err) (c1 : Conn) (hd : c.dscript = [])
    (h : c.RecvPkg option = Outcome.ret (res, c1)) : c1.dscript = [] := by
  unfold Conn.RecvPkg at h
  split at h
  · cases h; exact hd
  · rename_i o _
    obtain ⟨out, ho, hod⟩ := Recv_total c o.HeaderSize [o.Retry]
    rw [ho] at h
    rcases out with ⟨⟨buffer, e⟩, r1, c2⟩
    have hd2 : c2.dscript = [] := hod hd
    cases e with
    | some x =>
      simp only [Outcome.ret.injEq, Prod.mk.injEq] at h
      rw [← h.2]; exact hd2
    | none =>
      simp only at h
      split at h
      · cases h
      · split at h
        · cases h; exact hd2
        · split at h
          · cases h; exact hd2
          · rename_i len _ _ _
            obtain ⟨out2, ho2, hod2⟩ := Recv_total c2 len [o.Retry]
            rw [ho2] at h
            simp only [Outcome.ret.injEq, Prod.mk.injEq] at h
            rw [← h.2]; exact hod2 hd2

/-- Claim C11 as stated fails: on a connection whose receive deadline is 50 and whose send
deadline is 60 (stored, and applied to the stream), `RecvWithTimeout` leaves the receive
deadline at the zero time, and `SendWithTimeout` leaves the send deadline at the zero
time; neither is restored. -/
theorem timeboxed_deadline_not_restored :
    ({ NewConnByNetConn [⟨[1], none⟩] [] [] 100 with
        receiveDeadline := 50, readDeadline := 50 } : Conn).RecvWithTimeout 1 10 []
        = some (([1], none), [], { NewConnByNetConn [] [] [] 100 with nreads := 1 })
      ∧ ({ NewConnByNetConn [] [] [] 100 with nreads := 1 } : Conn).receiveDeadline = 0
      ∧ ({ NewConnByNetConn [] [] [] 100 with nreads := 1 } : Conn).readDeadline = 0
      ∧ ({ NewConnByNetConn [] [] [] 100 with
          sendDeadline := 60, writeDeadline := 60 } : Conn).SendWithTimeout [1] 10 []
        = some (none, [], { NewConnByNetConn [] [] [] 100 with writes := [[1]], wire := [1] })
      ∧ ({ NewConnByNetConn [] [] [] 100 with
          writes := [[1]], wire := [1] } : Conn).sendDeadline = 0
      ∧ ({ NewConnByNetConn [] [] [] 100 with
          writes := [[1]], wire := [1] } : Conn).writeDeadline = 0 := by
  decide

/-- In fixed-length mode a `nil` error comes only with the full count of bytes. -/
theorem recvLoop_fixed_nil (n : Nat) :
    ∀ (fuel : Nat) (c : Conn) (retry : List Retry) (got buf : List Byte)
      (retry1 : List Retry) (c1 : Conn), got.length < n →
      recvLoop fuel c (n : Int) retry got n false = some ((buf, none), retry1, c1) →
      buf.length = n := by
  intro fuel
  induction fuel with
  | zero => intro c retry got buf retry1 c1 _ h; simp [recvLoop] at h
  | succ fuel ih =>
    intro c retry got buf retry1 c1 hgot h
    rw [recvLoop_fixed_step _ _ _ _ _ hgot] at h
    have hlen := read_length c (n - got.length)
    rcases hr : c.read (n - got.length) with ⟨⟨d, err⟩, c2⟩
    rw [hr] at h hlen
    simp only at h hlen
    by_cases hfull : 0 < d.length ∧ (got ++ d).length = n
    · rw [if_pos hfull] at h
      simp only [Option.some.injEq, Prod.mk.injEq] at h
      rw [← h.1.1]
      exact hfull.2
    · rw [if_neg hfull] at h
      have hroom : (got ++ d).length < n := by
        simp only [List.length_append] at hfull ⊢
        by_cases hd : 0 < d.length
        · have : ¬ got.length + d.length = n := fun hh => hfull ⟨hd, hh⟩
          omega
        · omega
      cases err with
      | none => exact ih _ _ _ _ _ _ hroom h
      | some e =>
        simp only at h
        by_cases he : e = Err.eof
        · rw [if_pos he] at h
          simp at h
        · rw [if_neg he] at h
          cases retry with
          | nil => simp at h
          | cons r rs =>
            simp only at h
            by_cases hc : r.Count = 0
            · rw [if_pos hc] at h
              simp at h
            · rw [if_neg hc] at h
              exact ih _ _ _ _ _ _ hroom h

/-- Method `RecvPkg` returns on every connection and with every option: neither `Recv`
runs without end, and the header indexed by the `switch` is always there. -/
theorem RecvPkg_returns (c : Conn) (option : List PkgOption) :
    ∃ res c1, c.RecvPkg option = Outcome.ret (res, c1) := by
  unfold Conn.RecvPkg
  rcases hg : getPkgOption option with e | o
  · exact ⟨_, _, rfl⟩
  · simp only
    obtain ⟨out, ho, _⟩ := Recv_total c o.HeaderSize [o.Retry]
    rcases out with ⟨⟨buffer, e⟩, r1, c1⟩
    rw [ho]
    cases e with
    | some x => exact ⟨_, _, rfl⟩
    | none =>
      simp only
      have hdec : ∃ l, decodeHeader o.HeaderSize buffer = some l := by
        by_cases hpos : 0 < o.HeaderSize
        · have hb := (getPkgOption_bounds hg).1
          obtain ⟨w, hw⟩ : ∃ w : Nat, o.HeaderSize = (w : Int) :=
            ⟨o.HeaderSize.toNat, by omega⟩
          rw [hw] at ho hpos hb ⊢
          have hlen : buffer.length = w := by
            unfold Conn.Recv at ho
            simp only [hpos, if_true, Int.toNat_ofNat] at ho
            exact recvLoop_fixed_nil w _ c _ [] buffer r1 c1 (by simpa using hpos) ho
          exact ⟨_, decodeHeader_eq w buffer (by omega) (by omega) hlen⟩
        · refine ⟨0, ?_⟩
          have h1 : ¬ o.HeaderSize = 1 := by omega
          have h2 : ¬ o.HeaderSize = 2 := by omega
          have h3 : ¬ o.HeaderSize = 3 := by omega
          have h4 : ¬ o.HeaderSize = 4 := by omega
          simp [decodeHeader, h1, h2, h3, h4]
      obtain ⟨l, hl⟩ := hdec
      rw [hl]
      simp only
      by_cases hbig : l < 0 ∨ l > o.MaxDataSize
      · rw [if_pos hbig]
        exact ⟨_, _, rfl⟩
      · rw [if_neg hbig]
        by_cases hz : l = 0
        · rw [if_pos hz]
          exact ⟨_, _, rfl⟩
        · rw [if_neg hz]
          obtain ⟨out2, ho2, _⟩ := Recv_total c1 l [o.Retry]
          rcases out2 with ⟨res, r2, c2⟩
          rw [ho2]
          exact ⟨_, _, rfl⟩

/-- Method `SendPkg` never runs without end, and it returns whenever the offset
`4 - HeaderSize` of an accepted option is within the buffer of `4 + len(data)` bytes,
which it is for every header size that is not negative. -/
theorem SendPkg_returns (c : Conn) (data : List Byte) (option : List PkgOption) :
    c.SendPkg data option ≠ Outcome.hang
      ∧ ((∀ o, getPkgOption option = Except.ok o → -(data.length : Int) ≤ o.HeaderSize) →
          ∃ err c1, c.SendPkg data option = Outcome.ret (err, c1)) := by
  unfold Conn.SendPkg
  rcases hg : getPkgOption option with e | o
  · exact ⟨by simp, fun _ => ⟨_, _, rfl⟩⟩
  · simp only
    by_cases hlong : (data.length : Int) > o.MaxDataSize
    · rw [if_pos hlong]
      exact ⟨by simp, fun _ => ⟨_, _, rfl⟩⟩
    · rw [if_neg hlong]
      have hb := (getPkgOption_bounds hg).1
      by_cases hp : pkgHeaderSizeMax - o.HeaderSize < 0
          ∨ ((putUint32 (data.length % 2 ^ 32) ++ data).length : Int)
            < pkgHeaderSizeMax - o.HeaderSize
      · rw [if_pos hp]
        refine ⟨by simp, ?_⟩
        intro hs
        have := hs o rfl
        simp only [List.length_append, putUint32_length, pkgHeaderSizeMax] at hp
        push_cast at hp
        omega
      · rw [if_neg hp]
        by_cases hc : o.Retry.Count > 0
        · simp only [hc, if_true]
          obtain ⟨err, retry1, c1, k, hs, _⟩ := Send_spec c
            ((putUint32 (data.length % 2 ^ 32) ++ data).drop
              (pkgHeaderSizeMax - o.HeaderSize).toNat) [o.Retry]
          rw [hs]
          exact ⟨by simp, fun _ => ⟨_, _, rfl⟩⟩
        · simp only [hc, if_false]
          obtain ⟨err, retry1, c1, k, hs, _⟩ := Send_spec c
            ((putUint32 (data.length % 2 ^ 32) ++ data).drop
              (pkgHeaderSizeMax - o.HeaderSize).toNat) []
          rw [hs]
          exact ⟨by simp, fun _ => ⟨_, _, rfl⟩⟩

/-- Claim C11, amended.  On a connection whose deadline-setting calls succeed, whatever
the receive and send deadlines were before the call: `RecvWithTimeout` and
`RecvPkgWithTimeout` return, and after either has returned the receive deadline, stored
and applied to the stream, is the zero time; `SendWithTimeout` returns, and after
`SendWithTimeout` or `SendPkgWithTimeout` has returned the send deadline, stored and
applied, is the zero time; this whether the wrapped operation succeeded or failed.
`SendPkgWithTimeout` never runs without end, and it returns whenever the offset
`4 - HeaderSize` of `SendPkg` is within its buffer of `4 + len(data)` bytes, as it is for
every header size that is not negative.  The prior deadline is thus restored only when it
was the zero time. -/
theorem timeboxed_deadline_cleared (c : Conn) (length timeout : Int) (retry : List Retry)
    (data : List Byte) (option : List PkgOption) (hd : c.dscript = []) :
    (∃ res retry1 c1, c.RecvWithTimeout length timeout retry = some (res, retry1, c1)
        ∧ c1.receiveDeadline = 0 ∧ c1.readDeadline = 0)
      ∧ (∃ err retry1 c1, c.SendWithTimeout data timeout retry = some (err, retry1, c1)
        ∧ c1.sendDeadline = 0 ∧ c1.writeDeadline = 0)
      ∧ (∃ res c1, c.RecvPkgWithTimeout timeout option = Outcome.ret (res, c1)
        ∧ c1.receiveDeadline = 0 ∧ c1.readDeadline = 0)
      ∧ (∀ err c1, c.SendPkgWithTimeout data timeout option = Outcome.ret (err, c1) →
        c1.sendDeadline = 0 ∧ c1.writeDeadline = 0)
      ∧ c.SendPkgWithTimeout data timeout option ≠ Outcome.hang
      ∧ ((∀ o, getPkgOption option = Except.ok o → -(data.length : Int) ≤ o.HeaderSize) →
        ∃ err c1, c.SendPkgWithTimeout data timeout option = Outcome.ret (err, c1)
          ∧ c1.sendDeadline = 0 ∧ c1.writeDeadline = 0) := by
  obtain ⟨r1, r2, _, _⟩ := SetreceiveDeadline_ok c (c.now + timeout) hd
  obtain ⟨s1, s2, _, _⟩ := SetSendDeadline_ok c (c.now + timeout) hd
  rcases hr : c.SetreceiveDeadline (c.now + timeout) with ⟨er, cr⟩
  rcases hs : c.SetSendDeadline (c.now + timeout) with ⟨es, cs⟩
  rw [hr] at r1 r2
  rw [hs] at s1 s2
  simp only at r1 r2 s1 s2
  subst r1 s1
  have hsend : ∀ err c1, c.SendPkgWithTimeout data timeout option = Outcome.ret (err, c1) →
      c1.sendDeadline = 0 ∧ c1.writeDeadline = 0 := by
    intro err c1 h
    simp only [Conn.SendPkgWithTimeout, hs] at h
    rcases hp : cs.SendPkg data option with ⟨err2, c2⟩ | _ | _
    · rw [hp] at h
      simp only [Outcome.ret.injEq, Prod.mk.injEq] at h
      have hd2 : c2.dscript = [] := by
        rw [SendPkg_dscript cs data option err2 c2 hp]; exact s2
      obtain ⟨_, _, f3, f4⟩ := SetSendDeadline_ok c2 0 hd2
      rw [← h.2]
      exact ⟨f3, f4⟩
    · rw [hp] at h; cases h
    · rw [hp] at h; cases h
  refine ⟨?_, ?_, ?_, hsend, ?_, ?_⟩
  · obtain ⟨out, ho, hod⟩ := Recv_total cr length retry
    rcases out with ⟨res, retry1, c2⟩
    obtain ⟨_, _, f3, f4⟩ := SetreceiveDeadline_ok c2 0 (hod r2)
    refine ⟨res, retry1, (c2.SetreceiveDeadline 0).2, ?_, f3, f4⟩
    simp [Conn.RecvWithTimeout, hr, ho]
  · obtain ⟨err, retry1, c2, k, ho, _⟩ := Send_spec cs data retry
    have hd2 : c2.dscript = [] := by
      have := sendLoop_dscript data _ cs retry _ ho
      simpa [s2] using this
    obtain ⟨_, _, f3, f4⟩ := SetSendDeadline_ok c2 0 hd2
    refine ⟨err, retry1, (c2.SetSendDeadline 0).2, ?_, f3, f4⟩
    simp [Conn.SendWithTimeout, hs, ho]
  · obtain ⟨res2, c2, hp⟩ := RecvPkg_returns cr option
    have hd2 := RecvPkg_dscript cr option res2 c2 r2 hp
    obtain ⟨_, _, f3, f4⟩ := SetreceiveDeadline_ok c2 0 hd2
    refine ⟨res2, (c2.SetreceiveDeadline 0).2, ?_, f3, f4⟩
    simp only [Conn.RecvPkgWithTimeout, hr, hp]
  · have hnh := (SendPkg_returns cs data option).1
    simp only [Conn.SendPkgWithTimeout, hs]
    rcases hp : cs.SendPkg data option with ⟨err2, c2⟩ | _ | _
    · simp
    · simp
    · exact absurd hp hnh
  · intro hslice
    obtain ⟨err2, c2, hp⟩ := (SendPkg_returns cs data option).2 hslice
    have hret : c.SendPkgWithTimeout data timeout option
        = Outcome.ret (err2, (c2.SetSendDeadline 0).2) := by
      simp only [Conn.SendPkgWithTimeout, hs, hp]
    exact ⟨err2, _, hret, hsend _ _ hret⟩

/-- Witness of `timeboxed_deadline_cleared`: a connection with receive deadline 50 and
send deadline 60, for each of the four operations. -/
theorem timeboxed_deadline_cleared_witness :
    ({ NewConnByNetConn [⟨[1], none⟩] [] [] 100 with
        receiveDeadline := 50, readDeadline := 50, sendDeadline := 60,
        writeDeadline := 60 } : Conn).dscript = []
      ∧ (∃ res retry1 c1,
        ({ NewConnByNetConn [⟨[1], none⟩] [] [] 100 with
          receiveDeadline := 50, readDeadline := 50, sendDeadline := 60,
          writeDeadline := 60 } : Conn).RecvWithTimeout 1 10 [] = some (res, retry1, c1)
        ∧ c1.receiveDeadline = 0 ∧ c1.readDeadline = 0)
      ∧ (∃ err retry1 c1,
        ({ NewConnByNetConn [⟨[1], none⟩] [] [] 100 with
          receiveDeadline := 50, readDeadline := 50, sendDeadline := 60,
          writeDeadline := 60 } : Conn).SendWithTimeout [1] 10 [] = some (err, retry1, c1)
        ∧ c1.sendDeadline = 0 ∧ c1.writeDeadline = 0)
      ∧ (∃ res c1,
        ({ NewConnByNetConn [⟨[1], none⟩] [] [] 100 with
          receiveDeadline := 50, readDeadline := 50, sendDeadline := 60,
          writeDeadline := 60 } : Conn).RecvPkgWithTimeout 10 [] = Outcome.ret (res, c1)
        ∧ c1.receiveDeadline = 0 ∧ c1.readDeadline = 0)
      ∧ (∃ err c1,
        ({ NewConnByNetConn [⟨[1], none⟩] [] [] 100 with
          receiveDeadline := 50, readDeadline := 50, sendDeadline := 60,
          writeDeadline := 60 } : Conn).SendPkgWithTimeout [1] 10 [] = Outcome.ret (err, c1)
        ∧ c1.sendDeadline = 0 ∧ c1.writeDeadline = 0) := by
  have h := timeboxed_deadline_cleared
    ({ NewConnByNetConn [⟨[1], none⟩] [] [] 100 with
      receiveDeadline := 50, readDeadline := 50, sendDeadline := 60,
      writeDeadline := 60 } : Conn) 1 10 [] [1] [] rfl
  refine ⟨rfl, h.1, h.2.1, h.2.2.1, h.2.2.2.2.2 ?_⟩
  intro o ho
  have hg : getPkgOption [] = Except.ok ⟨2, 0xFFFF, ⟨0, 0⟩⟩ := rfl
  rw [hg] at ho
  cases ho
  decide

/-! ## Drain-available receive -/

/-- A read from a connection with nothing buffered whose stream delivers a chunk that
fits the request, the request being smaller than the reader's buffer. -/
theorem read_chunk (c : Conn) (cap : Nat) (d : List Byte) (rest : List ReadEv)
    (hd0 : d ≠ []) (hd : d.length ≤ cap) (hcap : cap < bufSize)
    (hbuf : c.rbuf = []) (herr : c.rerr = none) (hs : c.rscript = ⟨d, none⟩ :: rest) :
    c.read cap = ((d, none), { c with rscript := rest, nreads := c.nreads + 1 }) := by
  have h0 : ¬ cap = 0 := by
    intro h; rw [h] at hd; exact hd0 (List.length_eq_zero.mp (Nat.le_zero.mp hd))
  have hb : ¬ bufSize ≤ cap := by omega
  have hfit : d.length ≤ bufSize := by omega
  obtain ⟨b, bs, rfl⟩ : ∃ b bs, d = b :: bs := List.exists_cons_of_ne_nil hd0
  unfold Conn.read
  simp only [h0, if_false, hbuf, herr, hb, hs, netRead, hfit, if_true]
  rw [List.take_of_length_le hd, List.drop_of_length_le hd]

/-- Drain-available `Recv` (`length < 0`) on a connection with nothing buffered whose
stream delivers 128 bytes and then times out, the deadline setters succeeding: the 128
bytes are returned with a `nil` error, and the read deadline left on the stream is the
connection's send deadline. -/
theorem Recv_drain_timeout (c : Conn) (d : List Byte) (rest : List ReadEv)
    (hd : d.length = 128) (hbuf : c.rbuf = []) (herr : c.rerr = none)
    (hs : c.rscript = ⟨d, none⟩ :: ⟨[], some Err.timeout⟩ :: rest) (hds : c.dscript = []) :
    c.Recv (-1) [] = some ((d, none), [],
      { c with rscript := rest, nreads := c.nreads + 2, readDeadline := c.sendDeadline }) := by
  have hd0 : d ≠ [] := by intro h; rw [h] at hd; simp at hd
  obtain ⟨k, hk⟩ : ∃ k, c.rmeasure + 1 = k + 1 + 1 := by
    refine ⟨c.rmeasure - 1, ?_⟩
    simp only [Conn.rmeasure, scriptSize, hs, List.length_cons, List.map_cons, List.sum_cons]
    omega
  have hr1 := read_chunk c 128 d _ hd0 (by omega) (by decide) hbuf herr hs
  unfold Conn.Recv
  rw [hk, recvLoop]
  simp [defaultReadBufferSize, hr1, hd]
  rw [recvLoop]
  simp only [show ((-1 : Int) < 0) by decide, hd, show (0 : Nat) < 128 by decide, and_self,
    if_true, Conn.SetReadDeadline, hds, show 256 - 128 = 128 by decide]
  have hr2 : ∀ c2 : Conn, c2.rbuf = [] → c2.rerr = none →
      c2.rscript = ⟨[], some Err.timeout⟩ :: rest →
      c2.read 128 = (([], some Err.timeout),
        { c2 with rscript := rest, nreads := c2.nreads + 1 }) :=
    fun c2 h1 h2 h3 => read_fail c2 128 Err.timeout rest (by decide) h1 h2 h3
  rw [hr2]
  · simp [isTimeout, hds]
  · exact hbuf
  · exact herr
  · rfl

/-- Claim C12, at the failing input: a connection with receive deadline 50 and send
deadline 60 whose stream delivers 128 bytes and then times out.  Drain-available `Recv`
returns the 128 bytes with a `nil` error, but the read deadline it leaves on the stream is
60, the send deadline, not the receive deadline 50 that was in force before the call. -/
theorem Recv_drain_restores_send_deadline :
    ({ NewConnByNetConn [⟨List.replicate 128 7, none⟩, ⟨[], some Err.timeout⟩] [] [] 100 with
        receiveDeadline := 50, readDeadline := 50, sendDeadline := 60,
        writeDeadline := 60 } : Conn).Recv (-1) []
      = some ((List.replicate 128 7, none), [],
          { NewConnByNetConn [] [] [] 100 with
            receiveDeadline := 50, readDeadline := 60, sendDeadline := 60,
            writeDeadline := 60, nreads := 2 }) :=
  Recv_drain_timeout
    ({ NewConnByNetConn [⟨List.replicate 128 7, none⟩, ⟨[], some Err.timeout⟩] [] [] 100 with
      receiveDeadline := 50, readDeadline := 50, sendDeadline := 60,
      writeDeadline := 60 } : Conn) (List.replicate 128 7) []
    (List.length_replicate _ _) rfl rfl rfl rfl

/-- Claim C13 as stated fails: on a fresh connection whose first read delivers nothing and
times out, drain-available `Recv` without a retry policy (`length` 0 or negative) returns
the empty result together with the timeout error. -/
theorem Recv_drain_first_timeout_is_error :
    (NewConnByNetConn [⟨[], some Err.timeout⟩] [] [] 0).Recv 0 []
        = some (([], some Err.timeout), [], { NewConnByNetConn [] [] [] 0 with nreads := 1 })
      ∧ (NewConnByNetConn [⟨[], some Err.timeout⟩] [] [] 0).Recv (-1) []
        = some (([], some Err.timeout), [], { NewConnByNetConn [] [] [] 0 with nreads := 1 }) := by
  decide

/-- Claim C13, amended.  For `Recv` with `length ≤ 0` and no retry policy on a connection
with no pending bytes whose first read delivers no byte and ends by a deadline timeout:
`Recv` returns an empty result together with the timeout error, after that one read and
without touching any deadline (a timeout ends the receive with a `nil` error only once a
first successful read has put the loop under the buffer-wait deadline). -/
theorem Recv_drain_no_input (c : Conn) (length : Int) (rest : List ReadEv)
    (hlen : length ≤ 0) (hbuf : c.rbuf = []) (herr : c.rerr = none)
    (hs : c.rscript = ⟨[], some Err.timeout⟩ :: rest) :
    c.Recv length [] = some (([], some Err.timeout), [],
      { c with rscript := rest, nreads := c.nreads + 1 }) := by
  have hr := read_fail c 128 Err.timeout rest (by decide) hbuf herr hs
  have h1 : ¬ (0 < length) := by omega
  unfold Conn.Recv
  rw [recvLoop]
  simp [h1, defaultReadBufferSize, hr, isTimeout]

/-- Witness of `Recv_drain_no_input`: `length = -1`, the stream times out at once and has
a byte for later. -/
theorem Recv_drain_no_input_witness :
    (NewConnByNetConn [⟨[], some Err.timeout⟩, ⟨[5], none⟩] [] [] 0).Recv (-1) []
      = some (([], some Err.timeout), [],
          { NewConnByNetConn [⟨[], some Err.timeout⟩, ⟨[5], none⟩] [] [] 0 with
            rscript := [⟨[5], none⟩],
            nreads := (NewConnByNetConn [⟨[], some Err.timeout⟩, ⟨[5], none⟩] [] [] 0).nreads
              + 1 }) :=
  Recv_drain_no_input (NewConnByNetConn [⟨[], some Err.timeout⟩, ⟨[5], none⟩] [] [] 0) (-1)
    [⟨[5], none⟩] (by decide) rfl rfl rfl

/-! ## The pool -/

/-- Claim C14 as stated fails for a negative TTL: with `TTL = -5ms` a `Put` at the clock
reading `100ms` queues an entry of expiry `95`, not `0`. -/
theorem Put_negative_ttl_expiry :
    ((xpoolNew (-5000000) none false : Pool Nat).Put 7 100000000).1 = none
      ∧ ((xpoolNew (-5000000) none false : Pool Nat).Put 7 100000000).2.list.map
          (fun f => (f.value, f.expireAt)) = [(7, 95)] := by
  decide

/-- Claim C14, amended.  For every pool state, value and clock reading `now`: if the pool
is closed, `Put` returns the pool-closed error and leaves the pool unchanged; otherwise
`Put` returns `nil` and the new queue is the old queue with one entry appended at the
tail, holding the value and the expiry `now + TTL` in whole milliseconds (each truncated)
for every `TTL` other than `0`, negative ones included, and the expiry `0` (never
expires) for `TTL = 0`. -/
theorem Pool_Put_spec {V : Type} (p : Pool V) (value : V) (now : Int) :
    (p.closed = 1 → p.Put value now = (some Err.poolClosed, p))
      ∧ (p.closed ≠ 1 →
          p.Put value now = (none, { p with list := p.list ++
            [{ value := value,
               expireAt := if p.TTL = 0 then 0 else milli now + milli p.TTL }] })) := by
  constructor
  · intro h
    simp [Pool.Put, h]
  · intro h
    simp [Pool.Put, h, xlist.PushBack]

/-- Witness of `Pool_Put_spec`: an open pool with `TTL = 2ms` at the clock reading
`100ms`, and the same pool closed. -/
theorem Pool_Put_spec_witness :
    (xpoolNew 2000000 none false : Pool Nat).Close.Put 7 100000000
        = (some Err.poolClosed, (xpoolNew 2000000 none false : Pool Nat).Close)
      ∧ (xpoolNew 2000000 none false : Pool Nat).Put 7 100000000
        = (none, { (xpoolNew 2000000 none false : Pool Nat) with
            list := (xpoolNew 2000000 none false : Pool Nat).list ++
              [{ value := 7,
                 expireAt := if (xpoolNew 2000000 none false : Pool Nat).TTL = 0 then 0
                   else milli 100000000
                     + milli (xpoolNew 2000000 none false : Pool Nat).TTL }] }) :=
  ⟨(Pool_Put_spec (xpoolNew 2000000 none false : Pool Nat).Close 7 100000000).1 rfl,
   (Pool_Put_spec (xpoolNew 2000000 none false : Pool Nat) 7 100000000).2 (by decide)⟩

/-- The loop of `Get` past expired entries up to a live one. -/
theorem getLoop_live {V : Type} (ef : Bool) (now : Int) (f : PoolItem V)
    (post : List (PoolItem V)) (hf : f.live now = true) :
    ∀ (pre : List (PoolItem V)) (log : List V), (∀ x ∈ pre, x.live now = false) →
      getLoop ef now (pre ++ f :: post) log
        = (some f.value, post, log ++ (if ef = true then pre.map (fun x => x.value) else [])) := by
  intro pre
  induction pre with
  | nil =>
    intro log _
    have hf2 : f.expireAt = 0 ∨ f.expireAt > milli now := by
      simpa [PoolItem.live] using hf
    simp [getLoop, hf2]
  | cons x pre ih =>
    intro log hpre
    have hx : ¬ (x.expireAt = 0 ∨ x.expireAt > milli now) := by
      have := hpre x (List.mem_cons_self _ _)
      simpa [PoolItem.live] using this
    have hrest : ∀ y ∈ pre, y.live now = false := fun y hy => hpre y (List.mem_cons_of_mem _ hy)
    simp only [List.cons_append, getLoop, hx, if_false]
    cases ef with
    | true => simp [ih _ hrest]
    | false => simp [ih _ hrest]

/-- The loop of `Get` on a queue of expired entries only. -/
theorem getLoop_dead {V : Type} (ef : Bool) (now : Int) :
    ∀ (l : List (PoolItem V)) (log : List V), (∀ x ∈ l, x.live now = false) →
      getLoop ef now l log
        = (none, [], log ++ (if ef = true then l.map (fun x => x.value) else [])) := by
  intro l
  induction l with
  | nil => intro log _; simp [getLoop]
  | cons x l ih =>
    intro log hl
    have hx : ¬ (x.expireAt = 0 ∨ x.expireAt > milli now) := by
      have := hl x (List.mem_cons_self _ _)
      simpa [PoolItem.live] using this
    have hrest : ∀ y ∈ l, y.live now = false := fun y hy => hl y (List.mem_cons_of_mem _ hy)
    simp only [getLoop, hx, if_false]
    cases ef with
    | true => simp [ih _ hrest]
    | false => simp [ih _ hrest]

/-- Claim C15 as stated fails for a closed pool: `Get` on a closed pool without a factory
whose queue holds the never-expiring entry of value 7 returns the pool-and-factory-empty
error, not 7, and leaves the entry in the queue. -/
theorem Get_closed_pool_skips_queue :
    (({ (xpoolNew 0 none true : Pool Nat) with
        list := [{ value := 7, expireAt := 0 }], closed := 1 } : Pool Nat).Get 100000000).1
        = (none, some Err.poolEmpty)
      ∧ (({ (xpoolNew 0 none true : Pool Nat) with
        list := [{ value := 7, expireAt := 0 }], closed := 1 } : Pool Nat).Get
          100000000).2.list.map (fun f => (f.value, f.expireAt)) = [(7, 0)]
      ∧ (({ value := 7, expireAt := 0 } : PoolItem Nat).live 100000000) = true := by
  decide

/-- Claim C15, amended.  For every pool and clock reading `now`.  On an open pool: if the
queue holds an unexpired entry, `Get` returns the value of the first such entry with a
`nil` error, removes it and every entry before it, and passes each of these earlier
(expired) entries to the disposal callback, if one is configured, once and in queue order;
if no entry is unexpired, the queue ends empty, all its entries having gone to the
disposal callback, and `Get` returns the result of the factory, or the
pool-and-factory-empty error when no factory is configured.  On a closed pool `Get` does
not look at the queue: it leaves queue and disposal log as they are and returns the
result of the factory, or that error. -/
theorem Pool_Get_spec {V : Type} (p : Pool V) (now : Int) :
    (p.closed = 0 → ∀ pre f post, p.list = pre ++ f :: post →
        (∀ x ∈ pre, x.live now = false) → f.live now = true →
        (p.Get now).1 = (some f.value, none) ∧ (p.Get now).2.list = post
          ∧ (p.Get now).2.expired
              = p.expired ++ (if p.ExpireFunc = true then pre.map (fun x => x.value) else [])
          ∧ (p.Get now).2.newCalls = p.newCalls)
      ∧ (p.closed = 0 → (∀ x ∈ p.list, x.live now = false) →
        (p.Get now).1 = (match p.NewFunc with
            | some g => g p.newCalls
            | none => (none, some Err.poolEmpty))
          ∧ (p.Get now).2.list = []
          ∧ (p.Get now).2.expired
              = p.expired ++ (if p.ExpireFunc = true then p.list.map (fun x => x.value) else []))
      ∧ (p.closed ≠ 0 →
        (p.Get now).1 = (match p.NewFunc with
            | some g => g p.newCalls
            | none => (none, some Err.poolEmpty))
          ∧ (p.Get now).2.list = p.list ∧ (p.Get now).2.expired = p.expired) := by
  refine ⟨?_, ?_, ?_⟩
  · intro hc pre f post hl hpre hf
    simp [Pool.Get, hc, hl, getLoop_live p.ExpireFunc now f post hf pre p.expired hpre]
  · intro hc hall
    simp only [Pool.Get, hc, if_true, getLoop_dead p.ExpireFunc now p.list p.expired hall]
    cases p.NewFunc <;> simp
  · intro hc
    simp only [Pool.Get, hc, if_false]
    cases p.NewFunc <;> simp

/-- Witness of `Pool_Get_spec`: an open pool with the disposal callback at the clock
reading `100ms`, its queue holding an expired entry and then a live one. -/
theorem Pool_Get_spec_witness :
    (({ (xpoolNew 1000000 none true : Pool Nat) with
        list := [{ value := 7, expireAt := 99 }, { value := 8, expireAt := 101 }] } :
          Pool Nat).Get 100000000).1 = (some 8, none)
      ∧ (({ (xpoolNew 1000000 none true : Pool Nat) with
        list := [{ value := 7, expireAt := 99 }, { value := 8, expireAt := 101 }] } :
          Pool Nat).Get 100000000).2.list = []
      ∧ (({ (xpoolNew 1000000 none true : Pool Nat) with
        list := [{ value := 7, expireAt := 99 }, { value := 8, expireAt := 101 }] } :
          Pool Nat).Get 100000000).2.expired = [] ++ (if true = true then
            [({ value := 7, expireAt := 99 } : PoolItem Nat)].map (fun x => x.value) else [])
      ∧ (({ (xpoolNew 1000000 none true : Pool Nat) with
        list := [{ value := 7, expireAt := 99 }, { value := 8, expireAt := 101 }] } :
          Pool Nat).Get 100000000).2.newCalls = 0 :=
  (Pool_Get_spec ({ (xpoolNew 1000000 none true : Pool Nat) with
      list := [{ value := 7, expireAt := 99 }, { value := 8, expireAt := 101 }] } : Pool Nat)
    100000000).1 rfl [{ value := 7, expireAt := 99 }] { value := 8, expireAt := 101 } [] rfl
    (by decide) (by decide)

theorem milli_add_le (a b c : Int) (ha : 0 ≤ a) (hb : 0 ≤ b) (hc : a + b ≤ c) :
    milli a + milli b ≤ milli c := by
  have hc0 : 0 ≤ c := by omega
  unfold milli
  rw [Int.tdiv_eq_ediv ha (by decide), Int.tdiv_eq_ediv hb (by decide),
    Int.tdiv_eq_ediv hc0 (by decide)]
  omega

/-- Claim C16 as stated fails for a TTL below one millisecond: with `TTL = 0.5ms`, a value
put at the clock reading `5ms` is already expired for a `Get` at that same reading
(`t1 - t0 = 0 < T`): `Get` disposes of it and falls back to the (absent) factory. -/
theorem Pool_ttl_submillisecond :
    ((((xpoolNew 500000 none true : Pool Nat).Put 7 5000000).2).Get 5000000).1
        = (none, some Err.poolEmpty)
      ∧ ((((xpoolNew 500000 none true : Pool Nat).Put 7 5000000).2).Get 5000000).2.expired = [7]
      ∧ (5000000 : Int) - 5000000 < 500000 := by
  decide

/-- Claim C16, amended.  For every open pool with an empty queue and every TTL `T > 0`,
after `Put(v)` at the clock reading `t0`, with `E = t0 + T` in whole milliseconds (each
truncated): a `Get` at `t1` returns `v` when `E = 0` or the millisecond of `t1` is before
`E`; when `E ≠ 0` and the millisecond of `t1` is `E` or later, `Get` does not return `v`
but passes it to the disposal callback (if one is configured) and returns the result of
the factory (the pool-and-factory-empty error without one).  The latter is the case
whenever `t0 ≥ 0` and `t1 - t0 ≥ T`; but `t1 - t0 < T` does not make `v` come back (a TTL
below one millisecond has `E` in the millisecond of `t0`). -/
theorem Pool_ttl {V : Type} (p : Pool V) (v : V) (T t0 t1 : Int) (hopen : p.closed = 0)
    (hq : p.list = []) (hT : 0 < T) (hTTL : p.TTL = T) :
    ((milli t0 + milli T = 0 ∨ milli t1 < milli t0 + milli T) →
        ((p.Put v t0).2.Get t1).1 = (some v, none)
          ∧ ((p.Put v t0).2.Get t1).2.list = []
          ∧ ((p.Put v t0).2.Get t1).2.expired = p.expired)
      ∧ (milli t0 + milli T ≠ 0 → milli t0 + milli T ≤ milli t1 →
        ((p.Put v t0).2.Get t1).1 = (match p.NewFunc with
            | some g => g p.newCalls
            | none => (none, some Err.poolEmpty))
          ∧ ((p.Put v t0).2.Get t1).2.list = []
          ∧ ((p.Put v t0).2.Get t1).2.expired
              = p.expired ++ (if p.ExpireFunc = true then [v] else []))
      ∧ (0 ≤ t0 → T ≤ t1 - t0 → milli t0 + milli T ≤ milli t1) := by
  have h1 : p.closed ≠ 1 := by omega
  have hT0 : ¬ T = 0 := by omega
  have hput : (p.Put v t0).2
      = { p with list := [{ value := v, expireAt := milli t0 + milli T }] } := by
    rw [(Pool_Put_spec p v t0).2 h1]
    simp [hq, hTTL, hT0]
  rw [hput]
  obtain ⟨g1, g2, _⟩ := Pool_Get_spec
    ({ p with list := [{ value := v, expireAt := milli t0 + milli T }] } : Pool V) t1
  refine ⟨?_, ?_, ?_⟩
  · intro h
    obtain ⟨a1, a2, a3, _⟩ := g1 hopen [] { value := v, expireAt := milli t0 + milli T } [] rfl
      (by simp) (by simpa [PoolItem.live] using h)
    exact ⟨a1, a2, by simpa using a3⟩
  · intro hne hle
    obtain ⟨a1, a2, a3⟩ := g2 hopen (by
      intro x hx
      simp only [List.mem_singleton] at hx
      subst hx
      simp only [PoolItem.live, decide_eq_false_iff_not, not_or]
      exact ⟨hne, by omega⟩)
    exact ⟨a1, a2, by simpa using a3⟩
  · intro h0 hle
    exact milli_add_le t0 T t1 h0 (le_of_lt hT) (by omega)

/-- Witness of `Pool_ttl`: `TTL = 2ms`, put at `100ms`, got back just before `102ms`. -/
theorem Pool_ttl_witness :
    (((xpoolNew 2000000 none true : Pool Nat).Put 7 100000000).2.Get 101999999).1
        = (some 7, none)
      ∧ (((xpoolNew 2000000 none true : Pool Nat).Put 7 100000000).2.Get 101999999).2.list = []
      ∧ (((xpoolNew 2000000 none true : Pool Nat).Put 7 100000000).2.Get 101999999).2.expired
        = (xpoolNew 2000000 none true : Pool Nat).expired :=
  (Pool_ttl (xpoolNew 2000000 none true : Pool Nat) 7 2000000 100000000 101999999 rfl rfl
    (by decide) rfl).1 (by decide)

theorem putAll_open {V : Type} :
    ∀ (xs : List (V × Int)) (p : Pool V), p.closed = 0 →
      p.putAll xs = { p with list := p.list ++ xs.map (fun x => p.entry x.1 x.2) } := by
  intro xs
  induction xs with
  | nil => intro p _; simp [Pool.putAll]
  | cons x xs ih =>
    intro p hopen
    have h1 : p.closed ≠ 1 := by omega
    rw [Pool.putAll, (Pool_Put_spec p x.1 x.2).2 h1]
    simp only
    rw [ih]
    · simp [Pool.entry]
    · exact hopen

theorem getAll_live {V : Type} :
    ∀ (items : List (PoolItem V)) (gets : List Int) (p : Pool V), p.closed = 0 →
      p.list = items → List.Forall₂ (fun f t => f.live t = true) items gets →
      (p.getAll gets).1 = items.map (fun f => (some f.value, none))
        ∧ (p.getAll gets).2.list = [] := by
  intro items gets p hopen hl hall
  induction hall generalizing p with
  | nil => simp [Pool.getAll, hl]
  | @cons f t items gets hf _ ih =>
    obtain ⟨a1, a2, _, _⟩ := (Pool_Get_spec p t).1 hopen [] f items hl (by simp) hf
    have hopen2 : (p.Get t).2.closed = 0 := by
      simp only [Pool.Get]
      split <;> (try split) <;> exact hopen
    obtain ⟨b1, b2⟩ := ih (p.Get t).2 hopen2 a2
    simp only [Pool.getAll, List.map_cons, a1, b1, b2, and_self]

/-- Claim C17, pool FIFO ordering.  For every open pool with an empty queue and every
list of values put in that order (each at its own clock reading), then got back by as
many successive `Get` calls (each at its own clock reading), no value being expired at
the reading of the `Get` that is its turn: the `Get` calls return the values in exactly
the order they were put, each with a `nil` error, and the queue is empty afterwards. -/
theorem Pool_fifo {V : Type} (p : Pool V) (puts : List (V × Int)) (gets : List Int)
    (hopen : p.closed = 0) (hq : p.list = [])
    (hlive : List.Forall₂ (fun x t => (p.entry x.1 x.2).live t = true) puts gets) :
    ((p.putAll puts).getAll gets).1 = puts.map (fun x => (some x.1, none))
      ∧ ((p.putAll puts).getAll gets).2.list = [] := by
  rw [putAll_open puts p hopen]
  have h := getAll_live (puts.map (fun x => p.entry x.1 x.2)) gets
    ({ p with list := p.list ++ puts.map (fun x => p.entry x.1 x.2) } : Pool V)
    hopen (by simp [hq]) (by
      rw [List.forall₂_map_left_iff]
      exact hlive)
  simpa [Pool.entry] using h

/-- Witness of `Pool_fifo`: three values put at `100ms`, `101ms`, `102ms` with
`TTL = 10ms` and got back at `103ms`, `104ms`, `105ms`. -/
theorem Pool_fifo_witness :
    (((xpoolNew 10000000 none true : Pool Nat).putAll
        [(7, 100000000), (8, 101000000), (9, 102000000)]).getAll
          [103000000, 104000000, 105000000]).1
        = [(7, 100000000), (8, 101000000), (9, 102000000)].map
            (fun x => (some x.1, (none : Option Err)))
      ∧ (((xpoolNew 10000000 none true : Pool Nat).putAll
        [(7, 100000000), (8, 101000000), (9, 102000000)]).getAll
          [103000000, 104000000, 105000000]).2.list = [] :=
  Pool_fifo (xpoolNew 10000000 none true : Pool Nat)
    [(7, 100000000), (8, 101000000), (9, 102000000)] [103000000, 104000000, 105000000]
    rfl rfl
    (List.Forall₂.cons (by decide) (List.Forall₂.cons (by decide)
      (List.Forall₂.cons (by decide) List.Forall₂.nil)))

theorem drainLoop_eq {V : Type} :
    ∀ (l : List (PoolItem V)) (log : List V),
      drainLoop l log = log ++ l.map (fun x => x.value) := by
  intro l
  induction l with
  | nil => intro log; simp [drainLoop]
  | cons x l ih => intro log; simp [drainLoop, ih]

theorem Get_closed_flag {V : Type} (p : Pool V) (now : Int) :
    (p.Get now).2.closed = p.closed := by
  simp only [Pool.Get]
  split <;> (try split) <;> rfl

theorem checkExpireItems_closed_flag {V : Type} (p : Pool V) (now : Int) (funcExits : Bool) :
    (p.checkExpireItems now funcExits).closed = p.closed := by
  simp only [Pool.checkExpireItems]
  split_ifs <;> rfl

/-- Claim C18, pool close drains.  `Close` sets the closed flag and changes nothing else
of the pool, its queue included.  On a closed pool: every operation (`Put`, `Get`,
`Clear`, `Close`, the periodic sweep) leaves the flag set; `Put` returns the pool-closed
error and leaves the pool as it is; and the periodic sweep, when a disposal callback is
configured, passes every entry of the queue to the callback exactly once, in queue order,
and leaves the queue empty (whether or not `xcron.FuncExit` returns). -/
theorem Pool_close_drains {V : Type} (p : Pool V) (value : V) (now : Int) (funcExits : Bool) :
    (p.Close.closed = 1 ∧ p.Close = { p with closed := 1 } ∧ p.Close.list = p.list)
      ∧ (p.closed = 1 →
          (p.Put value now).2.closed = 1 ∧ (p.Get now).2.closed = 1 ∧ p.Clear.closed = 1
            ∧ p.Close.closed = 1 ∧ (p.checkExpireItems now funcExits).closed = 1)
      ∧ (p.closed = 1 → p.Put value now = (some Err.poolClosed, p))
      ∧ (p.closed = 1 → p.ExpireFunc = true →
          (p.checkExpireItems now funcExits).expired
              = p.expired ++ p.list.map (fun x => x.value)
            ∧ (p.checkExpireItems now funcExits).list = []) := by
  refine ⟨⟨rfl, rfl, rfl⟩, ?_, ?_, ?_⟩
  · intro hc
    refine ⟨?_, ?_, ?_, rfl, ?_⟩
    · rw [(Pool_Put_spec p value now).1 hc]; exact hc
    · rw [Get_closed_flag]; exact hc
    · simp only [Pool.Clear]
      split <;> exact hc
    · rw [checkExpireItems_closed_flag]; exact hc
  · exact (Pool_Put_spec p value now).1
  · intro hc he
    simp only [Pool.checkExpireItems, hc, he, if_true, true_and, drainLoop_eq]
    split_ifs <;> simp [sweepLoop]

/-- Witness of `Pool_close_drains`: a pool with a disposal callback and two queued
entries, closed, at the clock reading `100ms`. -/
theorem Pool_close_drains_witness :
    (({ (xpoolNew 1000000 none true : Pool Nat) with
        list := [{ value := 7, expireAt := 99 }, { value := 8, expireAt := 0 }] } :
          Pool Nat).Close.checkExpireItems 100000000 true).expired = [7, 8]
      ∧ (({ (xpoolNew 1000000 none true : Pool Nat) with
        list := [{ value := 7, expireAt := 99 }, { value := 8, expireAt := 0 }] } :
          Pool Nat).Close.checkExpireItems 100000000 true).list = [] :=
  (Pool_close_drains (({ (xpoolNew 1000000 none true : Pool Nat) with
      list := [{ value := 7, expireAt := 99 }, { value := 8, expireAt := 0 }] } :
        Pool Nat).Close) 0 100000000 true).2.2.2 rfl rfl

/-! ## Pooled connections -/

/-- `Send` without a retry policy on a connection whose next write fails with an error
other than end of stream: one write, and the error is returned. -/
theorem Send_first_fail (c : Conn) (data : List Byte) (n : Nat) (e : Err)
    (rest : List WriteEv) (hs : c.wscript = WriteEv.fail n e :: rest) :
    c.Send data [] = some (some e, [],
      { c with wscript := rest, writes := c.writes ++ [data], wire := c.wire ++ data.take n }) := by
  unfold Conn.Send
  rw [sendLoop]
  simp only [Conn.write, hs]
  split_ifs <;> rfl

/-- `Get` on a pool with an empty queue and a factory is one call of the factory. -/
theorem Get_empty_queue {V : Type} (p : Pool V) (now : Int) (g : Nat → Option V × Option Err)
    (hq : p.list = []) (hg : p.NewFunc = some g) :
    p.Get now = (g p.newCalls, { p with newCalls := p.newCalls + 1 }) := by
  have hscan : (if p.closed = 0 then getLoop p.ExpireFunc now p.list p.expired
      else (none, p.list, p.expired)) = (none, [], p.expired) := by
    split_ifs <;> simp [hq, getLoop]
  simp only [Pool.Get, hscan, hg]
  cases p
  simp_all

/-- `PoolConn.Send` does not return when every send fails and the pool always yields a
connection: in health state Unknown or Error, with a pool whose queue is empty and whose
factory always yields a connection whose write fails, on a connection whose write fails,
the call runs out of every bound on the depth of its calls to itself. -/
theorem PoolConn_Send_unbounded (data : List Byte) (g : Nat → Option Conn × Option Err)
    (bad : Conn) (n : Nat) (e : Err) (ws : List WriteEv)
    (hg : ∀ k, g k = (some bad, none)) (hbad : bad.wscript = WriteEv.fail n e :: ws) :
    ∀ (fuel : Nat) (c : PoolConn) (pool : Pool Conn) (n1 : Nat) (e1 : Err)
      (ws1 : List WriteEv),
      (c.status = connStatusUnknown ∨ c.status = connStatusError) → c.pool = some pool →
      pool.list = [] → pool.NewFunc = some g → c.Conn.wscript = WriteEv.fail n1 e1 :: ws1 →
      PoolConn.Send fuel c data [] = Outcome.hang := by
  intro fuel
  induction fuel with
  | zero => intro c pool n1 e1 ws1 _ _ _ _ _; rfl
  | succ fuel ih =>
    intro c pool n1 e1 ws1 hst hp hq hnf hw
    have hrec := ih
      { c with Conn := bad, pool := some { pool with newCalls := pool.newCalls + 1 } }
      { pool with newCalls := pool.newCalls + 1 } n e ws hst rfl hq hnf hbad
    rw [PoolConn.Send, Send_first_fail c.Conn data n1 e1 ws1 hw]
    simp only [ne_eq, reduceCtorEq, not_false_eq_true, hst, and_self, if_true, hp,
      Get_empty_queue pool _ g hq hnf, hg, hrec]

set_option maxRecDepth 100000 in
/-- Claim C19, at a failing input: a pooled connection in health state Unknown whose send
fails, with a pool whose factory yields first a connection whose send fails too and then
connections that work.  `PoolConn.Send` asks the pool twice (not once) and returns a
`nil` error from the third delegated send, where the claim has it return the failure of
the second. -/
theorem PoolConn_Send_reacquires_twice :
    ∃ c1, PoolConn.Send 3
        { Conn := NewConnByNetConn [] [WriteEv.fail 0 (Err.io 1)] [] 0,
          pool := some (xpoolNew defaultPoolExpire
            (some (fun k => if k = 0
              then (some (NewConnByNetConn [] [WriteEv.fail 0 (Err.io 2)] [] 0), none)
              else (some (NewConnByNetConn [] [] [] 0), none))) false),
          status := connStatusUnknown } [9] []
        = Outcome.ret (none, [], c1)
      ∧ c1.status = connStatusActive
      ∧ c1.pool.map (fun p => p.newCalls) = some 2
      ∧ c1.Conn.writes = [[9]] :=
  ⟨_, rfl, rfl, rfl, rfl⟩

/-- In every health state but Unknown, `PoolConn.SendPkg` is the delegated `SendPkg`
followed by the update of the health state: no replacement connection is obtained. -/
theorem PoolConn_SendPkg_not_unknown (c : PoolConn) (data : List Byte)
    (option : List PkgOption) (err : Option Err) (conn1 : Conn)
    (hst : c.status ≠ connStatusUnknown)
    (h : c.Conn.SendPkg data option = Outcome.ret (err, conn1)) :
    c.SendPkg data option = Outcome.ret (err,
      { c with Conn := conn1,
               status := if err ≠ none then connStatusError else connStatusActive }) := by
  unfold PoolConn.SendPkg
  rw [h]
  simp [hst]

/-- Claim C20, at the failing input: a pooled connection in health state Error whose
delegated `SendPkg` fails, with a pool whose factory yields working connections.
`PoolConn.SendPkg` returns the failure at once: the factory is not called, the connection
is not replaced and no second `SendPkg` is made. -/
theorem PoolConn_SendPkg_error_state_no_reacquire :
    ∃ c1, PoolConn.SendPkg
        { Conn := NewConnByNetConn [] [WriteEv.fail 0 (Err.io 1)] [] 0,
          pool := some (xpoolNew defaultPoolExpire
            (some (fun _ => (some (NewConnByNetConn [] [] [] 0), none))) false),
          status := connStatusError } [9] []
        = Outcome.ret (some (Err.io 1), c1)
      ∧ c1.status = connStatusError
      ∧ c1.pool.map (fun p => p.newCalls) = some 0
      ∧ c1.Conn.writes = [[0, 1, 9]] ∧ c1.Conn.wire = [] :=
  ⟨_, rfl, rfl, rfl, rfl, rfl⟩

/-- In health state Unknown the same input is recovered: the factory is called once, the
connection it yields is swapped in, and the retried `SendPkg` succeeds. -/
theorem PoolConn_SendPkg_unknown_state_reacquires :
    ∃ c1, PoolConn.SendPkg
        { Conn := NewConnByNetConn [] [WriteEv.fail 0 (Err.io 1)] [] 0,
          pool := some (xpoolNew defaultPoolExpire
            (some (fun _ => (some (NewConnByNetConn [] [] [] 0), none))) false),
          status := connStatusUnknown } [9] []
        = Outcome.ret (none, c1)
      ∧ c1.status = connStatusActive
      ∧ c1.pool.map (fun p => p.newCalls) = some 1
      ∧ c1.Conn.writes = [[0, 1, 9]] ∧ c1.Conn.wire = [0, 1, 9] :=
  ⟨_, rfl, rfl, rfl, rfl, rfl⟩

/-! ## NewPoolConn -/

/-- `NewPoolConn` faults for every address that has no entry in the address-to-pool
mapping: it stores a `nil` pool pointer for the address and calls `Get` on it. -/
theorem NewPoolConn_unregistered_panics (m : AddressPoolMap) (addr : String)
    (dial : Nat → Option Conn × Option Err) (now : Int) (h : m.lookup addr = none) :
    NewPoolConn m addr dial now = Outcome.panic := by
  simp [NewPoolConn, AddressPoolMap.LoadOrStore, h]

/-- The entry `NewPoolConn` registers for a new address is a `nil` pool pointer. -/
theorem LoadOrStore_registers_nil (m : AddressPoolMap) (addr : String)
    (h : m.lookup addr = none) :
    (AddressPoolMap.LoadOrStore m addr none).2 = m ++ [(addr, none)] := by
  simp [AddressPoolMap.LoadOrStore, h]

/-- Claim C21, at the failing input: with an empty address-to-pool mapping and an address
for which dialing succeeds, `NewPoolConn` does not return a `PoolConn`; it faults, on the
`Get` call made on the `nil` pool pointer it has just registered. -/
theorem NewPoolConn_faults :
    NewPoolConn [] "127.0.0.1:9000" (fun _ => (some (NewConnByNetConn [] [] [] 0), none)) 0
        = Outcome.panic
      ∧ (AddressPoolMap.LoadOrStore [] "127.0.0.1:9000" none).2.map (fun kv => kv.1)
        = ["127.0.0.1:9000"]
      ∧ (AddressPoolMap.LoadOrStore [] "127.0.0.1:9000" none).2.map (fun kv => kv.2.isSome)
        = [false] :=
  ⟨rfl, rfl, rfl⟩

/-! ## The periodic sweep -/

/-- The sweep loop, once `latestExpire` is not after the clock: it removes the longest
head run of entries whose expiry is not after the clock, and logs their values when a
disposal callback is configured. -/
theorem sweepLoop_eq {V : Type} (ef : Bool) (ts : Int) :
    ∀ (l : List (PoolItem V)) (latest : Int) (log : List V), latest ≤ ts →
      sweepLoop ef ts l latest log
        = (l.dropWhile (fun x => decide (x.expireAt ≤ ts)),
           log ++ (if ef = true
             then (l.takeWhile (fun x => decide (x.expireAt ≤ ts))).map (fun x => x.value)
             else [])) := by
  intro l
  induction l with
  | nil => intro latest log _; simp [sweepLoop]
  | cons item rest ih =>
    intro latest log hl
    have h1 : ¬ latest > ts := by omega
    by_cases h2 : item.expireAt > ts
    · have h3 : ¬ item.expireAt ≤ ts := by omega
      simp [sweepLoop, h1, h2, h3, xlist.PushFront]
    · have h3 : item.expireAt ≤ ts := by omega
      cases ef with
      | true => simp [sweepLoop, h1, h2, h3, ih item.expireAt _ h3]
      | false => simp [sweepLoop, h1, h2, h3, ih item.expireAt _ h3]

theorem milli_nonneg (now : Int) (h : 0 ≤ now) : 0 ≤ milli now := by
  unfold milli
  exact Int.tdiv_nonneg h (by decide)

/-- Claim C22, periodic sweep on an open pool.  For every open pool, every queue and
every clock reading `now` (a reading of the clock is not before the Unix epoch): with
`TTL ≠ 0` one run of the sweep removes exactly the longest head run of entries whose
expiry is not after `now` in milliseconds, passes the value of each removed entry to the
disposal callback (if one is configured) exactly once and in queue order, and leaves the
other entries in their order, the first entry of later expiry at the head; with
`TTL = 0` the sweep leaves the pool as it is. -/
theorem sweep_open_pool {V : Type} (p : Pool V) (now : Int) (funcExits : Bool)
    (hopen : p.closed = 0) (hnow : 0 ≤ now) :
    (p.TTL ≠ 0 →
        (p.checkExpireItems now funcExits).list
            = p.list.dropWhile (fun x => decide (x.expireAt ≤ milli now))
          ∧ (p.checkExpireItems now funcExits).expired
            = p.expired ++ (if p.ExpireFunc = true
                then (p.list.takeWhile (fun x => decide (x.expireAt ≤ milli now))).map
                  (fun x => x.value)
                else [])
          ∧ p.list = p.list.takeWhile (fun x => decide (x.expireAt ≤ milli now))
              ++ (p.checkExpireItems now funcExits).list)
      ∧ (p.TTL = 0 → p.checkExpireItems now funcExits = p) := by
  have h1 : ¬ p.closed = 1 := by omega
  have hts : (-1 : Int) ≤ milli now := by
    have := milli_nonneg now hnow
    omega
  constructor
  · intro httl
    have hl : (p.checkExpireItems now funcExits).list
        = p.list.dropWhile (fun x => decide (x.expireAt ≤ milli now)) := by
      simp [Pool.checkExpireItems, h1, httl, sweepLoop_eq p.ExpireFunc (milli now) p.list (-1)
        p.expired hts]
    refine ⟨hl, ?_, ?_⟩
    · simp [Pool.checkExpireItems, h1, httl, sweepLoop_eq p.ExpireFunc (milli now) p.list (-1)
        p.expired hts]
    · rw [hl, List.takeWhile_append_dropWhile]
  · intro httl
    simp [Pool.checkExpireItems, h1, httl]

/-- Witness of `sweep_open_pool`: `TTL = 1ms`, the clock at `100ms`, the queue holding
entries of expiry 99, 100, 101, 102. -/
theorem sweep_open_pool_witness :
    (({ (xpoolNew 1000000 none true : Pool Nat) with
        list := [{ value := 1, expireAt := 99 }, { value := 2, expireAt := 100 },
                 { value := 3, expireAt := 101 }, { value := 4, expireAt := 102 }] } :
          Pool Nat).checkExpireItems 100000000 true).list.map
            (fun x => (x.value, x.expireAt)) = [(3, 101), (4, 102)]
      ∧ (({ (xpoolNew 1000000 none true : Pool Nat) with
        list := [{ value := 1, expireAt := 99 }, { value := 2, expireAt := 100 },
                 { value := 3, expireAt := 101 }, { value := 4, expireAt := 102 }] } :
          Pool Nat).checkExpireItems 100000000 true).expired = [1, 2] :=
  ⟨by rw [((sweep_open_pool ({ (xpoolNew 1000000 none true : Pool Nat) with
        list := [{ value := 1, expireAt := 99 }, { value := 2, expireAt := 100 },
                 { value := 3, expireAt := 101 }, { value := 4, expireAt := 102 }] } :
          Pool Nat) 100000000 true rfl (by decide)).1 (by decide)).1]; decide,
   by rw [((sweep_open_pool ({ (xpoolNew 1000000 none true : Pool Nat) with
        list := [{ value := 1, expireAt := 99 }, { value := 2, expireAt := 100 },
                 { value := 3, expireAt := 101 }, { value := 4, expireAt := 102 }] } :
          Pool Nat) 100000000 true rfl (by decide)).1 (by decide)).2.1]; decide⟩

/-! ## Order of the expiry times in the queue -/

theorem milli_mono (a b : Int) (h : a ≤ b) : milli a ≤ milli b := by
  unfold milli
  by_cases ha : 0 ≤ a
  · rw [Int.tdiv_eq_ediv ha (by decide), Int.tdiv_eq_ediv (show 0 ≤ b by omega) (by decide)]
    omega
  · by_cases hb : 0 ≤ b
    · have h1 : Int.tdiv a 1000000 = -Int.tdiv (-a) 1000000 := by
        rw [Int.neg_tdiv, neg_neg]
      rw [h1, Int.tdiv_eq_ediv (show 0 ≤ -a by omega) (by decide),
        Int.tdiv_eq_ediv hb (by decide)]
      omega
    · have h1 : Int.tdiv a 1000000 = -Int.tdiv (-a) 1000000 := by
        rw [Int.neg_tdiv, neg_neg]
      have h2 : Int.tdiv b 1000000 = -Int.tdiv (-b) 1000000 := by
        rw [Int.neg_tdiv, neg_neg]
      rw [h1, h2, Int.tdiv_eq_ediv (show 0 ≤ -a by omega) (by decide),
        Int.tdiv_eq_ediv (show 0 ≤ -b by omega) (by decide)]
      omega

/-- The loop of `Get` leaves a tail of the queue. -/
theorem getLoop_suffix {V : Type} (ef : Bool) (now : Int) :
    ∀ (l : List (PoolItem V)) (log : List V), (getLoop ef now l log).2.1 <:+ l := by
  intro l
  induction l with
  | nil => intro log; simp [getLoop]
  | cons f rest ih =>
    intro log
    by_cases h : f.expireAt = 0 ∨ f.expireAt > milli now
    · simp only [getLoop, h, if_true]
      exact List.suffix_cons f rest
    · cases ef with
      | true =>
        simp only [getLoop, h, if_false, if_true]
        exact (ih _).trans (List.suffix_cons f rest)
      | false =>
        simp only [getLoop, h, if_false, Bool.false_eq_true]
        exact (ih _).trans (List.suffix_cons f rest)

/-- The sweep loop leaves a tail of the queue. -/
theorem sweepLoop_suffix {V : Type} (ef : Bool) (ts : Int) :
    ∀ (l : List (PoolItem V)) (latest : Int) (log : List V),
      (sweepLoop ef ts l latest log).1 <:+ l := by
  intro l
  induction l with
  | nil => intro latest log; simp [sweepLoop]
  | cons item rest ih =>
    intro latest log
    by_cases h1 : latest > ts
    · simp only [sweepLoop, h1, if_true]
      exact List.suffix_refl _
    · by_cases h2 : item.expireAt > ts
      · simp only [sweepLoop, h1, h2, if_false, if_true, xlist.PushFront]
        exact List.suffix_refl _
      · cases ef with
        | true =>
          simp only [sweepLoop, h1, h2, if_false, if_true]
          exact (ih _ _).trans (List.suffix_cons item rest)
        | false =>
          simp only [sweepLoop, h1, h2, if_false, Bool.false_eq_true]
          exact (ih _ _).trans (List.suffix_cons item rest)

/-- Method `Get` leaves a tail of the queue, and the other fields that `Put` reads. -/
theorem Get_suffix {V : Type} (p : Pool V) (now : Int) :
    (p.Get now).2.list <:+ p.list ∧ (p.Get now).2.TTL = p.TTL := by
  unfold Pool.Get
  by_cases hc : p.closed = 0
  · simp only [hc, if_true]
    have hs := getLoop_suffix p.ExpireFunc now p.list p.expired
    rcases hg : getLoop p.ExpireFunc now p.list p.expired with ⟨v, rest, log⟩
    rw [hg] at hs
    cases v with
    | some v => exact ⟨hs, rfl⟩
    | none =>
      cases hf : p.NewFunc with
      | some f => exact ⟨hs, rfl⟩
      | none => exact ⟨hs, rfl⟩
  · simp only [hc, if_false]
    cases hf : p.NewFunc with
    | some f => exact ⟨List.suffix_refl _, rfl⟩
    | none => exact ⟨List.suffix_refl _, rfl⟩

/-- Method `Clear` empties the queue. -/
theorem Clear_list {V : Type} (p : Pool V) : p.Clear.list = [] ∧ p.Clear.TTL = p.TTL := by
  unfold Pool.Clear
  by_cases h : p.ExpireFunc = true
  · simp [h]
  · simp [h, xlist.RemoveAll]

/-- One run of the sweep leaves a tail of the queue. -/
theorem checkExpireItems_suffix {V : Type} (p : Pool V) (now : Int) (funcExits : Bool) :
    (p.checkExpireItems now funcExits).list <:+ p.list
      ∧ (p.checkExpireItems now funcExits).TTL = p.TTL := by
  unfold Pool.checkExpireItems
  by_cases hc : p.closed = 1
  · by_cases he : p.ExpireFunc = true
    · by_cases hx : funcExits = true
      · simp [hc, he, hx]
      · by_cases ht : p.TTL = 0
        · simp [hc, he, hx, ht]
        · simp [hc, he, hx, ht, sweepLoop]
    · by_cases hx : funcExits = true
      · simp [hc, he, hx]
      · by_cases ht : p.TTL = 0
        · simp [hc, he, hx, ht]
        · simp only [hc, he, hx, ht, if_true, if_false, and_false, Bool.false_eq_true]
          exact ⟨sweepLoop_suffix _ _ _ _ _, trivial⟩
  · by_cases ht : p.TTL = 0
    · simp [hc, ht]
    · simp only [hc, ht, if_false, false_and]
      exact ⟨sweepLoop_suffix _ _ _ _ _, trivial⟩

/-- The invariant of the queue at the clock reading `t`: the expiry times do not decrease
from head to tail, and none is after the expiry a `Put` at `t` would give. -/
theorem step_sorted {V : Type} (p : Pool V) (op : PoolOp V) (t now : Int) (ht : t ≤ now)
    (httl : p.TTL ≠ 0)
    (hs : List.Pairwise (fun a b => a ≤ b) (p.list.map (fun x => x.expireAt)))
    (hb : ∀ x ∈ p.list, x.expireAt ≤ milli t + milli p.TTL) :
    (p.step op now).TTL = p.TTL
      ∧ List.Pairwise (fun a b => a ≤ b) ((p.step op now).list.map (fun x => x.expireAt))
      ∧ ∀ x ∈ (p.step op now).list, x.expireAt ≤ milli now + milli (p.step op now).TTL := by
  have hm := milli_mono t now ht
  have hsuf : ∀ q : Pool V, q.list <:+ p.list → q.TTL = p.TTL →
      q.TTL = p.TTL
        ∧ List.Pairwise (fun a b => a ≤ b) (q.list.map (fun x => x.expireAt))
        ∧ ∀ x ∈ q.list, x.expireAt ≤ milli now + milli q.TTL := by
    intro q hq hT
    refine ⟨hT, hs.sublist (hq.sublist.map _), ?_⟩
    intro x hx
    have := hb x (hq.subset hx)
    rw [hT]
    omega
  cases op with
  | put value =>
    by_cases hc : p.closed = 1
    · have : p.step (PoolOp.put value) now = p := by simp [Pool.step, Pool.Put, hc]
      rw [this]
      exact hsuf p (List.suffix_refl _) rfl
    · have : (p.step (PoolOp.put value) now)
          = { p with list := p.list ++ [{ value := value, expireAt := milli now + milli p.TTL }] } := by
        simp [Pool.step, Pool.Put, hc, httl, xlist.PushBack]
      rw [this]
      refine ⟨rfl, ?_, ?_⟩
      · simp only [List.map_append, List.map_cons, List.map_nil]
        rw [List.pairwise_append]
        refine ⟨hs, List.pairwise_singleton _ _, ?_⟩
        intro a ha b hb2
        simp only [List.mem_singleton] at hb2
        rcases List.mem_map.1 ha with ⟨x, hx, rfl⟩
        have := hb x hx
        omega
      · intro x hx
        simp only [List.mem_append, List.mem_singleton] at hx
        rcases hx with hx | hx
        · have := hb x hx
          show x.expireAt ≤ milli now + milli p.TTL
          omega
        · rw [hx]
  | get => exact hsuf _ (Get_suffix p now).1 (Get_suffix p now).2
  | clear =>
    have h := Clear_list p
    refine hsuf p.Clear ?_ h.2
    show p.Clear.list <:+ p.list
    rw [h.1]
    exact List.nil_suffix
  | close => exact hsuf p.Close (List.suffix_refl _) rfl
  | sweep funcExits =>
    exact hsuf _ (checkExpireItems_suffix p now funcExits).1
      (checkExpireItems_suffix p now funcExits).2

/-- The invariant is kept by every sequence of operations made at clock readings that do
not decrease. -/
theorem run_sorted {V : Type} :
    ∀ (ops : List (PoolOp V × Int)) (p : Pool V) (t : Int), p.TTL ≠ 0 →
      List.Pairwise (fun a b => a ≤ b) (p.list.map (fun x => x.expireAt)) →
      (∀ x ∈ p.list, x.expireAt ≤ milli t + milli p.TTL) →
      List.Pairwise (fun a b => a ≤ b) (t :: ops.map (fun x => x.2)) →
      List.Pairwise (fun a b => a ≤ b) ((p.run ops).list.map (fun x => x.expireAt)) := by
  intro ops
  induction ops with
  | nil => intro p t _ hs _ _; exact hs
  | cons x rest ih =>
    intro p t httl hs hb hclock
    simp only [List.map_cons, List.pairwise_cons] at hclock
    have ht : t ≤ x.2 := hclock.1 x.2 (List.mem_cons_self _ _)
    have h := step_sorted p x.1 t x.2 ht httl hs hb
    show List.Pairwise _ (((p.step x.1 x.2).run rest).list.map _)
    refine ih (p.step x.1 x.2) x.2 (by rw [h.1]; exact httl) h.2.1 h.2.2 ?_
    exact List.pairwise_cons.2 hclock.2

/-- Claim C23, order of the expiry times.  Starting from the empty pool made by `New` with
a `TTL > 0`, after every finite sequence of `Put`, `Get`, `Clear`, `Close` and sweep
operations made at clock readings that do not decrease, the expiry times of the queued
entries do not decrease from head to tail. -/
theorem queue_expiry_sorted {V : Type} (ttl : Int)
    (newFunc : Option (Nat → Option V × Option Err)) (expireFunc : Bool)
    (ops : List (PoolOp V × Int)) (httl : 0 < ttl)
    (hclock : List.Pairwise (fun a b => a ≤ b) (ops.map (fun x => x.2))) :
    List.Pairwise (fun a b => a ≤ b)
      (((xpoolNew ttl newFunc expireFunc).run ops).list.map (fun x => x.expireAt)) := by
  cases ops with
  | nil => simp [Pool.run, xpoolNew]
  | cons x rest =>
    refine run_sorted (x :: rest) (xpoolNew ttl newFunc expireFunc) x.2 ?_ ?_ ?_ ?_
    · show ttl ≠ 0
      omega
    · simp [xpoolNew]
    · intro y hy
      simp [xpoolNew] at hy
    · simp only [List.map_cons, List.pairwise_cons] at hclock ⊢
      refine ⟨?_, hclock⟩
      intro a ha
      simp only [List.mem_cons] at ha
      rcases ha with ha | ha
      · omega
      · exact hclock.1 a ha

/-- Witness of `queue_expiry_sorted`: `TTL = 2ms`; three `Put`, a `Get`, a sweep and a
`Put`, at 1ms, 1ms, 2ms, 2ms, 3ms, 9ms. -/
theorem queue_expiry_sorted_witness :
    List.Pairwise (fun a b => a ≤ b)
        (((xpoolNew 2000000 none true : Pool Nat).run
          [(PoolOp.put 1, 1000000), (PoolOp.put 2, 1000000), (PoolOp.put 3, 2000000),
           (PoolOp.get, 2000000), (PoolOp.sweep true, 3000000),
           (PoolOp.put 4, 9000000)]).list.map (fun x => x.expireAt))
      ∧ ((xpoolNew 2000000 none true : Pool Nat).run
          [(PoolOp.put 1, 1000000), (PoolOp.put 2, 1000000), (PoolOp.put 3, 2000000),
           (PoolOp.get, 2000000), (PoolOp.sweep true, 3000000),
           (PoolOp.put 4, 9000000)]).list.map (fun x => (x.value, x.expireAt))
        = [(3, 4), (4, 11)] :=
  ⟨queue_expiry_sorted 2000000 none true _ (by decide) (by decide), by decide⟩

/-! ## Successive receives -/

/-- A stream that delivers the chunks `chunks` one per `Read`, without error: the clean
bytes of a fresh connection over it are the chunks.flattened. -/
theorem clean_of_chunks (chunks : List (List Byte)) (wscript : List WriteEv)
    (dscript : List (Option Err)) (now : Time) :
    (NewConnByNetConn (chunks.map (fun d => { data := d, err := none })) wscript dscript
      now).clean = chunks.flatten := by
  have h : ∀ l : List (List Byte),
      cleanOf (l.map (fun d => { data := d, err := none })) = l.flatten := by
    intro l
    induction l with
    | nil => rfl
    | cons d rest ih => simp [cleanOf, ih]
  simp [Conn.clean, NewConnByNetConn, h]

/-- Claim C24, no byte lost or duplicated between successive receives.  Let `s` be the
bytes the connection has to deliver before any error (`c.clean`: the bytes the buffered
reader holds, then those of the coming reads of the stream, however they are chunked).
For all lengths `a, b > 0` with `a + b ≤ len(s)`, `Recv(a)` returns `s[0..a)`, a following
`Recv(b)` on the same connection returns `s[a..a+b)`, and the two together are the bytes a
single `Recv(a+b)` returns; after `Recv(a)` the connection still has `s[a..)` to deliver
(what the reader pulled beyond the `a` bytes is retained), and after both calls it has
`s[a+b..)`, as after the single call. -/
theorem Recv_successive (c : Conn) (a b : Nat) (r1 r2 r3 : List Retry) (ha : 0 < a)
    (hb : 0 < b) (h : a + b ≤ c.clean.length) :
    ∃ c1 c2 c3,
      c.Recv (a : Int) r1 = some ((c.clean.take a, none), r1, c1)
        ∧ c1.Recv (b : Int) r2 = some (((c.clean.drop a).take b, none), r2, c2)
        ∧ c.Recv ((a + b : Nat) : Int) r3
            = some ((c.clean.take a ++ (c.clean.drop a).take b, none), r3, c3)
        ∧ c.clean.take a ++ (c.clean.drop a).take b = c.clean.take (a + b)
        ∧ c1.clean = c.clean.drop a
        ∧ c2.clean = c.clean.drop (a + b)
        ∧ c3.clean = c.clean.drop (a + b) := by
  obtain ⟨c1, h1, hc1, _⟩ := Recv_fixed_clean c a r1 ha (by omega)
  have hb1 : b ≤ c1.clean.length := by
    rw [hc1, List.length_drop]
    omega
  obtain ⟨c2, h2, hc2, _⟩ := Recv_fixed_clean c1 b r2 hb hb1
  obtain ⟨c3, h3, hc3, _⟩ := Recv_fixed_clean c (a + b) r3 (by omega) h
  have hsplit : c.clean.take a ++ (c.clean.drop a).take b = c.clean.take (a + b) := by
    rw [List.take_add]
  refine ⟨c1, c2, c3, h1, ?_, ?_, hsplit, hc1, ?_, hc3⟩
  · rw [h2, hc1]
  · rw [h3, hsplit]
  · rw [hc2, hc1, List.drop_drop, Nat.add_comm]

/-- Witness of `Recv_successive`: the stream delivers `1 2 3`, `4 5`, `6` in three reads;
`Recv(2)`, then `Recv(3)`. -/
theorem Recv_successive_witness :
    ∃ c1 c2 c3,
      (NewConnByNetConn [⟨[1, 2, 3], none⟩, ⟨[4, 5], none⟩, ⟨[6], none⟩] [] [] 0).Recv
          ((2 : Nat) : Int) [] = some (([1, 2], none), [], c1)
        ∧ c1.Recv ((3 : Nat) : Int) [] = some (([3, 4, 5], none), [], c2)
        ∧ (NewConnByNetConn [⟨[1, 2, 3], none⟩, ⟨[4, 5], none⟩, ⟨[6], none⟩] [] [] 0).Recv
          ((2 + 3 : Nat) : Int) [] = some (([1, 2, 3, 4, 5], none), [], c3)
        ∧ c1.clean = [3, 4, 5, 6] ∧ c2.clean = [6] ∧ c3.clean = [6] := by
  obtain ⟨c1, c2, c3, h1, h2, h3, _, h5, h6, h7⟩ :=
    Recv_successive (NewConnByNetConn [⟨[1, 2, 3], none⟩, ⟨[4, 5], none⟩, ⟨[6], none⟩] [] [] 0)
      2 3 [] [] [] (by decide) (by decide) (by decide)
  exact ⟨c1, c2, c3, h1, h2, h3, h5, h6, h7⟩

/-! ## The slice of SendPkg -/

/-- Function `getPkgOption` accepts every negative `HeaderSize` together with every
`MaxDataSize` from `1` to `0x7FFFFFFF`, and returns the option as it is. -/
theorem getPkgOption_accepts_negative (h m : Int) (r : Retry) (rest : List PkgOption)
    (hh : h < 0) (hm0 : 0 < m) (hm : m ≤ 0x7FFFFFFF) :
    getPkgOption ({ HeaderSize := h, MaxDataSize := m, Retry := r } :: rest)
      = Except.ok { HeaderSize := h, MaxDataSize := m, Retry := r } := by
  have h0 : ¬ h = 0 := by omega
  have h1 : ¬ h > pkgHeaderSizeMax := by simp only [pkgHeaderSizeMax]; omega
  have h2 : ¬ m = 0 := by omega
  have h3 : ¬ m > 0x7FFFFFFF := by omega
  simp [getPkgOption, h0, h1, h2, h3]

/-- With an accepted negative `HeaderSize` and a payload shorter than its magnitude and
within `MaxDataSize`, the slice `buffer[offset:]` of `SendPkg` is out of bounds. -/
theorem SendPkg_negative_header_panics (c : Conn) (p : List Byte) (h m : Int) (r : Retry)
    (hh : h < 0) (hm0 : 0 < m) (hm : m ≤ 0x7FFFFFFF) (hp : (p.length : Int) ≤ m)
    (hlen : (p.length : Int) < -h) :
    c.SendPkg p [{ HeaderSize := h, MaxDataSize := m, Retry := r }] = Outcome.panic := by
  have h1 : ¬ (p.length : Int) > m := by omega
  have h2 : pkgHeaderSizeMax - h < 0 ∨
      (((putUint32 (p.length % 2 ^ 32) ++ p).length : Nat) : Int) < pkgHeaderSizeMax - h := by
    right
    simp only [List.length_append, putUint32_length, pkgHeaderSizeMax]
    push_cast
    omega
  simp only [Conn.SendPkg, getPkgOption_accepts_negative h m r [] hh hm0 hm]
  simp only [h1, if_false, h2, if_true]

/-- For every accepted option with a `HeaderSize` from 1 to 4 and every payload within its
`MaxDataSize`, the offset `4 - HeaderSize` is from 0 to 3, the slice is in bounds: `SendPkg`
returns, and what it hands to each `Write` ends with the whole payload. -/
theorem SendPkg_slice_in_bounds (c : Conn) (p : List Byte) (option : List PkgOption)
    (o : PkgOption) (w : Nat) (h : getPkgOption option = Except.ok o)
    (hw : o.HeaderSize = (w : Int)) (hw1 : 1 ≤ w)
    (hlen : (p.length : Int) ≤ o.MaxDataSize) :
    0 ≤ pkgHeaderSizeMax - o.HeaderSize ∧ pkgHeaderSizeMax - o.HeaderSize ≤ 3
      ∧ ∃ err c1, c.SendPkg p option = Outcome.ret (err, c1)
          ∧ ∀ x ∈ c1.writes.drop c.writes.length, p <:+ x := by
  have hb := getPkgOption_bounds h
  obtain ⟨err, c1, k, hs, _, hwr, _⟩ := SendPkg_frame c p option o w h hw hw1 hlen
  refine ⟨?_, ?_, err, c1, hs, ?_⟩
  · have := hb.1
    simp only [pkgHeaderSizeMax] at this ⊢
    omega
  · simp only [pkgHeaderSizeMax]
    omega
  · intro x hx
    rw [hwr, List.drop_left] at hx
    rw [List.eq_of_mem_replicate hx]
    exact List.suffix_append _ _

/-- Claim C25, at the failing input: the option `{HeaderSize: -1}` is accepted by
`getPkgOption` (with `MaxDataSize` left at 0), the empty payload passes the `MaxDataSize`
check, the offset is `4 - (-1) = 5`, outside `[0, 4]` and beyond the 4 bytes of the buffer:
`SendPkg` faults on `buffer[offset:]`.  With `{HeaderSize: -2, MaxDataSize: 10}` and the
payload `1 2 3` the offset is 6: there is no fault, and the one byte `3` is written, not
the payload. -/
theorem SendPkg_negative_header_faults :
    getPkgOption [{ HeaderSize := -1, MaxDataSize := 0, Retry := { Count := 0, Interval := 0 } }]
        = Except.ok { HeaderSize := -1, MaxDataSize := 0, Retry := { Count := 0, Interval := 0 } }
      ∧ ¬ (((([] : List Byte).length : Nat) : Int) > 0)
      ∧ pkgHeaderSizeMax - (-1) = 5
      ∧ (NewConnByNetConn [] [] [] 0).SendPkg []
          [{ HeaderSize := -1, MaxDataSize := 0, Retry := { Count := 0, Interval := 0 } }]
        = Outcome.panic
      ∧ getPkgOption
          [{ HeaderSize := -2, MaxDataSize := 10, Retry := { Count := 0, Interval := 0 } }]
        = Except.ok { HeaderSize := -2, MaxDataSize := 10, Retry := { Count := 0, Interval := 0 } }
      ∧ (∃ c1, (NewConnByNetConn [] [] [] 0).SendPkg [1, 2, 3]
          [{ HeaderSize := -2, MaxDataSize := 10, Retry := { Count := 0, Interval := 0 } }]
          = Outcome.ret (none, c1) ∧ c1.writes = [[3]] ∧ c1.wire = [3]) :=
  ⟨rfl, by decide, rfl, rfl, rfl, ⟨_, rfl, rfl, rfl⟩⟩

/-! ## Framing round trip and the error of the last read -/

/-- The frame of a 4096-byte payload under the default option, received from a stream
that delivers the header in one read and the payload in a second read which also reports
the error `e`: the payload `Recv` asks for as many bytes as the reader's buffer holds, the
read goes straight to the stream, and `RecvPkg` returns the payload together with `e`. -/
theorem RecvPkg_payload_with_error (p : List Byte) (e : Err) (hp : p.length = 4096) :
    (NewConnByNetConn [⟨[16, 0], none⟩, ⟨p, some e⟩] [] [] 0).RecvPkg []
      = Outcome.ret ((p, some e), { NewConnByNetConn [] [] [] 0 with nreads := 2 }) := by
  have hg : getPkgOption [] = Except.ok ⟨2, 0xFFFF, ⟨0, 0⟩⟩ := rfl
  have hread1 : (NewConnByNetConn [⟨[16, 0], none⟩, ⟨p, some e⟩] [] [] 0).read 2
      = (([16, 0], none),
          { NewConnByNetConn [⟨p, some e⟩] [] [] 0 with nreads := 1 }) :=
    read_chunk _ 2 [16, 0] [⟨p, some e⟩] (by simp) (by simp) (by decide) rfl rfl rfl
  have hrecv1 : (NewConnByNetConn [⟨[16, 0], none⟩, ⟨p, some e⟩] [] [] 0).Recv 2
        [⟨0, 0⟩]
      = some (([16, 0], none), [⟨0, 0⟩],
          { NewConnByNetConn [⟨p, some e⟩] [] [] 0 with nreads := 1 }) := by
    unfold Conn.Recv
    simp only [show (0 : Int) < 2 by decide, if_true]
    have h := recvLoop_fixed_step
      (NewConnByNetConn [⟨[16, 0], none⟩, ⟨p, some e⟩] [] [] 0).rmeasure
      (NewConnByNetConn [⟨[16, 0], none⟩, ⟨p, some e⟩] [] [] 0) 2 [⟨0, 0⟩] []
      (by decide)
    simp only [List.length_nil, Nat.sub_zero, hread1, List.nil_append] at h
    simpa using h
  have h0 : ¬ p.length = 0 := by omega
  have hread2 : ({ NewConnByNetConn [⟨p, some e⟩] [] [] 0 with nreads := 1 } : Conn).read 4096
      = ((p, some e), { NewConnByNetConn [] [] [] 0 with nreads := 2 }) := by
    simp [Conn.read, NewConnByNetConn, netRead, bufSize, hp]
  have hrecv2 : ({ NewConnByNetConn [⟨p, some e⟩] [] [] 0 with nreads := 1 } : Conn).Recv 4096
        [⟨0, 0⟩]
      = some ((p, some e), [⟨0, 0⟩], { NewConnByNetConn [] [] [] 0 with nreads := 2 }) := by
    unfold Conn.Recv
    simp only [show (0 : Int) < 4096 by decide, if_true]
    have h := recvLoop_fixed_step
      ({ NewConnByNetConn [⟨p, some e⟩] [] [] 0 with nreads := 1 } : Conn).rmeasure
      ({ NewConnByNetConn [⟨p, some e⟩] [] [] 0 with nreads := 1 } : Conn) 4096 [⟨0, 0⟩] []
      (by decide)
    simp only [List.length_nil, Nat.sub_zero, hread2, List.nil_append] at h
    simpa [hp] using h
  have hdec : decodeHeader 2 [16, 0] = some 4096 := by decide
  unfold Conn.RecvPkg
  simp only [hg, hrecv1, hdec]
  simp [hrecv2]

/-- Claim C1 as stated fails.  `SendPkg` of a payload of 4096 bytes with the default
option writes the header `10 00` (hexadecimal) followed by the payload.  A stream that
delivers exactly these bytes, the header in a first read and the payload in a second read
that also reports the end of the stream, makes `RecvPkg` with the same option return the
payload together with the end-of-stream error, not a `nil` error. -/
theorem framing_round_trip_not_nil :
    (∃ cs1, (NewConnByNetConn [] [] [] 0).SendPkg (List.replicate 4096 0) []
          = Outcome.ret (none, cs1)
        ∧ cs1.wire = [16, 0] ++ List.replicate 4096 0)
      ∧ (NewConnByNetConn [⟨[16, 0], none⟩, ⟨List.replicate 4096 0, some Err.eof⟩] [] []
          0).RecvPkg []
        = Outcome.ret ((List.replicate 4096 0, some Err.eof),
            { NewConnByNetConn [] [] [] 0 with nreads := 2 }) := by
  refine ⟨?_, RecvPkg_payload_with_error _ Err.eof (List.length_replicate _ _)⟩
  obtain ⟨err, cs1, k, h1, _, _, _, _, _, _, h2⟩ :=
    SendPkg_frame (NewConnByNetConn [] [] [] 0) (List.replicate 4096 0) []
      ⟨2, 0xFFFF, ⟨0, 0⟩⟩ 2 rfl rfl (by decide)
      (by rw [List.length_replicate]; decide)
  obtain ⟨he, _, hw⟩ := h2 (by intro n e; simp [NewConnByNetConn])
  subst he
  refine ⟨cs1, h1, ?_⟩
  rw [hw, List.length_replicate]
  rfl

end Xtcp
